import Mathlib

/-!
# UnitedDeployment subset provisioning

A shallow embedding of two source files of the UnitedDeployment controller,

* `pkg/controller/uniteddeployment/uniteddeployment_controller_utils.go`
  (`ParseSubsetReplicas`, `round`), and
* `pkg/controller/uniteddeployment/uniteddeployment_update.go`
  (`manageSubsetProvision`),

together with the properties of the written specification that concern them.

Conventions of the embedding.

* Go strings are Lean strings; a byte index that falls after an ASCII
  character is the matching character index.
* Go `error` results are `Option GoError` (`none` is `nil`).
* `int32`/`int64` values are integers, with an explicit wrap-around where a
  conversion can overflow.
* `float64` values are the rationals on the binary64 grid; every arithmetic
  operation rounds its exact result to nearest, ties to even.  Infinities and
  NaN are not represented: the magnitudes reached from an `int32` total and a
  percentage in `[0, 100]` stay below `2^38`.
* The controls of the subset types act on an abstract cluster state `σ`; the
  pass threads a `World σ` that also records the calls made and the events
  emitted.  A run-time panic of the Go code is the result `none`.
* Go maps are lists of entries; a map lookup takes the first entry of a key.
* Calls to `klog` have no effect on the results and are left out.
-/

namespace uniteddeployment

/-! ## Errors -/

/-- A Go `error` value: its message and whether `errors.IsTimeout` holds of it. -/
structure GoError where
  msg : String
  isTimeout : Bool
  deriving DecidableEq, Repr

/-- The error built by `fmt.Errorf`: a plain error, never of the timeout class. -/
def fmtErrorf (msg : String) : GoError := ⟨msg, false⟩

/-- The predicate `errors.IsTimeout` of `k8s.io/apimachinery/pkg/api/errors`. -/
def IsTimeout (err : GoError) : Bool := err.isTimeout

/-! ## Machine integers -/

/-- Two's-complement wrap of an integer into `w` bits (`int32(x)`, `int64(x)`). -/
def wrapInt (w : Nat) (n : Int) : Int :=
  (n + 2 ^ (w - 1)) % 2 ^ w - 2 ^ (w - 1)

/-! ## `float64` arithmetic -/

/-- Nearest integer to a rational, ties to the even neighbour. -/
def roundHalfEven (x : ℚ) : ℤ :=
  let f : ℤ := ⌊x⌋
  let r : ℚ := x - f
  if r < 1 / 2 then f
  else if 1 / 2 < r then f + 1
  else if f % 2 = 0 then f else f + 1

/-- The binary exponent of the unit in the last place of the binary64 format
at `x`: 53 significant bits, subnormal spacing `2^-1074`. -/
def float64.ulpExp (x : ℚ) : ℤ := max (Int.log 2 |x| - 52) (-1074)

/-- Rounding of an exact rational result to binary64, nearest-even. -/
def float64.rne (x : ℚ) : ℚ :=
  if x = 0 then 0
  else (roundHalfEven (x / (2 : ℚ) ^ float64.ulpExp x) : ℚ) * (2 : ℚ) ^ float64.ulpExp x

/-- Conversion `float64(n)` of an integer. -/
def float64.ofInt (n : Int) : ℚ := float64.rne n

/-- Product `x * y` in `float64`. -/
def float64.mul (x y : ℚ) : ℚ := float64.rne (x * y)

/-- Quotient `x / y` in `float64`. -/
def float64.div (x y : ℚ) : ℚ := float64.rne (x / y)

/-- Sum `x + y` in `float64`. -/
def float64.add (x y : ℚ) : ℚ := float64.rne (x + y)

/-- The function `math.Floor`: the floor of a binary64 value is again a
binary64 value, so no rounding takes place. -/
def math.Floor (x : ℚ) : ℚ := (⌊x⌋ : ℤ)

/-- Conversion `int(x)` of a `float64` to the 64-bit `int`: the fraction is
discarded (truncation towards zero). -/
def float64.toInt (x : ℚ) : Int :=
  wrapInt 64 (if 0 ≤ x then ⌊x⌋ else ⌈x⌉)

/-! ## `strconv.ParseInt` (Go standard library), base 10 -/

/-- The two sentinel errors of `strconv`. -/
inductive NumErrorKind where
  | ErrSyntax
  | ErrRange
  deriving DecidableEq, Repr

/-- The helper `lower` of `strconv`: `c | ('x' - 'X')`. -/
def strconv.lower (c : Nat) : Nat := c ||| 0x20

/-- One iteration of the digit loop of `strconv.ParseUint` for base 10:
`n` is the accumulator (a `uint64`), `maxVal` is `1<<bitSize - 1`. -/
def strconv.parseUintStep (maxVal n : Nat) (c : Char) : Except NumErrorKind Nat :=
  let cutoff : Nat := (2 ^ 64 - 1) / 10 + 1
  let d? : Option Nat :=
    if 48 ≤ c.toNat ∧ c.toNat ≤ 57 then some (c.toNat - 48)
    else if 97 ≤ strconv.lower c.toNat ∧ strconv.lower c.toNat ≤ 122 then
      some (strconv.lower c.toNat - 97 + 10)
    else none
  match d? with
  | none => .error .ErrSyntax
  | some d =>
    if d ≥ 10 then .error .ErrSyntax
    else if n ≥ cutoff then .error .ErrRange
    else
      let n10 := (n * 10) % 2 ^ 64
      let n1 := (n10 + d) % 2 ^ 64
      if n1 < n10 ∨ n1 > maxVal then .error .ErrRange
      else .ok n1

/-- The digit loop of `strconv.ParseUint`. -/
def strconv.parseUintLoop (maxVal : Nat) : Nat → List Char → Except NumErrorKind Nat
  | n, [] => .ok n
  | n, c :: cs =>
    match strconv.parseUintStep maxVal n c with
    | .error e => .error e
    | .ok n1 => strconv.parseUintLoop maxVal n1 cs

/-- The call `strconv.ParseUint(s, 10, bitSize)`. -/
def strconv.ParseUint (s : List Char) (bitSize : Nat) : Except NumErrorKind Nat :=
  if s = [] then .error .ErrSyntax
  else strconv.parseUintLoop (2 ^ bitSize - 1) 0 s

/-- The call `strconv.ParseInt(s, 10, bitSize)`: an optional sign, then the
unsigned digits, then the range check against `1 << (bitSize-1)`.  A range
error of the unsigned parse is again a range error of the signed parse, so
every error of `ParseUint` is passed on. -/
def strconv.ParseInt (s : String) (bitSize : Nat) : Except NumErrorKind Int :=
  match s.data with
  | [] => .error .ErrSyntax
  | c :: cs =>
    let neg : Bool := c = '-'
    let digits : List Char := if c = '+' ∨ c = '-' then cs else c :: cs
    match strconv.ParseUint digits bitSize with
    | .error e => .error e
    | .ok un =>
      let cutoff : Nat := 2 ^ (bitSize - 1)
      if !neg ∧ un ≥ cutoff then .error .ErrRange
      else if neg ∧ un > cutoff then .error .ErrRange
      else .ok (if neg then -(un : Int) else (un : Int))

/-- The text of a `strconv` error as `%s` prints it (the quoting of the
parsed text is plain, without escapes). -/
def NumErrorKind.Error (e : NumErrorKind) (num : String) : String :=
  "strconv.ParseInt: parsing " ++ num ++ ": " ++
    (match e with
     | .ErrSyntax => "invalid syntax"
     | .ErrRange => "value out of range")

/-! ## `intstr.IntOrString` -/

/-- The discriminator `intstr.Type` (`Int`, `String`). -/
inductive intstr.Kind where
  | Int
  | String
  deriving DecidableEq, Repr

/-- The type `intstr.IntOrString`: a discriminator and both payload fields. -/
structure intstr.IntOrString where
  Kind : intstr.Kind
  IntVal : Int
  StrVal : String
  deriving DecidableEq, Repr

/-- The constructor `intstr.FromInt`. -/
def intstr.FromInt (v : Int) : intstr.IntOrString := ⟨.Int, v, ""⟩

/-- The constructor `intstr.FromString`. -/
def intstr.FromString (s : String) : intstr.IntOrString := ⟨.String, 0, s⟩

/-- The function `strings.HasSuffix`. -/
def strings.HasSuffix (s suffix : String) : Bool :=
  suffix.data.isSuffixOf s.data

/-! ## `ParseSubsetReplicas` -/

/-- The helper `round` of the source: `int(math.Floor(x + 0.5))`. -/
def round (x : ℚ) : Int :=
  float64.toInt (math.Floor (float64.add x (1 / 2)))

/-- The function `ParseSubsetReplicas`: the replicas number of a subset, given
the total `udReplicas` and the subset's absolute or percentage quantity.
The result is the pair (number, error) that the Go function returns. -/
def ParseSubsetReplicas (udReplicas : Int) (subsetReplicas : intstr.IntOrString) :
    Int × Option GoError :=
  if subsetReplicas.Kind = .Int then
    if subsetReplicas.IntVal < 0 then
      (0, some (fmtErrorf ("subset replicas (" ++ toString subsetReplicas.IntVal ++
        ") should not be less than 0")))
    else (subsetReplicas.IntVal, none)
  else
    let strVal := subsetReplicas.StrVal
    if !strings.HasSuffix strVal "%" then
      (0, some (fmtErrorf ("subset replicas (" ++ strVal ++
        ") only support integer value or percentage value with a suffix '%'")))
    else
      let intPart : String := ⟨strVal.data.dropLast⟩
      match strconv.ParseInt intPart 32 with
      | .error err =>
        (0, some (fmtErrorf ("subset replicas (" ++ strVal ++
          ") should be correct percentage integer: " ++ err.Error intPart)))
      | .ok percent64 =>
        if percent64 > 100 ∨ percent64 < 0 then
          (0, some (fmtErrorf ("subset replicas (" ++ strVal ++
            ") should be in range [0, 100]")))
        else
          (wrapInt 32 (round (float64.div
            (float64.mul (float64.ofInt udReplicas) (float64.ofInt percent64))
            (float64.ofInt 100))), none)


/-! ## `sets.String` -/

/-- The type `sets.String` of `k8s.io/apimachinery/pkg/util/sets`: a set of
strings, kept as the list of its keys (each key once, in no particular order). -/
abbrev StringSet := List String

/-- The empty set `sets.String{}`. -/
def StringSet.empty : StringSet := []

/-- The method `Has`. -/
def StringSet.Has (s : StringSet) (item : String) : Bool := decide (item ∈ s)

/-- The method `Insert` for one item: a key already present is kept once. -/
def StringSet.Insert (s : StringSet) (item : String) : StringSet :=
  if s.Has item then s else s ++ [item]

/-- The method `Len`. -/
def StringSet.Len (s : StringSet) : Nat := s.length

/-- The order of `sort.Strings`: lexicographic on the characters. -/
def strLE (a b : String) : Prop := a.data ≤ b.data

instance strLE.decidable : DecidableRel strLE :=
  fun a b => inferInstanceAs (Decidable (a.data ≤ b.data))

instance strLE.isTotal : IsTotal String strLE :=
  ⟨fun a b => le_total a.data b.data⟩

instance strLE.isTrans : IsTrans String strLE :=
  ⟨fun a b c (hab : a.data ≤ b.data) (hbc : b.data ≤ c.data) => le_trans hab hbc⟩

instance strLE.isAntisymm : IsAntisymm String strLE :=
  ⟨fun a b (hab : a.data ≤ b.data) (hba : b.data ≤ a.data) => String.ext (le_antisymm hab hba)⟩

/-- The method `List`: the keys as a sorted slice. -/
def StringSet.List (s : StringSet) : List String := s.insertionSort strLE

/-- The method `Intersection`: walks the smaller set and keeps the keys the
other set has. -/
def StringSet.Intersection (s1 s2 : StringSet) : StringSet :=
  let walk := if s1.Len < s2.Len then s1 else s2
  let other := if s1.Len < s2.Len then s2 else s1
  walk.foldl (fun result key => if other.Has key then result.Insert key else result)
    StringSet.empty

/-! ## Data model of the provisioning pass -/

/-- Modelled from the spec: the type `subSetType` (a string naming the
workload kind that backs a subset); its declaration is outside the two
source files. -/
abbrev subSetType := String

/-- Modelled from the spec: an entry `appsv1alpha1.Subset` of the desired
topology; only the name is read by the provisioning pass. -/
structure appsv1alpha1.Subset where
  Name : String
  deriving DecidableEq, Repr

/-- Modelled from the spec: the field `Spec.Topology` of a UnitedDeployment. -/
structure appsv1alpha1.Topology where
  Subsets : List appsv1alpha1.Subset
  deriving DecidableEq, Repr

/-- Modelled from the spec: the field `Spec` of a UnitedDeployment. -/
structure appsv1alpha1.UnitedDeploymentSpec where
  Topology : appsv1alpha1.Topology
  deriving DecidableEq, Repr

/-- Modelled from the spec: the desired object `appsv1alpha1.UnitedDeployment`,
with the fields the provisioning pass reads. -/
structure appsv1alpha1.UnitedDeployment where
  Namespace : String
  Name : String
  Spec : appsv1alpha1.UnitedDeploymentSpec
  deriving DecidableEq, Repr

/-- Modelled from the spec: an observed `Subset` of the package, with the
object metadata the provisioning pass reads. -/
structure Subset where
  Namespace : String
  Name : String
  deriving DecidableEq, Repr

/-- Modelled from the spec: a revision `appsv1.ControllerRevision`; only its
name is read. -/
structure ControllerRevision where
  Name : String
  deriving DecidableEq, Repr

/-- Modelled from the spec: the capability contract `ControlInterface` that
every subset type implements.  Each method acts on the cluster state `σ` and
returns its Go results together with the new state. -/
structure ControlInterface (σ : Type) where
  GetAllSubsets : appsv1alpha1.UnitedDeployment → σ → (List Subset × Option GoError) × σ
  CreateSubset : appsv1alpha1.UnitedDeployment → String → String → Int → Int → σ →
    Option GoError × σ
  DeleteSubset : Subset → σ → Option GoError × σ

/-- Modelled from the spec: the reconciler `ReconcileUnitedDeployment`; its
field `subSetControls` is the map from subset type to control, kept as the
list of its entries. -/
structure ReconcileUnitedDeployment (σ : Type) where
  subSetControls : List (subSetType × ControlInterface σ)

/-- Modelled from the spec: the package constants used by the pass, whose
declarations are outside the two source files. -/
structure Constants where
  slowStartInitialBatchSize : Nat
  eventTypeSubsetsUpdate : String
  deriving DecidableEq, Repr

/-- An event handed to `recorder.Eventf`. -/
structure Event where
  eventtype : String
  reason : String
  message : String
  deriving DecidableEq, Repr

/-- A call made on a control of the registry, with the results it gave. -/
inductive Call where
  | CreateSubset (t : subSetType) (subsetName revision : String) (replicas partition : Int)
      (err : Option GoError)
  | DeleteSubset (t : subSetType) (subset : Subset) (err : Option GoError)
  | GetAllSubsets (t : subSetType) (subsets : List Subset) (err : Option GoError)
  deriving DecidableEq, Repr

/-- The error a call returned. -/
def Call.err : Call → Option GoError
  | .CreateSubset _ _ _ _ _ err => err
  | .DeleteSubset _ _ err => err
  | .GetAllSubsets _ _ err => err

/-- The subset type whose control received the call. -/
def Call.subsetType : Call → subSetType
  | .CreateSubset t _ _ _ _ _ => t
  | .DeleteSubset t _ _ => t
  | .GetAllSubsets t _ _ => t

/-- Whether the call is a `CreateSubset`. -/
def Call.isCreate : Call → Bool
  | .CreateSubset _ _ _ _ _ _ => true
  | _ => false

/-- Whether the call is a `DeleteSubset`. -/
def Call.isDelete : Call → Bool
  | .DeleteSubset _ _ _ => true
  | _ => false

/-- Whether the call is a `GetAllSubsets`. -/
def Call.isGetAll : Call → Bool
  | .GetAllSubsets _ _ _ => true
  | _ => false

/-- Everything outside the pass that the pass acts on: the cluster state
behind the controls, and the record of the calls made and events emitted. -/
structure World (σ : Type) where
  cluster : σ
  calls : List Call
  events : List Event
  deriving DecidableEq, Repr

/-- The world after a call on a control. -/
def World.afterCall {σ : Type} (w : World σ) (cluster : σ) (call : Call) : World σ :=
  { w with cluster := cluster, calls := w.calls ++ [call] }

/-- The world after `recorder.Eventf`. -/
def World.Eventf {σ : Type} (w : World σ) (eventtype reason message : String) : World σ :=
  { w with events := w.events ++ [⟨eventtype, reason, message⟩] }

/-- The constant `corev1.EventTypeNormal`. -/
def EventTypeNormal : String := "Normal"

/-- The function `utilerrors.NewAggregate`: `nil` for an empty slice, else an
error that holds the collected errors. -/
def NewAggregate (errs : List GoError) : Option (List GoError) :=
  if errs.length = 0 then none else some errs

/-! ## `util.SlowStartBatch` -/

/-- Modelled from the spec: one round of the batch creator.  The `batchSize`
calls of a round are dispatched for consecutive indexes starting at `index`
and the round ends when all have returned; the concurrent calls are taken in
ascending index order.  Returns the errors of the round, or `none` when a
call panics. -/
def runBatch {S : Type} (fn : Nat → S → Option (Option GoError × S)) :
    Nat → Nat → S → Option (List GoError × S)
  | 0, _, s => some ([], s)
  | batchSize + 1, index, s =>
    match fn index s with
    | none => none
    | some (err, s1) =>
      match runBatch fn batchSize (index + 1) s1 with
      | none => none
      | some (errs, s2) => some (err.toList ++ errs, s2)

/-- Modelled from the spec: the rounds of the batch creator.  A round of
size `batchSize` runs while `batchSize > 0`; when a call of the round fails the
first error is returned and no further round starts; otherwise the next round
has size `min(2 × batchSize, remaining)`.  `fuel` bounds the number of rounds. -/
def slowStartLoop {S : Type} (fn : Nat → S → Option (Option GoError × S)) :
    Nat → Nat → Nat → Nat → Nat → S → Option ((Nat × Option GoError) × S)
  | 0, _, _, _, successes, s => some ((successes, none), s)
  | fuel + 1, remaining, batchSize, index, successes, s =>
    if batchSize > 0 then
      match runBatch fn batchSize index s with
      | none => none
      | some (errCh, s1) =>
        let successes := successes + (batchSize - errCh.length)
        match errCh with
        | err :: _ => some ((successes, some err), s1)
        | [] =>
          let remaining := remaining - batchSize
          slowStartLoop fn fuel remaining (min (2 * batchSize) remaining)
            (index + batchSize) successes s1
    else some ((successes, none), s)

/-- Modelled from the spec: the batch creator `util.SlowStartBatch(count,
initialBatchSize, fn)` of §4.3: rounds of geometrically growing size, the
first of size `min(count, initialBatchSize)`; returns the number of successful
calls and the first error.  Every round dispatches at least one call, so
`count` rounds suffice. -/
def SlowStartBatch {S : Type} (count initialBatchSize : Nat)
    (fn : Nat → S → Option (Option GoError × S)) (s : S) :
    Option ((Nat × Option GoError) × S) :=
  slowStartLoop fn count count (min count initialBatchSize) 0 0 s

/-! ## `manageSubsetProvision` -/

/-- The set `expectedSubsets` (source lines 34, 37-39). -/
def expectedSubsetsOf (ud : appsv1alpha1.UnitedDeployment) : StringSet :=
  ud.Spec.Topology.Subsets.foldl (fun s subset => s.Insert subset.Name) StringSet.empty

/-- The set `gotSubsets` (source lines 35, 41-43). -/
def gotSubsetsOf (nameToSubset : List (String × Subset)) : StringSet :=
  nameToSubset.foldl (fun s entry => s.Insert entry.1) StringSet.empty

/-- The slice `creates` (source lines 46-53). -/
def planCreates (expectedSubsets gotSubsets : StringSet) : List String :=
  expectedSubsets.List.filter (fun expectSubset => !gotSubsets.Has expectSubset)

/-- The slice `deletes` (source lines 55-62). -/
def planDeletes (expectedSubsets gotSubsets : StringSet) : List String :=
  gotSubsets.List.filter (fun gotSubset => !expectedSubsets.Has gotSubset)

/-- The revision stamped on the subsets created in a pass (source lines 74-77). -/
def selectRevision (currentRevision : ControllerRevision)
    (updatedRevision : Option ControllerRevision) : String :=
  match updatedRevision with
  | some updated => updated.Name
  | none => currentRevision.Name

/-- The per-item function handed to `util.SlowStartBatch` (source lines 81-94).
`none` is a run-time panic: an index outside `createdSubsets`, or no control
registered for `subsetType`. -/
def createSubsetFn {σ : Type} (r : ReconcileUnitedDeployment σ)
    (ud : appsv1alpha1.UnitedDeployment) (nextReplicas nextPartitions : List (String × Int))
    (revision : String) (subsetType : subSetType) (createdSubsets : List String)
    (idx : Nat) (w : World σ) : Option (Option GoError × World σ) :=
  match createdSubsets.get? idx, r.subSetControls.lookup subsetType with
  | some subsetName, some control =>
    let replicas := (nextReplicas.lookup subsetName).getD 0
    let partition := (nextPartitions.lookup subsetName).getD 0
    let (err, cluster) := control.CreateSubset ud subsetName revision replicas partition w.cluster
    let w1 := w.afterCall cluster
      (Call.CreateSubset subsetType subsetName revision replicas partition err)
    match err with
    | some e =>
      if !IsTimeout e then
        some (some (fmtErrorf ("fail to create Subset (" ++ subsetType ++ ") " ++ subsetName ++
          ": " ++ e.msg)), w1)
      else some (none, w1)
    | none => some (none, w1)
  | _, _ => none

/-- The create phase (source lines 66-100): `errs` is the slice of the errors
collected so far. -/
def manageCreating {σ : Type} (c : Constants) (r : ReconcileUnitedDeployment σ)
    (ud : appsv1alpha1.UnitedDeployment) (nextReplicas nextPartitions : List (String × Int))
    (currentRevision : ControllerRevision) (updatedRevision : Option ControllerRevision)
    (subsetType : subSetType) (creates : List String) (errs : List GoError) (w : World σ) :
    Option (List GoError × World σ) :=
  if creates.length > 0 then
    let createdSubsets := creates
    let revision := selectRevision currentRevision updatedRevision
    match SlowStartBatch creates.length c.slowStartInitialBatchSize
        (createSubsetFn r ud nextReplicas nextPartitions revision subsetType createdSubsets) w with
    | none => none
    | some ((createdNum, createdErr), w1) =>
      match createdErr with
      | none =>
        some (errs, w1.Eventf EventTypeNormal ("Successful" ++ c.eventTypeSubsetsUpdate)
          ("Create " ++ toString createdNum ++ " Subset (" ++ subsetType ++ ")"))
      | some e => some (errs ++ [e], w1)
  else some (errs, w)

/-- The loop of the delete phase (source lines 106-111).  `none` is a
run-time panic: no control registered for `subsetType`, or a name without an
entry in `nameToSubset` (a nil subset). -/
def deleteLoop {σ : Type} (r : ReconcileUnitedDeployment σ)
    (nameToSubset : List (String × Subset)) (subsetType : subSetType) :
    List String → List GoError → World σ → Option (List GoError × World σ)
  | [], deleteErrs, w => some (deleteErrs, w)
  | subsetName :: rest, deleteErrs, w =>
    match nameToSubset.lookup subsetName, r.subSetControls.lookup subsetType with
    | some subset, some control =>
      let (err, cluster) := control.DeleteSubset subset w.cluster
      let w1 := w.afterCall cluster (Call.DeleteSubset subsetType subset err)
      match err with
      | some e =>
        deleteLoop r nameToSubset subsetType rest
          (deleteErrs ++ [fmtErrorf ("fail to delete Subset (" ++ subsetType ++ ") " ++
            subset.Namespace ++ "/" ++ subset.Name ++ " for " ++ subsetName ++ ": " ++ e.msg)]) w1
      | none => deleteLoop r nameToSubset subsetType rest deleteErrs w1
    | _, _ => none

/-- The delete phase (source lines 103-118). -/
def manageDeleting {σ : Type} (c : Constants) (r : ReconcileUnitedDeployment σ)
    (nameToSubset : List (String × Subset)) (subsetType : subSetType) (deletes : List String)
    (errs : List GoError) (w : World σ) : Option (List GoError × World σ) :=
  if deletes.length > 0 then
    match deleteLoop r nameToSubset subsetType deletes [] w with
    | none => none
    | some (deleteErrs, w1) =>
      if deleteErrs.length > 0 then some (errs ++ deleteErrs, w1)
      else
        some (errs, w1.Eventf EventTypeNormal ("Successful" ++ c.eventTypeSubsetsUpdate)
          ("Delete " ++ toString deletes.length ++ " Subset (" ++ subsetType ++ ")"))
  else some (errs, w)

/-- The deletion of the subsets of another type (source lines 132-137). -/
def deleteOtherSubsets {σ : Type} (ud : appsv1alpha1.UnitedDeployment) (t : subSetType)
    (control : ControlInterface σ) :
    List Subset → List GoError → World σ → List GoError × World σ
  | [], errs, w => (errs, w)
  | subset :: rest, errs, w =>
    let (err, cluster) := control.DeleteSubset subset w.cluster
    let w1 := w.afterCall cluster (Call.DeleteSubset t subset err)
    match err with
    | some e =>
      deleteOtherSubsets ud t control rest
        (errs ++ [fmtErrorf ("fail to delete Subset " ++ subset.Name ++ " of other type " ++ t ++
          " for UnitedDeployment " ++ ud.Namespace ++ "/" ++ ud.Name ++ ": " ++ e.msg)]) w1
    | none => deleteOtherSubsets ud t control rest errs w1

/-- The cleanup of the subsets of the other types (source lines 121-138),
over the entries of the control registry. -/
def cleanOtherSubsets {σ : Type} (ud : appsv1alpha1.UnitedDeployment) (subsetType : subSetType) :
    List (subSetType × ControlInterface σ) → List GoError → World σ → List GoError × World σ
  | [], errs, w => (errs, w)
  | (t, control) :: rest, errs, w =>
    if t = subsetType then cleanOtherSubsets ud subsetType rest errs w
    else
      let ((subsets, err), cluster) := control.GetAllSubsets ud w.cluster
      let w1 := w.afterCall cluster (Call.GetAllSubsets t subsets err)
      match err with
      | some e =>
        cleanOtherSubsets ud subsetType rest
          (errs ++ [fmtErrorf ("fail to list Subset of other type " ++ t ++
            " for UnitedDeployment " ++ ud.Namespace ++ "/" ++ ud.Name ++ ": " ++ e.msg)]) w1
      | none =>
        let (errs2, w2) := deleteOtherSubsets ud t control subsets errs w1
        cleanOtherSubsets ud subsetType rest errs2 w2

/-- The results of a provisioning pass: the two Go results, and the world
the pass leaves behind. -/
structure ProvisionResult (σ : Type) where
  retained : StringSet
  err : Option (List GoError)
  world : World σ
  deriving DecidableEq, Repr

/-- The method `manageSubsetProvision`: one provisioning pass over the cluster
state `cluster`.  The pointer arguments other than `updatedRevision` are taken
to be non-nil; `none` is a run-time panic. -/
def manageSubsetProvision {σ : Type} (c : Constants) (r : ReconcileUnitedDeployment σ)
    (ud : appsv1alpha1.UnitedDeployment) (nameToSubset : List (String × Subset))
    (nextReplicas nextPartitions : List (String × Int))
    (currentRevision : ControllerRevision) (updatedRevision : Option ControllerRevision)
    (subsetType : subSetType) (cluster : σ) : Option (ProvisionResult σ) :=
  let expectedSubsets := expectedSubsetsOf ud
  let gotSubsets := gotSubsetsOf nameToSubset
  let creates := planCreates expectedSubsets gotSubsets
  let deletes := planDeletes expectedSubsets gotSubsets
  match manageCreating c r ud nextReplicas nextPartitions currentRevision updatedRevision
      subsetType creates [] ⟨cluster, [], []⟩ with
  | none => none
  | some (errs1, w1) =>
    match manageDeleting c r nameToSubset subsetType deletes errs1 w1 with
    | none => none
    | some (errs2, w2) =>
      let (errs3, w3) := cleanOtherSubsets ud subsetType r.subSetControls errs2 w2
      some ⟨expectedSubsets.Intersection gotSubsets, NewAggregate errs3, w3⟩

/-! ## `getSubsetNameFrom` and `getSubsetPrefix` -/

/-- Modelled from the spec: the accessor view `metav1.Object` of a cluster
object, with what `getSubsetNameFrom` reads: namespace, name and the label map
(a nil map is the empty list of entries). -/
structure ObjectMeta where
  Namespace : String
  Name : String
  Labels : List (String × String)
  deriving DecidableEq, Repr

/-- The function `getSubsetNameFrom`; the label key
`appsv1alpha1.SubSetNameLabelKey`, declared outside the two source files, is
the parameter `SubSetNameLabelKey`.  The result is the pair (name, error). -/
def getSubsetNameFrom (SubSetNameLabelKey : String) (metaObj : ObjectMeta) :
    String × Option GoError :=
  match metaObj.Labels.lookup SubSetNameLabelKey with
  | none =>
    ("", some (fmtErrorf ("fail to get subSet name from label of subset " ++
      metaObj.Namespace ++ "/" ++ metaObj.Name ++ ": no label " ++ SubSetNameLabelKey ++
      " found")))
  | some name =>
    if name.length = 0 then
      ("", some (fmtErrorf ("fail to get subSet name from label of subset " ++
        metaObj.Namespace ++ "/" ++ metaObj.Name ++ ": label " ++ SubSetNameLabelKey ++
        " has an empty value")))
    else (name, none)

/-- The function `getSubsetPrefix`.  The validator
`validation.NameIsDNSSubdomain` of `k8s.io/apimachinery` is the parameter
`NameIsDNSSubdomain`: it returns the list of the reasons why a name is not a
DNS subdomain (second argument: the name is a name prefix). -/
def getSubsetPrefix (NameIsDNSSubdomain : String → Bool → List String)
    (controllerName subsetName : String) : String :=
  let combined := controllerName ++ "-" ++ subsetName ++ "-"
  if (NameIsDNSSubdomain combined true).length ≠ 0 then controllerName ++ "-"
  else combined

/-- A call that returned an error. -/
def Call.failed (call : Call) : Bool := call.err.isSome

/-- A call that returned an error outside the timeout class. -/
def Call.hardFailed (call : Call) : Bool :=
  match call.err with
  | some e => !IsTimeout e
  | none => false

/-- The call is the `CreateSubset` of the pass for the subset `subsetName`: on
the control of `subsetType`, with the revision of the pass and the replicas and
partition that the allocation maps hold for the name (0 when there is none). -/
def IsCreateCallFor (subsetType : subSetType) (revision : String)
    (nextReplicas nextPartitions : List (String × Int)) (subsetName : String) (call : Call) :
    Prop :=
  ∃ err, call = Call.CreateSubset subsetType subsetName revision
    ((nextReplicas.lookup subsetName).getD 0) ((nextPartitions.lookup subsetName).getD 0) err

/-- The call is the `DeleteSubset` of the delete phase for the name
`subsetName`: on the control of `subsetType`, for the subset that the observed
map holds under the name. -/
def IsDeleteCallFor (nameToSubset : List (String × Subset)) (subsetType : subSetType)
    (subsetName : String) (call : Call) : Prop :=
  ∃ subset err, nameToSubset.lookup subsetName = some subset ∧
    call = Call.DeleteSubset subsetType subset err

/-- The calls that the cleanup makes for one subset type `t` other than the
active one: either a failed `GetAllSubsets` alone, or a successful
`GetAllSubsets` followed by one `DeleteSubset` for each subset it returned, in
order. -/
def IsCleanupBlock (t : subSetType) (block : List Call) : Prop :=
  (∃ subsets e, block = [Call.GetAllSubsets t subsets (some e)]) ∨
  (∃ subsets deleteCalls, block = Call.GetAllSubsets t subsets none :: deleteCalls ∧
    List.Forall₂ (fun subset call => ∃ err, call = Call.DeleteSubset t subset err)
      subsets deleteCalls)

/-- The subset types of the registry other than the active one, in the order
of the registry. -/
def otherTypes {σ : Type} (r : ReconcileUnitedDeployment σ) (subsetType : subSetType) :
    List subSetType :=
  (r.subSetControls.map (fun entry => entry.1)).filter (fun t => decide (t ≠ subsetType))

/-! ## Reading of the specification's words

The definitions of this section follow the wording of the specification, not
the code; the theorems compare the code with them. -/

/-- A decimal digit `0`..`9`. -/
def isDecimalDigit (c : Char) : Bool := decide (48 ≤ c.toNat) && decide (c.toNat ≤ 57)

/-- The number a sequence of decimal digits denotes, continuing from `n`. -/
def decimalValueFrom (n : Nat) (ds : List Char) : Nat :=
  ds.foldl (fun acc c => acc * 10 + (c.toNat - 48)) n

/-- The number a non-empty sequence of decimal digits denotes. -/
def decimalNatural (ds : List Char) : Option Nat :=
  if ds ≠ [] ∧ ds.all isDecimalDigit = true then some (decimalValueFrom 0 ds) else none

/-- The integer that a text denotes in base 10: an optional sign followed by
one or more decimal digits; `none` for any other text. -/
def decimalInteger (s : List Char) : Option Int :=
  match s with
  | [] => none
  | c :: cs =>
    if c = '-' then (decimalNatural cs).map (fun (v : Nat) => -(v : Int))
    else if c = '+' then (decimalNatural cs).map (fun (v : Nat) => (v : Int))
    else (decimalNatural (c :: cs)).map (fun (v : Nat) => (v : Int))

/-- A failed resolution: an error is returned, together with the number 0. -/
def failsWithZero (result : Int × Option GoError) : Prop :=
  result.1 = 0 ∧ result.2.isSome = true

/-! ## Observation of the batch creator -/

/-- The per-item function `fn`, made to record each of its invocations: the
index it was called with and the error it returned. -/
def traceFn {S : Type} (fn : Nat → S → Option (Option GoError × S)) (idx : Nat)
    (st : S × List (Nat × Option GoError)) :
    Option (Option GoError × (S × List (Nat × Option GoError))) :=
  match fn idx st.1 with
  | none => none
  | some (err, s1) => some (err, (s1, st.2 ++ [(idx, err)]))

/-- The batch sizes of the rounds of the batch creator while no call fails
(§4.3, step 1): a round of size `batchSize` runs while `batchSize > 0`, and the
next round has size `min(2 × batchSize, remaining)`. -/
def batchSizesFrom : Nat → Nat → Nat → List Nat
  | 0, _, _ => []
  | fuel + 1, remaining, batchSize =>
    if batchSize > 0 then
      batchSize :: batchSizesFrom fuel (remaining - batchSize)
        (min (2 * batchSize) (remaining - batchSize))
    else []

/-- The batch sizes of `SlowStartBatch(count, initialBatchSize, fn)` while no
call fails; the first round has size `min(count, initialBatchSize)`. -/
def batchSizes (count initialBatchSize : Nat) : List Nat :=
  batchSizesFrom count count (min count initialBatchSize)

/-! ## Calls that take effect -/

/-- Modelled from the spec: every call on a control of the registry succeeds
and takes effect on the cluster state.  `owned s t` lists the subsets of type
`t` that the desired object owns in the cluster state `s`, and `nameOf` gives
the logical name of a subset (its subset-name label).  Listing returns the
owned subsets and changes nothing; deleting a subset removes it from the
subsets of the type of the control; creating a subset adds a subset of the
given logical name to the subsets of the type of the control. -/
structure CallsTakeEffect {σ : Type} (r : ReconcileUnitedDeployment σ)
    (ud : appsv1alpha1.UnitedDeployment) (owned : σ → subSetType → List Subset)
    (nameOf : Subset → String) : Prop where
  getAll : ∀ t control, (t, control) ∈ r.subSetControls → ∀ s,
    control.GetAllSubsets ud s = ((owned s t, none), s)
  delete : ∀ t control, (t, control) ∈ r.subSetControls → ∀ subset s,
    (control.DeleteSubset subset s).1 = none ∧
    ∀ t2, owned (control.DeleteSubset subset s).2 t2
      = if t2 = t then (owned s t2).filter (fun o => decide (o ≠ subset)) else owned s t2
  create : ∀ t control, (t, control) ∈ r.subSetControls →
    ∀ subsetName revision replicas partition s,
      (control.CreateSubset ud subsetName revision replicas partition s).1 = none ∧
      ∃ subset, nameOf subset = subsetName ∧
        ∀ t2, owned (control.CreateSubset ud subsetName revision replicas partition s).2 t2
          = if t2 = t then owned s t2 ++ [subset] else owned s t2

/-- Modelled from the spec: the observed map that the caller hands to the pass
in the cluster state `s`: each owned subset of the active type, under its
logical name. -/
def observedSubsets {σ : Type} (owned : σ → subSetType → List Subset)
    (nameOf : Subset → String) (subsetType : subSetType) (s : σ) : List (String × Subset) :=
  (owned s subsetType).map (fun o => (nameOf o, o))

/-! ## Example inputs -/

/-- A desired object whose topology lists the subsets `a`, `b`, `c`. -/
def exampleUD : appsv1alpha1.UnitedDeployment :=
  ⟨"default", "ud", ⟨⟨[⟨"a"⟩, ⟨"b"⟩, ⟨"c"⟩]⟩⟩⟩

/-- An observed map with the subsets `b`, `c`, `d`. -/
def exampleObserved : List (String × Subset) :=
  [("b", ⟨"default", "ud-b-1"⟩), ("c", ⟨"default", "ud-c-1"⟩), ("d", ⟨"default", "ud-d-1"⟩)]

/-- A control on which every call succeeds; the cluster state counts the calls. -/
def okControl : ControlInterface Nat :=
  { GetAllSubsets := fun _ n => (([], none), n + 1)
    CreateSubset := fun _ _ _ _ _ n => (none, n + 1)
    DeleteSubset := fun _ n => (none, n + 1) }

/-- A control whose `CreateSubset` fails with a timeout-class error. -/
def timeoutControl : ControlInterface Nat :=
  { okControl with CreateSubset := fun _ _ _ _ _ n => (some ⟨"request timed out", true⟩, n + 1) }

/-- A control whose `CreateSubset` and `DeleteSubset` fail with a plain error. -/
def failingControl : ControlInterface Nat :=
  { okControl with
    CreateSubset := fun _ _ _ _ _ n => (some ⟨"create refused", false⟩, n + 1)
    DeleteSubset := fun _ n => (some ⟨"delete refused", false⟩, n + 1) }

/-- A control of another type that owns two subsets; deleting the first fails. -/
def foreignControl : ControlInterface Nat :=
  { okControl with
    GetAllSubsets := fun _ n =>
      (([⟨"default", "ud-x-1"⟩, ⟨"default", "ud-y-1"⟩], none), n + 1)
    DeleteSubset := fun subset n =>
      (if subset.Name = "ud-x-1" then some ⟨"delete refused", false⟩ else none, n + 1) }

/-- A control of another type whose `GetAllSubsets` fails. -/
def unlistableControl : ControlInterface Nat :=
  { okControl with GetAllSubsets := fun _ n => (([], some ⟨"list refused", false⟩), n + 1) }

/-- A control whose `DeleteSubset` fails for the subset object `ud-d-1` only. -/
def flakyDeleteControl : ControlInterface Nat :=
  { okControl with
    DeleteSubset := fun subset n =>
      (if subset.Name = "ud-d-1" then some ⟨"delete refused", false⟩ else none, n + 1) }

/-- An observed map with the subsets `b`, `c`, `d`, `e`. -/
def exampleObservedMore : List (String × Subset) :=
  exampleObserved ++ [("e", ⟨"default", "ud-e-1"⟩)]

/-- The package constants of the examples. -/
def exampleConstants : Constants := ⟨1, "UpdateSubset"⟩

/-- A character of a DNS label: a lower-case letter, a digit or a dash. -/
def isDNSLabelChar (c : Char) : Bool :=
  (decide (97 ≤ c.toNat) && decide (c.toNat ≤ 122)) ||
    (decide (48 ≤ c.toNat) && decide (c.toNat ≤ 57)) || decide (c = '-')

/-- A DNS label: not empty, made of label characters, no dash at either end. -/
def isDNSLabel (l : List Char) : Bool :=
  !l.isEmpty && l.all isDNSLabelChar && decide (l.head? ≠ some '-') &&
    decide (l.getLast? ≠ some '-')

/-- An example validator in the manner of `validation.NameIsDNSSubdomain`: a
trailing dash of a name prefix is masked by a letter, and the name must then be
at most 253 characters long and made of DNS labels separated by dots. -/
def exampleNameIsDNSSubdomain (name : String) (isNamePrefix : Bool) : List String :=
  let masked : List Char :=
    if isNamePrefix && decide (name.data.getLast? = some '-') then name.data.dropLast ++ ['a']
    else name.data
  (if masked.length > 253 then ["must be no more than 253 characters"] else []) ++
  (if (masked.splitOn '.').all isDNSLabel then []
   else ["a DNS-1123 subdomain must consist of lower case alphanumeric characters"])

/-- A per-item function without state that fails on the index `k` only. -/
def failAt (k : Nat) (idx : Nat) (s : Unit) : Option (Option GoError × Unit) :=
  if idx = k then some (some ⟨"create refused", false⟩, s) else some (none, s)

/-- A per-item function without state that never fails. -/
def neverFail (_ : Nat) (s : Unit) : Option (Option GoError × Unit) := some (none, s)

/-- An example cluster state: for each subset type, the subsets that the
desired object owns. -/
abbrev ExampleCluster := subSetType → List Subset

/-- The control of the type `t` on the example cluster: every call succeeds
and takes effect.  A created subset gets the logical name as its object name. -/
def clusterControl (t : subSetType) : ControlInterface ExampleCluster :=
  { GetAllSubsets := fun _ s => ((s t, none), s)
    CreateSubset := fun ud subsetName _ _ _ s =>
      (none, fun t2 => if t2 = t then s t2 ++ [⟨ud.Namespace, subsetName⟩] else s t2)
    DeleteSubset := fun subset s =>
      (none, fun t2 => if t2 = t then (s t2).filter (fun o => decide (o ≠ subset)) else s t2) }

/-- The registry of the example cluster, with two subset types. -/
def exampleRegistry : ReconcileUnitedDeployment ExampleCluster :=
  ⟨[("StatefulSet", clusterControl "StatefulSet"), ("Deployment", clusterControl "Deployment")]⟩

/-- An example cluster state in which the object owns the subsets `a`, `b` and
`d` of the type `Deployment` and none of the type `StatefulSet`. -/
def exampleClusterState : ExampleCluster := fun t =>
  if t = "Deployment" then [⟨"default", "a"⟩, ⟨"default", "b"⟩, ⟨"default", "d"⟩] else []

/-! # Theorems -/

/-! ## Facts about the `float64` model -/

theorem roundHalfEven_intCast (n : ℤ) : roundHalfEven (n : ℚ) = n := by
  unfold roundHalfEven
  simp

theorem abs_roundHalfEven_sub_le (x : ℚ) : |(roundHalfEven x : ℚ) - x| ≤ 1 / 2 := by
  have h1 : ((⌊x⌋ : ℤ) : ℚ) ≤ x := Int.floor_le x
  have h2 : x < ((⌊x⌋ : ℤ) : ℚ) + 1 := Int.lt_floor_add_one x
  unfold roundHalfEven
  simp only
  rw [abs_le]
  split_ifs with a b c
  · constructor <;> linarith
  · push_cast; constructor <;> linarith
  · constructor <;> linarith
  · push_cast; constructor <;> linarith

theorem float64.ulpExp_le {x : ℚ} (hx : x ≠ 0) {k : ℤ} (hk : |x| < (2 : ℚ) ^ k)
    (hk2 : -1021 ≤ k) : float64.ulpExp x ≤ k - 53 := by
  have hpos : 0 < |x| := abs_pos.mpr hx
  have hlog : Int.log 2 |x| < k := by
    have := (Int.lt_zpow_iff_log_lt (b := 2) (by norm_num) (x := k) hpos).mp (by exact_mod_cast hk)
    exact this
  unfold float64.ulpExp
  omega

theorem float64.rne_half_int (n : ℤ) (hn : |n| < 2 ^ 53) :
    float64.rne ((n : ℚ) / 2) = (n : ℚ) / 2 := by
  unfold float64.rne
  split_ifs with h0
  · exact h0.symm
  · have hlt : |(n : ℚ) / 2| < (2 : ℚ) ^ (52 : ℤ) := by
      rw [abs_div, abs_of_pos (by norm_num : (0 : ℚ) < 2), div_lt_iff₀ (by norm_num)]
      have : ((|n| : ℤ) : ℚ) < 2 ^ 53 := by exact_mod_cast hn
      rw [Int.cast_abs] at this
      calc |(n : ℚ)| < 2 ^ 53 := this
        _ = (2 : ℚ) ^ (52 : ℤ) * 2 := by norm_num
    have he := float64.ulpExp_le h0 hlt (by norm_num)
    obtain ⟨k, hk⟩ : ∃ k : ℕ, float64.ulpExp ((n : ℚ) / 2) = -((k : ℤ) + 1) :=
      ⟨(-(float64.ulpExp ((n : ℚ) / 2)) - 1).toNat, by omega⟩
    rw [hk]
    have h2 : ((2 : ℚ) ^ (-((k : ℤ) + 1))) = 1 / (2 ^ k * 2) := by
      rw [zpow_neg, one_div]
      congr 1
      rw [zpow_add_one₀ (by norm_num), zpow_natCast]
    rw [h2]
    have h3 : (n : ℚ) / 2 / (1 / (2 ^ k * 2)) = ((n * 2 ^ k : ℤ) : ℚ) := by
      push_cast
      field_simp
      ring
    rw [h3, roundHalfEven_intCast]
    push_cast
    field_simp
    ring

theorem float64.rne_intCast (n : ℤ) (hn : |n| < 2 ^ 52) :
    float64.rne (n : ℚ) = n := by
  have h := float64.rne_half_int (2 * n) (by rw [abs_mul]; norm_num; omega)
  have e : (((2 * n : ℤ)) : ℚ) / 2 = n := by push_cast; field_simp
  rwa [e] at h

theorem float64.abs_rne_sub_le (x : ℚ) (hx : |x| < 2 ^ 38) :
    |float64.rne x - x| ≤ 1 / 65536 := by
  unfold float64.rne
  split_ifs with h0
  · rw [h0]; norm_num
  · have he := float64.ulpExp_le h0 (k := 38) (by exact_mod_cast hx) (by norm_num)
    set e := float64.ulpExp x with he_def
    have hpos : (0 : ℚ) < 2 ^ e := zpow_pos (by norm_num) e
    have hle : (2 : ℚ) ^ e ≤ 2 ^ (-15 : ℤ) := zpow_le_zpow_right₀ (by norm_num) (by omega)
    have hr := abs_roundHalfEven_sub_le (x / 2 ^ e)
    have : (roundHalfEven (x / 2 ^ e) : ℚ) * 2 ^ e - x
        = ((roundHalfEven (x / 2 ^ e) : ℚ) - x / 2 ^ e) * 2 ^ e := by
      field_simp
    rw [this, abs_mul, abs_of_pos hpos]
    calc |(roundHalfEven (x / 2 ^ e) : ℚ) - x / 2 ^ e| * 2 ^ e
        ≤ 1 / 2 * 2 ^ (-15 : ℤ) := by
          apply mul_le_mul hr hle hpos.le (by norm_num)
      _ = 1 / 65536 := by norm_num

theorem wrapInt_64_of_bounds (n : ℤ) (h0 : 0 ≤ n) (h1 : n < 2 ^ 31) : wrapInt 64 n = n := by
  unfold wrapInt
  norm_num
  omega

theorem wrapInt_32_of_bounds (n : ℤ) (h0 : 0 ≤ n) (h1 : n < 2 ^ 31) : wrapInt 32 n = n := by
  unfold wrapInt
  norm_num
  omega

theorem float64.toInt_floor (y : ℚ) (h0 : 0 ≤ ⌊y⌋) (h1 : ⌊y⌋ < 2 ^ 31) :
    float64.toInt (math.Floor y) = ⌊y⌋ := by
  unfold float64.toInt math.Floor
  simp only [Int.floor_intCast, Int.ceil_intCast, ite_self]
  exact wrapInt_64_of_bounds _ h0 h1

/-- The `float64` evaluation of `round(total * percent / 100)` agrees with
exact round-half-up integer arithmetic for every non-negative `int32` total. -/
theorem round_percent_eq (total percent : ℕ) (ht : total < 2 ^ 31) (hp : percent ≤ 100) :
    round (float64.div
      (float64.mul (float64.ofInt total) (float64.ofInt percent)) (float64.ofInt 100))
      = ((total * percent + 50) / 100 : ℕ) := by
  have e1 : float64.ofInt (total : ℤ) = (total : ℚ) := by
    have := float64.rne_intCast (total : ℤ) (by rw [abs_of_nonneg (by positivity)]; omega)
    simpa [float64.ofInt] using this
  have e2 : float64.ofInt (percent : ℤ) = (percent : ℚ) := by
    have := float64.rne_intCast (percent : ℤ) (by rw [abs_of_nonneg (by positivity)]; omega)
    simpa [float64.ofInt] using this
  have e3 : float64.ofInt 100 = (100 : ℚ) := by
    have := float64.rne_intCast 100 (by norm_num)
    simpa [float64.ofInt] using this
  have hprod : total * percent < 2 ^ 38 := by
    calc total * percent ≤ total * 100 := Nat.mul_le_mul_left _ hp
      _ < 2 ^ 38 := by omega
  have e4 : float64.mul (total : ℚ) (percent : ℚ) = ((total * percent : ℕ) : ℚ) := by
    have := float64.rne_intCast ((total * percent : ℕ) : ℤ)
      (by rw [abs_of_nonneg (by positivity)]; omega)
    unfold float64.mul
    push_cast at this ⊢
    exact this
  rw [e1, e2, e3, e4]
  set p := total * percent with hp_def
  set q := (p + 50) / 100 with hq_def
  have hdm : p + 50 = 100 * q + (p + 50) % 100 := (Nat.div_add_mod (p + 50) 100).symm
  have hr : (p + 50) % 100 < 100 := Nat.mod_lt _ (by norm_num)
  have hple : p ≤ total * 100 := Nat.mul_le_mul_left _ hp
  have hqlt : q < 2 ^ 31 := by omega
  have hfloor : ⌊float64.add (float64.div (p : ℚ) 100) (1 / 2)⌋ = (q : ℤ) := by
    by_cases hr0 : (p + 50) % 100 = 0
    · -- the exact quotient is the half-integer `q - 1/2`
      have hq1 : 1 ≤ q := by omega
      have hpq : (p : ℚ) / 100 = ((2 * (q : ℤ) - 1 : ℤ) : ℚ) / 2 := by
        have : (p : ℚ) + 50 = 100 * q := by
          have : p + 50 = 100 * q := by omega
          exact_mod_cast this
        push_cast
        linarith
      have ediv : float64.div (p : ℚ) 100 = ((2 * (q : ℤ) - 1 : ℤ) : ℚ) / 2 := by
        unfold float64.div
        rw [hpq]
        exact float64.rne_half_int _ (by rw [abs_of_nonneg (by omega)]; omega)
      have eadd : float64.add (float64.div (p : ℚ) 100) (1 / 2) = ((q : ℤ) : ℚ) := by
        rw [ediv]
        unfold float64.add
        have : ((2 * (q : ℤ) - 1 : ℤ) : ℚ) / 2 + 1 / 2 = ((q : ℤ) : ℚ) := by
          push_cast; ring
        rw [this]
        exact float64.rne_intCast _ (by rw [abs_of_nonneg (by omega)]; omega)
      rw [eadd, Int.floor_intCast]
    · -- the exact quotient is at least 1/100 away from a half-integer
      have hr1 : 1 ≤ (p + 50) % 100 := Nat.one_le_iff_ne_zero.mpr hr0
      have hx : (p : ℚ) / 100 = q + ((p + 50) % 100 : ℕ) / 100 - 1 / 2 := by
        have : (p : ℚ) + 50 = 100 * q + ((p + 50) % 100 : ℕ) := by exact_mod_cast hdm
        linarith
      have hrq1 : (1 : ℚ) ≤ (((p + 50) % 100 : ℕ) : ℚ) := by exact_mod_cast hr1
      have hrq2 : (((p + 50) % 100 : ℕ) : ℚ) ≤ 99 := by
        have : (p + 50) % 100 ≤ 99 := by omega
        exact_mod_cast this
      have hq0 : (0 : ℚ) ≤ q := by positivity
      have hqb : (q : ℚ) < 2 ^ 31 := by exact_mod_cast hqlt
      have hp0 : (0 : ℚ) ≤ (p : ℚ) / 100 := by positivity
      have hpq : (p : ℚ) < 2 ^ 38 := by exact_mod_cast hprod
      have hpb : (p : ℚ) / 100 < 2 ^ 37 := by linarith
      have h1 := float64.abs_rne_sub_le ((p : ℚ) / 100)
        (by rw [abs_of_nonneg hp0]; linarith)
      rw [abs_le] at h1
      have hd : float64.div (p : ℚ) 100 = float64.rne ((p : ℚ) / 100) := rfl
      have h2 := float64.abs_rne_sub_le (float64.div (p : ℚ) 100 + 1 / 2)
        (by rw [hd, abs_lt]; constructor <;> linarith)
      rw [abs_le] at h2
      have ha : float64.add (float64.div (p : ℚ) 100) (1 / 2)
          = float64.rne (float64.div (p : ℚ) 100 + 1 / 2) := rfl
      rw [Int.floor_eq_iff, ha]
      rw [hd] at h2 ⊢
      push_cast
      constructor <;> linarith
  unfold round
  rw [float64.toInt_floor _ (by rw [hfloor]; positivity) (by rw [hfloor]; exact_mod_cast hqlt),
    hfloor]

/-- The decimal text of a percentage in `[0, 100]` followed by `%` passes the
suffix test and parses back to the percentage. -/
theorem parse_percent_text (percent : ℕ) (hp : percent ≤ 100) :
    strings.HasSuffix (toString percent ++ "%") "%" = true ∧
    strconv.ParseInt ⟨(toString percent ++ "%").data.dropLast⟩ 32 = .ok (percent : ℤ) := by
  interval_cases percent <;> exact ⟨by decide, rfl⟩

theorem ParseSubsetReplicas_percent (total percent : ℕ) (ht : total < 2 ^ 31)
    (hp : percent ≤ 100) :
    ParseSubsetReplicas total (intstr.FromString (toString percent ++ "%"))
      = ((((total * percent + 50) / 100 : ℕ) : ℤ), none) := by
  obtain ⟨h1, h2⟩ := parse_percent_text percent hp
  have hq : (total * percent + 50) / 100 ≤ total := by
    have : total * percent ≤ total * 100 := Nat.mul_le_mul_left _ hp
    omega
  unfold ParseSubsetReplicas
  simp only [intstr.FromString, h1, h2]
  rw [if_neg (by decide), if_neg (by simp), if_neg (by omega)]
  rw [round_percent_eq total percent ht hp]
  rw [wrapInt_32_of_bounds _ (by positivity) (by omega)]

/-- C1: for every total in [0, 10000] and every percent in [0, 100],
`ParseSubsetReplicas(total, "<percent>%")` succeeds with the round-half-up value
`(total*percent + 50) div 100 = floor(total*percent/100 + 1/2)`; 100% gives the
total and 0% gives 0. -/
theorem C1_percentage_round_half_up (total percent : ℕ) (ht : total ≤ 10000)
    (hp : percent ≤ 100) :
    ParseSubsetReplicas total (intstr.FromString (toString percent ++ "%"))
        = ((((total * percent + 50) / 100 : ℕ) : ℤ), none)
      ∧ (((total * percent + 50) / 100 : ℕ) : ℤ)
          = ⌊(total : ℚ) * (percent : ℚ) / 100 + 1 / 2⌋
      ∧ (percent = 100 → (total * percent + 50) / 100 = total)
      ∧ (percent = 0 → (total * percent + 50) / 100 = 0) := by
  refine ⟨ParseSubsetReplicas_percent total percent (by omega) hp, ?_, ?_, ?_⟩
  · have h : (total : ℚ) * (percent : ℚ) / 100 + 1 / 2
        = (((total * percent + 50 : ℕ) : ℚ)) / ((100 : ℕ) : ℚ) := by
      push_cast; ring
    rw [h, Rat.floor_natCast_div_natCast]
    rfl
  · rintro rfl; omega
  · rintro rfl; omega

theorem C1_percentage_round_half_up_witness :
    ParseSubsetReplicas 10 (intstr.FromString "33%") = (3, none)
      ∧ ParseSubsetReplicas 3 (intstr.FromString "50%") = (2, none)
      ∧ ParseSubsetReplicas 0 (intstr.FromString "50%") = (0, none) :=
  ⟨(C1_percentage_round_half_up 10 33 (by decide) (by decide)).1,
   (C1_percentage_round_half_up 3 50 (by decide) (by decide)).1,
   (C1_percentage_round_half_up 0 50 (by decide) (by decide)).1⟩

/-! ## The text of a percentage -/

theorem decimalValueFrom_ge (ds : List Char) (n : Nat) : n ≤ decimalValueFrom n ds := by
  induction ds generalizing n with
  | nil => exact le_refl n
  | cons c cs ih =>
    have := ih (n * 10 + (c.toNat - 48))
    simp only [decimalValueFrom, List.foldl_cons] at this ⊢
    omega

theorem parseUintStep_eq (n : Nat) (c : Char) (hn : n ≤ 2 ^ 32 - 1) :
    strconv.parseUintStep (2 ^ 32 - 1) n c =
      if isDecimalDigit c = true then
        if n * 10 + (c.toNat - 48) ≤ 2 ^ 32 - 1 then .ok (n * 10 + (c.toNat - 48))
        else .error .ErrRange
      else .error .ErrSyntax := by
  unfold strconv.parseUintStep isDecimalDigit
  by_cases hd : 48 ≤ c.toNat ∧ c.toNat ≤ 57
  · have hd' : (decide (48 ≤ c.toNat) && decide (c.toNat ≤ 57)) = true := by simp [hd]
    rw [if_pos hd', if_pos hd]
    simp only
    have h1 : ¬ (c.toNat - 48 ≥ 10) := by omega
    have h2 : ¬ (n ≥ (2 ^ 64 - 1) / 10 + 1) := by norm_num at hn ⊢; omega
    have h3 : n * 10 % 2 ^ 64 = n * 10 := Nat.mod_eq_of_lt (by norm_num at hn ⊢; omega)
    have h4 : (n * 10 + (c.toNat - 48)) % 2 ^ 64 = n * 10 + (c.toNat - 48) :=
      Nat.mod_eq_of_lt (by norm_num at hn ⊢; omega)
    simp only [h1, h2, if_false, h3, h4]
    by_cases h5 : n * 10 + (c.toNat - 48) ≤ 2 ^ 32 - 1
    · rw [if_neg (by omega), if_pos h5]
    · rw [if_pos (by omega), if_neg h5]
  · have hd' : ¬ ((decide (48 ≤ c.toNat) && decide (c.toNat ≤ 57)) = true) := by simpa using hd
    rw [if_neg hd', if_neg hd]
    split_ifs with h1 <;> simp

theorem parseUintLoop_ok_iff (cs : List Char) (n v : Nat) (hn : n ≤ 2 ^ 32 - 1) :
    strconv.parseUintLoop (2 ^ 32 - 1) n cs = .ok v ↔
      cs.all isDecimalDigit = true ∧ decimalValueFrom n cs = v ∧ v ≤ 2 ^ 32 - 1 := by
  induction cs generalizing n with
  | nil =>
    simp only [strconv.parseUintLoop, decimalValueFrom, List.all_nil, List.foldl_nil, true_and]
    constructor
    · intro h
      cases h
      exact ⟨rfl, hn⟩
    · rintro ⟨rfl, _⟩
      rfl
  | cons c cs ih =>
    unfold strconv.parseUintLoop
    rw [parseUintStep_eq n c hn]
    have hge := decimalValueFrom_ge cs (n * 10 + (c.toNat - 48))
    have hunf : decimalValueFrom n (c :: cs) = decimalValueFrom (n * 10 + (c.toNat - 48)) cs := rfl
    by_cases hd : isDecimalDigit c = true
    · by_cases hb : n * 10 + (c.toNat - 48) ≤ 2 ^ 32 - 1
      · simp only [hd, hb, if_true, List.all_cons, Bool.true_and, hunf]
        exact ih _ hb
      · simp only [hd, hb, if_true, if_false, List.all_cons, Bool.true_and, hunf]
        constructor
        · intro h; cases h
        · rintro ⟨_, rfl, h3⟩; omega
    · simp only [hd, if_false, List.all_cons, Bool.false_eq_true, false_and, Bool.and_eq_true]
      constructor
      · intro h; cases h
      · intro h; exact h.elim

theorem ParseUint_ok_iff (ds : List Char) (v : Nat) :
    strconv.ParseUint ds 32 = .ok v ↔ decimalNatural ds = some v ∧ v ≤ 2 ^ 32 - 1 := by
  unfold strconv.ParseUint decimalNatural
  by_cases he : ds = []
  · simp [he]
  · rw [if_neg he, parseUintLoop_ok_iff ds 0 v (by norm_num)]
    by_cases ha : ds.all isDecimalDigit = true
    · simp [he, ha]
    · simp [he, ha]

/-- The code's `strconv.ParseInt(s, 10, 32)` succeeds exactly on the texts that
denote an integer of the `int32` range, and returns that integer. -/
theorem ParseInt_ok_iff (s : String) (n : Int) :
    strconv.ParseInt s 32 = .ok n ↔
      decimalInteger s.data = some n ∧ -(2 ^ 31) ≤ n ∧ n < 2 ^ 31 := by
  unfold strconv.ParseInt decimalInteger
  cases hs : s.data with
  | nil => simp
  | cons c cs =>
    simp only
    by_cases hm : c = '-'
    · subst hm
      simp only [if_true, or_true, decide_True, Bool.not_true, Bool.false_eq_true, false_and,
        if_false, true_and]
      cases hu : strconv.ParseUint cs 32 with
      | error e =>
        simp only
        constructor
        · intro h; cases h
        · rintro ⟨h1, h2, h3⟩
          cases hd : decimalNatural cs with
          | none => simp [hd] at h1
          | some v =>
            simp only [hd, Option.map_some', Option.some.injEq] at h1
            have := (ParseUint_ok_iff cs v).mpr ⟨hd, by omega⟩
            rw [hu] at this
            cases this
      | ok un =>
        obtain ⟨hd, hb⟩ := (ParseUint_ok_iff cs un).mp hu
        simp only [hd, Option.map_some', Option.some.injEq]
        by_cases hc : un > 2 ^ (32 - 1)
        · rw [if_pos hc]
          constructor
          · intro h; cases h
          · rintro ⟨rfl, h2, _⟩
            norm_num at hc h2
            omega
        · rw [if_neg hc]
          constructor
          · intro h
            cases h
            norm_num at hc ⊢
            omega
          · rintro ⟨rfl, _, _⟩
            rfl
    · have hneg : (decide (c = '-')) = false := by simp [hm]
      have hdig : decimalNatural (if c = '+' ∨ c = '-' then cs else c :: cs)
          = (if c = '+' then decimalNatural cs else decimalNatural (c :: cs)) := by
        by_cases hp : c = '+' <;> simp [hp, hm]
      have hrhs : (if c = '-' then Option.map (fun v : ℕ => -(v : ℤ)) (decimalNatural cs)
          else if c = '+' then Option.map (fun v : ℕ => (v : ℤ)) (decimalNatural cs)
          else Option.map (fun v : ℕ => (v : ℤ)) (decimalNatural (c :: cs)))
          = Option.map (fun v : ℕ => (v : ℤ))
              (decimalNatural (if c = '+' ∨ c = '-' then cs else c :: cs)) := by
        by_cases hp : c = '+' <;> simp [hp, hm]
      rw [hrhs]
      simp only [hneg, Bool.not_false, true_and, Bool.false_eq_true, false_and, if_false]
      cases hu : strconv.ParseUint (if c = '+' ∨ c = '-' then cs else c :: cs) 32 with
      | error e =>
        simp only
        constructor
        · intro h; cases h
        · rintro ⟨h1, h2, h3⟩
          cases hd : decimalNatural (if c = '+' ∨ c = '-' then cs else c :: cs) with
          | none => simp [hd] at h1
          | some v =>
            simp only [hd, Option.map_some', Option.some.injEq] at h1
            have := (ParseUint_ok_iff _ v).mpr ⟨hd, by omega⟩
            rw [hu] at this
            cases this
      | ok un =>
        obtain ⟨hd, hb⟩ := (ParseUint_ok_iff _ un).mp hu
        simp only [hd, Option.map_some', Option.some.injEq]
        by_cases hc : un ≥ 2 ^ (32 - 1)
        · rw [if_pos hc]
          constructor
          · intro h; cases h
          · rintro ⟨rfl, _, h3⟩
            norm_num at hc h3
            omega
        · rw [if_neg hc]
          constructor
          · intro h
            cases h
            norm_num at hc ⊢
            omega
          · rintro ⟨rfl, _, _⟩
            rfl

theorem HasSuffix_percent_iff (s : String) :
    strings.HasSuffix s "%" = true ↔ ∃ t, s.data = t ++ ['%'] := by
  unfold strings.HasSuffix
  rw [List.isSuffixOf_iff_suffix]
  constructor
  · rintro ⟨t, ht⟩
    exact ⟨t, ht.symm⟩
  · rintro ⟨t, ht⟩
    exact ⟨t, ht.symm⟩

/-- C2: for a string-form quantity, `ParseSubsetReplicas` returns the number 0
together with an error (and so never a negative number) whenever the text does
not end in `%`, or the text before the final `%` does not denote a base-10
integer, or that integer is below 0 or above 100. -/
theorem C2_malformed_percentage_fails (total : Int) (q : intstr.IntOrString)
    (hq : q.Kind = intstr.Kind.String)
    (hbad : (∀ t, q.StrVal.data ≠ t ++ ['%']) ∨
      ∃ t, q.StrVal.data = t ++ ['%'] ∧
        (decimalInteger t = none ∨ ∃ n, decimalInteger t = some n ∧ (n < 0 ∨ 100 < n))) :
    failsWithZero (ParseSubsetReplicas total q) ∧ ¬ (ParseSubsetReplicas total q).1 < 0 := by
  have key : (ParseSubsetReplicas total q).1 = 0 ∧
      (ParseSubsetReplicas total q).2.isSome = true := by
    unfold ParseSubsetReplicas
    rw [if_neg (by rw [hq]; decide)]
    simp only
    rcases hbad with hno | ⟨t, ht, hbad⟩
    · have : strings.HasSuffix q.StrVal "%" = false := by
        rw [← Bool.not_eq_true, HasSuffix_percent_iff]
        rintro ⟨t, ht⟩
        exact hno t ht
      simp [this]
    · have hs : strings.HasSuffix q.StrVal "%" = true :=
        (HasSuffix_percent_iff _).mpr ⟨t, ht⟩
      have hdl : q.StrVal.data.dropLast = t := by rw [ht]; simp
      simp only [hs, Bool.not_true, Bool.false_eq_true, if_false, hdl]
      cases hp : strconv.ParseInt ⟨t⟩ 32 with
      | error e => simp
      | ok n =>
        obtain ⟨hd, h1, h2⟩ := (ParseInt_ok_iff ⟨t⟩ n).mp hp
        rcases hbad with hnone | ⟨m, hm, hr⟩
        · rw [hnone] at hd; cases hd
        · have : m = n := by rw [hm] at hd; exact Option.some.inj hd
          subst this
          have : m > 100 ∨ m < 0 := by omega
          simp [this]
  exact ⟨key, by rw [key.1]; decide⟩

theorem C2_malformed_percentage_fails_witness :
    failsWithZero (ParseSubsetReplicas 10 (intstr.FromString ""))
    ∧ failsWithZero (ParseSubsetReplicas 10 (intstr.FromString "%"))
    ∧ failsWithZero (ParseSubsetReplicas 10 (intstr.FromString "50"))
    ∧ failsWithZero (ParseSubsetReplicas 10 (intstr.FromString "abc%"))
    ∧ failsWithZero (ParseSubsetReplicas 10 (intstr.FromString "12.5%"))
    ∧ failsWithZero (ParseSubsetReplicas 10 (intstr.FromString "101%"))
    ∧ failsWithZero (ParseSubsetReplicas 10 (intstr.FromString "-1%")) :=
  ⟨(C2_malformed_percentage_fails 10 (intstr.FromString "") rfl
      (Or.inl (by intro t; cases t <;> simp [intstr.FromString]))).1,
   (C2_malformed_percentage_fails 10 (intstr.FromString "%") rfl
      (Or.inr ⟨[], rfl, Or.inl rfl⟩)).1,
   (C2_malformed_percentage_fails 10 (intstr.FromString "50") rfl
      (Or.inl (by
        intro t h
        have := congrArg List.getLast? h
        simp [intstr.FromString] at this))).1,
   (C2_malformed_percentage_fails 10 (intstr.FromString "abc%") rfl
      (Or.inr ⟨"abc".data, rfl, Or.inl (by decide)⟩)).1,
   (C2_malformed_percentage_fails 10 (intstr.FromString "12.5%") rfl
      (Or.inr ⟨"12.5".data, rfl, Or.inl (by decide)⟩)).1,
   (C2_malformed_percentage_fails 10 (intstr.FromString "101%") rfl
      (Or.inr ⟨"101".data, rfl, Or.inr ⟨101, by decide, Or.inr (by decide)⟩⟩)).1,
   (C2_malformed_percentage_fails 10 (intstr.FromString "-1%") rfl
      (Or.inr ⟨"-1".data, rfl, Or.inr ⟨-1, by decide, Or.inl (by decide)⟩⟩)).1⟩

/-- C3: for an integer-form quantity `v`, `ParseSubsetReplicas` returns `v` with
no error when `v ≥ 0`, whatever the total, and returns an error (with the number
0) when `v < 0`. -/
theorem C3_absolute_quantity (total : Int) (q : intstr.IntOrString)
    (hq : q.Kind = intstr.Kind.Int) :
    (0 ≤ q.IntVal → ParseSubsetReplicas total q = (q.IntVal, none)) ∧
    (q.IntVal < 0 → failsWithZero (ParseSubsetReplicas total q)) := by
  unfold ParseSubsetReplicas
  rw [if_pos hq]
  constructor
  · intro h
    rw [if_neg (by omega)]
  · intro h
    rw [if_pos h]
    exact ⟨rfl, rfl⟩

theorem C3_absolute_quantity_witness :
    ParseSubsetReplicas 3 (intstr.FromInt 5) = (5, none) ∧
    failsWithZero (ParseSubsetReplicas 3 (intstr.FromInt (-1))) :=
  ⟨(C3_absolute_quantity 3 (intstr.FromInt 5) rfl).1 (by decide),
   (C3_absolute_quantity 3 (intstr.FromInt (-1)) rfl).2 (by decide)⟩

/-! ## Sets of names and the plan -/

theorem strLE_iff (a b : String) : strLE a b ↔ a ≤ b :=
  String.le_iff_toList_le.symm

theorem stringSet_mem_Insert (s : StringSet) (item x : String) :
    x ∈ s.Insert item ↔ x ∈ s ∨ x = item := by
  unfold StringSet.Insert StringSet.Has
  by_cases h : item ∈ s
  · simp only [h, decide_True, if_true]
    constructor
    · exact Or.inl
    · rintro (h1 | rfl)
      · exact h1
      · exact h
  · simp [h]

theorem stringSet_nodup_Insert (s : StringSet) (item : String) (hs : s.Nodup) :
    (s.Insert item).Nodup := by
  unfold StringSet.Insert StringSet.Has
  by_cases h : item ∈ s
  · simpa [h] using hs
  · simp only [h, decide_False, Bool.false_eq_true, if_false]
    exact List.Nodup.append hs (List.nodup_singleton item) (by simpa using h)

theorem stringSet_foldl_Insert {α : Type} (f : α → String) (l : List α) (s : StringSet) :
    (∀ x, x ∈ l.foldl (fun acc a => acc.Insert (f a)) s ↔ x ∈ s ∨ x ∈ l.map f) ∧
    (s.Nodup → (l.foldl (fun acc a => acc.Insert (f a)) s).Nodup) := by
  induction l generalizing s with
  | nil => simp
  | cons a l ih =>
    obtain ⟨h1, h2⟩ := ih (s.Insert (f a))
    constructor
    · intro x
      rw [List.foldl_cons, h1 x, stringSet_mem_Insert]
      simp only [List.map_cons, List.mem_cons]
      tauto
    · intro hs
      exact h2 (stringSet_nodup_Insert s (f a) hs)

theorem mem_expectedSubsetsOf (ud : appsv1alpha1.UnitedDeployment) (x : String) :
    x ∈ expectedSubsetsOf ud ↔ x ∈ ud.Spec.Topology.Subsets.map (fun subset => subset.Name) := by
  have := (stringSet_foldl_Insert (fun subset : appsv1alpha1.Subset => subset.Name)
    ud.Spec.Topology.Subsets StringSet.empty).1 x
  simpa [expectedSubsetsOf, StringSet.empty] using this

theorem mem_gotSubsetsOf (nameToSubset : List (String × Subset)) (x : String) :
    x ∈ gotSubsetsOf nameToSubset ↔ x ∈ nameToSubset.map (fun entry => entry.1) := by
  have := (stringSet_foldl_Insert (fun entry : String × Subset => entry.1)
    nameToSubset StringSet.empty).1 x
  simpa [gotSubsetsOf, StringSet.empty] using this

theorem nodup_expectedSubsetsOf (ud : appsv1alpha1.UnitedDeployment) :
    (expectedSubsetsOf ud).Nodup :=
  (stringSet_foldl_Insert (fun subset : appsv1alpha1.Subset => subset.Name)
    ud.Spec.Topology.Subsets StringSet.empty).2 List.nodup_nil

theorem nodup_gotSubsetsOf (nameToSubset : List (String × Subset)) :
    (gotSubsetsOf nameToSubset).Nodup :=
  (stringSet_foldl_Insert (fun entry : String × Subset => entry.1)
    nameToSubset StringSet.empty).2 List.nodup_nil

theorem stringSet_mem_List (s : StringSet) (x : String) : x ∈ StringSet.List s ↔ x ∈ s :=
  (List.perm_insertionSort strLE s).mem_iff

theorem stringSet_sorted_List (s : StringSet) (hs : s.Nodup) :
    List.Sorted (fun a b : String => a < b) (StringSet.List s) := by
  have h1 : List.Sorted strLE (StringSet.List s) := List.sorted_insertionSort strLE s
  have h2 : (StringSet.List s).Nodup := (List.perm_insertionSort strLE s).nodup_iff.mpr hs
  have h3 := List.Pairwise.and h1 h2
  refine List.Pairwise.imp ?_ h3
  intro a b hab
  exact lt_of_le_of_ne ((strLE_iff a b).mp hab.1) hab.2

theorem stringSet_mem_Intersection (s1 s2 : StringSet) (x : String) :
    x ∈ s1.Intersection s2 ↔ x ∈ s1 ∧ x ∈ s2 := by
  have key : ∀ (walk other acc : StringSet),
      x ∈ walk.foldl (fun result key => if other.Has key then result.Insert key else result) acc
        ↔ x ∈ acc ∨ (x ∈ walk ∧ x ∈ other) := by
    intro walk other
    induction walk with
    | nil => simp
    | cons k walk ih =>
      intro acc
      rw [List.foldl_cons, ih]
      by_cases hk : k ∈ other
      · have : other.Has k = true := by simp [StringSet.Has, hk]
        simp only [this, if_true, stringSet_mem_Insert, List.mem_cons]
        constructor
        · rintro ((h | rfl) | ⟨h1, h2⟩)
          · exact Or.inl h
          · exact Or.inr ⟨Or.inl rfl, hk⟩
          · exact Or.inr ⟨Or.inr h1, h2⟩
        · rintro (h | ⟨rfl | h1, h2⟩)
          · exact Or.inl (Or.inl h)
          · exact Or.inl (Or.inr rfl)
          · exact Or.inr ⟨h1, h2⟩
      · have : other.Has k = false := by simp [StringSet.Has, hk]
        simp only [this, Bool.false_eq_true, if_false, List.mem_cons]
        constructor
        · rintro (h | ⟨h1, h2⟩)
          · exact Or.inl h
          · exact Or.inr ⟨Or.inr h1, h2⟩
        · rintro (h | ⟨rfl | h1, h2⟩)
          · exact Or.inl h
          · exact (hk h2).elim
          · exact Or.inr ⟨h1, h2⟩
  unfold StringSet.Intersection
  simp only
  rw [key]
  by_cases h : s1.Len < s2.Len
  · simp [h, StringSet.empty]
  · simp only [h, if_false, StringSet.empty, List.not_mem_nil, false_or]
    tauto

theorem mem_planCreates (e g : StringSet) (x : String) :
    x ∈ planCreates e g ↔ x ∈ e ∧ x ∉ g := by
  simp [planCreates, stringSet_mem_List, StringSet.Has]

theorem mem_planDeletes (e g : StringSet) (x : String) :
    x ∈ planDeletes e g ↔ x ∈ g ∧ x ∉ e := by
  simp [planDeletes, stringSet_mem_List, StringSet.Has]

theorem sorted_planCreates (e g : StringSet) (he : e.Nodup) :
    List.Sorted (fun a b : String => a < b) (planCreates e g) :=
  (stringSet_sorted_List e he).filter _

theorem sorted_planDeletes (e g : StringSet) (hg : g.Nodup) :
    List.Sorted (fun a b : String => a < b) (planDeletes e g) :=
  (stringSet_sorted_List g hg).filter _

theorem nodup_of_sorted_lt (l : List String)
    (h : List.Sorted (fun a b : String => a < b) l) : l.Nodup :=
  List.Pairwise.imp (fun hab => ne_of_lt hab) h

theorem eq_of_sorted_lt_of_mem_iff (l₁ l₂ : List String)
    (h₁ : List.Sorted (fun a b : String => a < b) l₁)
    (h₂ : List.Sorted (fun a b : String => a < b) l₂)
    (h : ∀ x, x ∈ l₁ ↔ x ∈ l₂) : l₁ = l₂ := by
  have hp : l₁.Perm l₂ :=
    (List.perm_ext_iff_of_nodup (nodup_of_sorted_lt l₁ h₁) (nodup_of_sorted_lt l₂ h₂)).mpr h
  exact List.eq_of_perm_of_sorted hp h₁ h₂

/-- C5: the planned `creates` and `deletes` are each in strictly ascending
lexicographic order, hence free of duplicates; they are the same for every
order in which the desired topology lists its subsets, and a name listed more
than once in the topology occurs at most once in `creates`. -/
theorem C5_plan_sorted_and_order_independent (ud : appsv1alpha1.UnitedDeployment)
    (nameToSubset : List (String × Subset)) :
    List.Sorted (fun a b : String => a < b)
        (planCreates (expectedSubsetsOf ud) (gotSubsetsOf nameToSubset)) ∧
    List.Sorted (fun a b : String => a < b)
        (planDeletes (expectedSubsetsOf ud) (gotSubsetsOf nameToSubset)) ∧
    (planCreates (expectedSubsetsOf ud) (gotSubsetsOf nameToSubset)).Nodup ∧
    (planDeletes (expectedSubsetsOf ud) (gotSubsetsOf nameToSubset)).Nodup ∧
    (∀ n, (planCreates (expectedSubsetsOf ud) (gotSubsetsOf nameToSubset)).count n ≤ 1) ∧
    (∀ ud2 : appsv1alpha1.UnitedDeployment,
      ud2.Spec.Topology.Subsets.Perm ud.Spec.Topology.Subsets →
      planCreates (expectedSubsetsOf ud2) (gotSubsetsOf nameToSubset)
          = planCreates (expectedSubsetsOf ud) (gotSubsetsOf nameToSubset) ∧
      planDeletes (expectedSubsetsOf ud2) (gotSubsetsOf nameToSubset)
          = planDeletes (expectedSubsetsOf ud) (gotSubsetsOf nameToSubset)) := by
  have hc := sorted_planCreates (expectedSubsetsOf ud) (gotSubsetsOf nameToSubset)
    (nodup_expectedSubsetsOf ud)
  have hd := sorted_planDeletes (expectedSubsetsOf ud) (gotSubsetsOf nameToSubset)
    (nodup_gotSubsetsOf nameToSubset)
  refine ⟨hc, hd, nodup_of_sorted_lt _ hc, nodup_of_sorted_lt _ hd, ?_, ?_⟩
  · intro n
    exact List.nodup_iff_count_le_one.mp (nodup_of_sorted_lt _ hc) n
  · intro ud2 hperm
    have hmem : ∀ x, x ∈ expectedSubsetsOf ud2 ↔ x ∈ expectedSubsetsOf ud := by
      intro x
      rw [mem_expectedSubsetsOf, mem_expectedSubsetsOf]
      exact (hperm.map _).mem_iff
    constructor
    · apply eq_of_sorted_lt_of_mem_iff _ _
        (sorted_planCreates _ _ (nodup_expectedSubsetsOf ud2)) hc
      intro x
      rw [mem_planCreates, mem_planCreates, hmem]
    · apply eq_of_sorted_lt_of_mem_iff _ _
        (sorted_planDeletes _ _ (nodup_gotSubsetsOf nameToSubset)) hd
      intro x
      rw [mem_planDeletes, mem_planDeletes, hmem]

theorem C5_plan_sorted_and_order_independent_witness :
    planCreates (expectedSubsetsOf ⟨"ns", "ud", ⟨⟨[⟨"a"⟩, ⟨"e"⟩, ⟨"c"⟩, ⟨"a"⟩]⟩⟩⟩)
        (gotSubsetsOf [("d", ⟨"ns", "ud-d-0"⟩), ("c", ⟨"ns", "ud-c-0"⟩)])
      = planCreates (expectedSubsetsOf ⟨"ns", "ud", ⟨⟨[⟨"e"⟩, ⟨"a"⟩, ⟨"a"⟩, ⟨"c"⟩]⟩⟩⟩)
        (gotSubsetsOf [("d", ⟨"ns", "ud-d-0"⟩), ("c", ⟨"ns", "ud-c-0"⟩)])
    ∧ planCreates (expectedSubsetsOf ⟨"ns", "ud", ⟨⟨[⟨"e"⟩, ⟨"a"⟩, ⟨"a"⟩, ⟨"c"⟩]⟩⟩⟩)
        (gotSubsetsOf [("d", ⟨"ns", "ud-d-0"⟩), ("c", ⟨"ns", "ud-c-0"⟩)]) = ["a", "e"] :=
  ⟨((C5_plan_sorted_and_order_independent
      ⟨"ns", "ud", ⟨⟨[⟨"e"⟩, ⟨"a"⟩, ⟨"a"⟩, ⟨"c"⟩]⟩⟩⟩
      [("d", ⟨"ns", "ud-d-0"⟩), ("c", ⟨"ns", "ud-c-0"⟩)]).2.2.2.2.2
      ⟨"ns", "ud", ⟨⟨[⟨"a"⟩, ⟨"e"⟩, ⟨"c"⟩, ⟨"a"⟩]⟩⟩⟩ (by decide)).1,
   by decide⟩

/-! ## The create phase -/

theorem hardFailed_imp_failed (call : Call) (h : call.hardFailed = true) :
    call.failed = true := by
  unfold Call.hardFailed at h
  unfold Call.failed
  cases hc : call.err with
  | none => simp [hc] at h
  | some e => rfl

theorem length_filter_add_length_filter_not {α : Type} (p : α → Bool) (l : List α) :
    (l.filter p).length + (l.filter (fun a => !p a)).length = l.length := by
  induction l with
  | nil => rfl
  | cons a l ih =>
    by_cases h : p a = true
    · simp only [List.filter_cons, h, if_true, Bool.not_true, Bool.false_eq_true, if_false,
        List.length_cons]
      omega
    · simp only [Bool.not_eq_true] at h
      simp only [List.filter_cons, h, Bool.false_eq_true, if_false, Bool.not_false, if_true,
        List.length_cons]
      omega

theorem filter_length_eq_zero_iff {α : Type} (p : α → Bool) (l : List α) :
    (l.filter p).length = 0 ↔ ∀ a ∈ l, p a = false := by
  rw [List.length_eq_zero, List.filter_eq_nil_iff]
  simp

/-- What one call of the per-item function does when the control of the active
type is registered and the index is in range. -/
theorem createSubsetFn_unfold {σ : Type} (r : ReconcileUnitedDeployment σ)
    (ud : appsv1alpha1.UnitedDeployment) (nextReplicas nextPartitions : List (String × Int))
    (revision : String) (subsetType : subSetType) (createdSubsets : List String)
    (control : ControlInterface σ) (hreg : r.subSetControls.lookup subsetType = some control)
    (idx : Nat) (subsetName : String) (hidx : createdSubsets.get? idx = some subsetName)
    (w : World σ) :
    createSubsetFn r ud nextReplicas nextPartitions revision subsetType createdSubsets idx w
      = some
        ((match (control.CreateSubset ud subsetName revision
            ((nextReplicas.lookup subsetName).getD 0) ((nextPartitions.lookup subsetName).getD 0)
            w.cluster).1 with
          | some e =>
            if !IsTimeout e then
              some (fmtErrorf ("fail to create Subset (" ++ subsetType ++ ") " ++ subsetName ++
                ": " ++ e.msg))
            else none
          | none => none),
         w.afterCall (control.CreateSubset ud subsetName revision
            ((nextReplicas.lookup subsetName).getD 0) ((nextPartitions.lookup subsetName).getD 0)
            w.cluster).2
          (Call.CreateSubset subsetType subsetName revision
            ((nextReplicas.lookup subsetName).getD 0) ((nextPartitions.lookup subsetName).getD 0)
            (control.CreateSubset ud subsetName revision
              ((nextReplicas.lookup subsetName).getD 0) ((nextPartitions.lookup subsetName).getD 0)
              w.cluster).1)) := by
  unfold createSubsetFn
  rw [hidx, hreg]
  generalize hout : control.CreateSubset ud subsetName revision
      ((nextReplicas.lookup subsetName).getD 0) ((nextPartitions.lookup subsetName).getD 0)
      w.cluster = out
  simp only [hout]
  rcases out with ⟨err, cluster⟩
  cases err with
  | none => rfl
  | some e =>
    by_cases ht : IsTimeout e = true
    · simp [ht]
    · simp [ht]

theorem createSubsetFn_eq {σ : Type} (r : ReconcileUnitedDeployment σ)
    (ud : appsv1alpha1.UnitedDeployment) (nextReplicas nextPartitions : List (String × Int))
    (revision : String) (subsetType : subSetType) (createdSubsets : List String)
    (control : ControlInterface σ) (hreg : r.subSetControls.lookup subsetType = some control)
    (idx : Nat) (subsetName : String) (hidx : createdSubsets.get? idx = some subsetName)
    (w : World σ) :
    ∃ ret call w1,
      createSubsetFn r ud nextReplicas nextPartitions revision subsetType createdSubsets idx w
        = some (ret, w1) ∧
      w1 = w.afterCall (control.CreateSubset ud subsetName revision
          ((nextReplicas.lookup subsetName).getD 0) ((nextPartitions.lookup subsetName).getD 0)
          w.cluster).2 call ∧
      call = Call.CreateSubset subsetType subsetName revision
          ((nextReplicas.lookup subsetName).getD 0) ((nextPartitions.lookup subsetName).getD 0)
          (control.CreateSubset ud subsetName revision
            ((nextReplicas.lookup subsetName).getD 0) ((nextPartitions.lookup subsetName).getD 0)
            w.cluster).1 ∧
      (ret = none ↔ call.hardFailed = false) ∧
      ret.toList.length = ([call].filter Call.hardFailed).length := by
  refine ⟨_, _, _, createSubsetFn_unfold r ud nextReplicas nextPartitions revision subsetType
    createdSubsets control hreg idx subsetName hidx w, rfl, rfl, ?_, ?_⟩
  · generalize (control.CreateSubset ud subsetName revision
      ((nextReplicas.lookup subsetName).getD 0) ((nextPartitions.lookup subsetName).getD 0)
      w.cluster).1 = err
    cases err with
    | none => simp [Call.hardFailed, Call.err]
    | some e => by_cases ht : IsTimeout e = true <;> simp [Call.hardFailed, Call.err, ht]
  · generalize (control.CreateSubset ud subsetName revision
      ((nextReplicas.lookup subsetName).getD 0) ((nextPartitions.lookup subsetName).getD 0)
      w.cluster).1 = err
    cases err with
    | none => simp [Call.hardFailed, Call.err]
    | some e => by_cases ht : IsTimeout e = true <;> simp [Call.hardFailed, Call.err, ht]

theorem take_succ_drop {α : Type} (l : List α) (index n : Nat) (a : α)
    (h : l.get? index = some a) :
    (l.drop index).take (n + 1) = a :: (l.drop (index + 1)).take n := by
  induction l generalizing index with
  | nil => simp at h
  | cons b l ih =>
    cases index with
    | zero =>
      simp only [List.get?_cons_zero, Option.some.injEq] at h
      subst h
      simp
    | succ i =>
      simp only [List.get?_cons_succ] at h
      simpa using ih i h

/-- One round of the batch creator over the per-item function of the pass. -/
theorem runBatch_create {σ : Type} (r : ReconcileUnitedDeployment σ)
    (ud : appsv1alpha1.UnitedDeployment) (nextReplicas nextPartitions : List (String × Int))
    (revision : String) (subsetType : subSetType) (creates : List String)
    (control : ControlInterface σ) (hreg : r.subSetControls.lookup subsetType = some control)
    (batchSize index : Nat) (w : World σ) (hb : index + batchSize ≤ creates.length) :
    ∃ errs w1 l,
      runBatch (createSubsetFn r ud nextReplicas nextPartitions revision subsetType creates)
        batchSize index w = some (errs, w1) ∧
      w1.calls = w.calls ++ l ∧ w1.events = w.events ∧
      List.Forall₂ (IsCreateCallFor subsetType revision nextReplicas nextPartitions)
        ((creates.drop index).take batchSize) l ∧
      errs.length = (l.filter Call.hardFailed).length := by
  induction batchSize generalizing index w with
  | zero => exact ⟨[], w, [], rfl, by simp, rfl, by simp, rfl⟩
  | succ b ih =>
    have hlt : index < creates.length := by omega
    have hget : creates.get? index = some (creates.get ⟨index, hlt⟩) := List.get?_eq_get hlt
    obtain ⟨ret, call, w1, hfn, hw1, hcall, -, hlen⟩ :=
      createSubsetFn_eq r ud nextReplicas nextPartitions revision subsetType creates control hreg
        index _ hget w
    obtain ⟨errs, w2, l, hrun, hcalls, hev, hall, hcount⟩ := ih (index + 1) w1 (by omega)
    refine ⟨ret.toList ++ errs, w2, call :: l, ?_, ?_, ?_, ?_, ?_⟩
    · simp only [runBatch, hfn, hrun]
    · rw [hcalls, hw1]
      simp [World.afterCall]
    · rw [hev, hw1]
      rfl
    · rw [take_succ_drop creates index b _ hget]
      exact List.Forall₂.cons ⟨_, hcall⟩ hall
    · rw [List.length_append, hlen, hcount]
      by_cases hh : call.hardFailed = true
      · simp [List.filter_cons, hh]
        omega
      · simp [List.filter_cons, hh]

/-- The rounds of the batch creator over the per-item function of the pass:
the loop returns, the calls it makes are the `CreateSubset` calls for an
initial segment of the names left, and it reports an error exactly when one of
them failed outside the timeout class. -/
theorem slowStartLoop_create {σ : Type} (r : ReconcileUnitedDeployment σ)
    (ud : appsv1alpha1.UnitedDeployment) (nextReplicas nextPartitions : List (String × Int))
    (revision : String) (subsetType : subSetType) (creates : List String)
    (control : ControlInterface σ) (hreg : r.subSetControls.lookup subsetType = some control)
    (fuel remaining batchSize index successes : Nat) (w : World σ)
    (hidx : index + remaining = creates.length) (hbs : batchSize ≤ remaining)
    (hfuel : remaining ≤ fuel) :
    ∃ n err w1 l,
      slowStartLoop (createSubsetFn r ud nextReplicas nextPartitions revision subsetType creates)
        fuel remaining batchSize index successes w = some ((n, err), w1) ∧
      w1.calls = w.calls ++ l ∧ w1.events = w.events ∧
      List.Forall₂ (IsCreateCallFor subsetType revision nextReplicas nextPartitions)
        ((creates.drop index).take l.length) l ∧
      (err = none ↔ ∀ c ∈ l, c.hardFailed = false) ∧
      (0 < batchSize → err = none → l.length = remaining) ∧
      n = successes + (l.filter (fun c => !c.hardFailed)).length := by
  induction fuel generalizing remaining batchSize index successes w with
  | zero =>
    exact ⟨successes, none, w, [], rfl, by simp, rfl, by simp, by simp,
      by intro _ _; simp; omega, by simp⟩
  | succ fuel ih =>
    by_cases hpos : batchSize > 0
    · obtain ⟨errs, w1, l1, hrun, hcalls1, hev1, hall1, hcount1⟩ :=
        runBatch_create r ud nextReplicas nextPartitions revision subsetType creates control hreg
          batchSize index w (by omega)
      have hlen1 : l1.length = batchSize := by
        have := hall1.length_eq
        rw [List.length_take, List.length_drop] at this
        omega
      have hpart := length_filter_add_length_filter_not Call.hardFailed l1
      cases errs with
      | cons e rest =>
        refine ⟨successes + (batchSize - (e :: rest).length), some e, w1, l1, ?_, hcalls1, hev1,
          ?_, ?_, ?_, ?_⟩
        · simp only [slowStartLoop, hpos, if_true, hrun]
        · rw [hlen1]; exact hall1
        · simp only [false_iff, reduceCtorEq]
          intro hnone
          have := (filter_length_eq_zero_iff Call.hardFailed l1).mpr hnone
          rw [← hcount1] at this
          simp at this
        · intro _ h; cases h
        · rw [hcount1]
          omega
      | nil =>
        have hnone : ∀ c ∈ l1, c.hardFailed = false :=
          (filter_length_eq_zero_iff Call.hardFailed l1).mp (by rw [← hcount1]; rfl)
        obtain ⟨n, err, w2, l2, hloop, hcalls2, hev2, hall2, herr2, hlen2, hn2⟩ :=
          ih (remaining - batchSize) (min (2 * batchSize) (remaining - batchSize))
            (index + batchSize) (successes + (batchSize - ([] : List GoError).length)) w1
            (by omega) (Nat.min_le_right _ _) (by omega)
        have hl2le : l2.length ≤ remaining - batchSize := by
          have := hall2.length_eq
          rw [List.length_take, List.length_drop] at this
          omega
        refine ⟨n, err, w2, l1 ++ l2, ?_, ?_, ?_, ?_, ?_, ?_, ?_⟩
        · simp only [slowStartLoop, hpos, if_true, hrun]
          exact hloop
        · rw [hcalls2, hcalls1, List.append_assoc]
        · rw [hev2, hev1]
        · have hsplit : (creates.drop index).take (l1 ++ l2).length
              = (creates.drop index).take batchSize
                ++ (creates.drop (index + batchSize)).take l2.length := by
            rw [List.length_append, hlen1, List.take_add, List.drop_drop]
          rw [hsplit]
          exact List.rel_append hall1 hall2
        · rw [herr2]
          constructor
          · intro h c hc
            rcases List.mem_append.mp hc with h1 | h2
            · exact hnone c h1
            · exact h c h2
          · intro h c hc
            exact h c (List.mem_append_right _ hc)
        · intro _ herr
          rw [List.length_append, hlen1]
          by_cases hz : 0 < min (2 * batchSize) (remaining - batchSize)
          · have := hlen2 hz herr
            omega
          · have : remaining - batchSize = 0 := by
              rcases Nat.le_total (2 * batchSize) (remaining - batchSize) with h | h
              · rw [Nat.min_eq_left h] at hz; omega
              · rw [Nat.min_eq_right h] at hz; omega
            omega
        · rw [hn2, List.filter_append, List.length_append]
          have : (l1.filter Call.hardFailed).length = 0 := by rw [← hcount1]; rfl
          simp only [List.length_nil]
          omega
    · have hz : batchSize = 0 := by omega
      refine ⟨successes, none, w, [], ?_, by simp, rfl, by simp, by simp, ?_, by simp⟩
      · simp only [slowStartLoop, hpos, if_false]
      · intro h; omega

theorem slowStartBatch_create {σ : Type} (r : ReconcileUnitedDeployment σ)
    (ud : appsv1alpha1.UnitedDeployment) (nextReplicas nextPartitions : List (String × Int))
    (revision : String) (subsetType : subSetType) (creates : List String)
    (control : ControlInterface σ) (hreg : r.subSetControls.lookup subsetType = some control)
    (initialBatchSize : Nat) (w : World σ) :
    ∃ n err w1 l,
      SlowStartBatch creates.length initialBatchSize
        (createSubsetFn r ud nextReplicas nextPartitions revision subsetType creates) w
        = some ((n, err), w1) ∧
      w1.calls = w.calls ++ l ∧ w1.events = w.events ∧
      List.Forall₂ (IsCreateCallFor subsetType revision nextReplicas nextPartitions)
        (creates.take l.length) l ∧
      (err = none ↔ ∀ c ∈ l, c.hardFailed = false) ∧
      (0 < initialBatchSize → err = none → l.length = creates.length) ∧
      n = (l.filter (fun c => !c.hardFailed)).length := by
  obtain ⟨n, err, w1, l, h1, h2, h3, h4, h5, h6, h7⟩ :=
    slowStartLoop_create r ud nextReplicas nextPartitions revision subsetType creates control hreg
      creates.length creates.length (min creates.length initialBatchSize) 0 0 w
      (by omega) (Nat.min_le_left _ _) (le_refl _)
  refine ⟨n, err, w1, l, h1, h2, h3, by simpa using h4, h5, ?_, by simpa using h7⟩
  intro hB herr
  by_cases hc : creates.length = 0
  · have := h4.length_eq
    rw [List.length_take, List.length_drop] at this
    omega
  · exact h6 (by
      rcases Nat.le_total creates.length initialBatchSize with h | h
      · rw [Nat.min_eq_left h]; omega
      · rw [Nat.min_eq_right h]; exact hB) herr

/-- The create phase: it returns, its calls are the `CreateSubset` calls for an
initial segment of `creates`, and it appends an error exactly when one of them
failed outside the timeout class. -/
theorem manageCreating_spec {σ : Type} (c : Constants) (r : ReconcileUnitedDeployment σ)
    (ud : appsv1alpha1.UnitedDeployment) (nextReplicas nextPartitions : List (String × Int))
    (currentRevision : ControllerRevision) (updatedRevision : Option ControllerRevision)
    (subsetType : subSetType) (creates : List String)
    (control : ControlInterface σ) (hreg : r.subSetControls.lookup subsetType = some control)
    (errs : List GoError) (w : World σ) :
    ∃ tail w1 l,
      manageCreating c r ud nextReplicas nextPartitions currentRevision updatedRevision
        subsetType creates errs w = some (errs ++ tail, w1) ∧
      w1.calls = w.calls ++ l ∧
      List.Forall₂ (IsCreateCallFor subsetType (selectRevision currentRevision updatedRevision)
        nextReplicas nextPartitions) (creates.take l.length) l ∧
      (tail = [] ↔ ∀ c ∈ l, c.hardFailed = false) ∧
      (0 < c.slowStartInitialBatchSize → tail = [] → l.length = creates.length) ∧
      w1.events = w.events ++
        (if creates.length > 0 ∧ tail = [] then
          [⟨EventTypeNormal, "Successful" ++ c.eventTypeSubsetsUpdate,
            "Create " ++ toString (l.filter (fun c => !c.hardFailed)).length ++
              " Subset (" ++ subsetType ++ ")"⟩]
        else []) := by
  unfold manageCreating
  by_cases hc : creates.length > 0
  · obtain ⟨n, err, w1, l, h1, h2, h3, h4, h5, h6, h7⟩ :=
      slowStartBatch_create r ud nextReplicas nextPartitions
        (selectRevision currentRevision updatedRevision) subsetType creates control hreg
        c.slowStartInitialBatchSize w
    simp only [hc, if_true, h1]
    cases err with
    | none =>
      refine ⟨[], w1.Eventf EventTypeNormal ("Successful" ++ c.eventTypeSubsetsUpdate)
        ("Create " ++ toString n ++ " Subset (" ++ subsetType ++ ")"), l, by simp, ?_, h4, ?_, ?_,
        ?_⟩
      · simpa [World.Eventf] using h2
      · simpa using h5
      · intro hB _
        exact h6 hB rfl
      · simp [World.Eventf, h3, h7]
    | some e =>
      refine ⟨[e], w1, l, rfl, h2, h4, ?_, ?_, ?_⟩
      · simpa using h5
      · intro _ h; cases h
      · simp [h3]
  · refine ⟨[], w, [], ?_, by simp, by simp, by simp, ?_, ?_⟩
    · simp [hc]
    · intro _ _
      simp only [List.length_nil]
      omega
    · simp [hc]

/-! ## The delete phase -/

theorem lookup_isSome_of_mem {β : Type} (l : List (String × β)) (k : String)
    (h : k ∈ l.map (fun entry => entry.1)) : ∃ v, l.lookup k = some v := by
  induction l with
  | nil => simp at h
  | cons a l ih =>
    obtain ⟨k1, v1⟩ := a
    by_cases hk : k = k1
    · subst hk
      exact ⟨v1, by simp [List.lookup]⟩
    · have hne : (k == k1) = false := by simpa using hk
      simp only [List.map_cons, List.mem_cons] at h
      rcases h with h | h
      · exact (hk h).elim
      · obtain ⟨v, hv⟩ := ih h
        exact ⟨v, by simp [List.lookup, hne, hv]⟩

/-- The loop of the delete phase: it returns when every name has an entry in
the observed map; it calls `DeleteSubset` once for each name, in order, and
collects one error for each call that failed. -/
theorem deleteLoop_spec {σ : Type} (r : ReconcileUnitedDeployment σ)
    (nameToSubset : List (String × Subset)) (subsetType : subSetType)
    (control : ControlInterface σ) (hreg : r.subSetControls.lookup subsetType = some control)
    (names : List String) (hnames : ∀ n ∈ names, ∃ subset, nameToSubset.lookup n = some subset)
    (deleteErrs : List GoError) (w : World σ) :
    ∃ tail w1 l,
      deleteLoop r nameToSubset subsetType names deleteErrs w = some (deleteErrs ++ tail, w1) ∧
      w1.calls = w.calls ++ l ∧ w1.events = w.events ∧
      List.Forall₂ (IsDeleteCallFor nameToSubset subsetType) names l ∧
      tail.length = (l.filter Call.failed).length := by
  induction names generalizing deleteErrs w with
  | nil => exact ⟨[], w, [], by simp [deleteLoop], by simp, rfl, by simp, rfl⟩
  | cons name rest ih =>
    obtain ⟨subset, hsub⟩ := hnames name (List.mem_cons_self _ _)
    have hrest : ∀ n ∈ rest, ∃ subset, nameToSubset.lookup n = some subset :=
      fun n hn => hnames n (List.mem_cons_of_mem _ hn)
    unfold deleteLoop
    rw [hsub, hreg]
    generalize hout : control.DeleteSubset subset w.cluster = out
    simp only [hout]
    rcases out with ⟨err, cluster⟩
    cases err with
    | none =>
      obtain ⟨tail, w1, l, h1, h2, h3, h4, h5⟩ :=
        ih hrest deleteErrs (w.afterCall cluster (Call.DeleteSubset subsetType subset none))
      refine ⟨tail, w1, Call.DeleteSubset subsetType subset none :: l, h1, ?_, ?_, ?_, ?_⟩
      · rw [h2]; simp [World.afterCall]
      · rw [h3]; rfl
      · exact List.Forall₂.cons ⟨subset, none, hsub, rfl⟩ h4
      · simp [List.filter_cons, Call.failed, Call.err, h5]
    | some e =>
      obtain ⟨tail, w1, l, h1, h2, h3, h4, h5⟩ :=
        ih hrest (deleteErrs ++ [fmtErrorf ("fail to delete Subset (" ++ subsetType ++ ") " ++
            subset.Namespace ++ "/" ++ subset.Name ++ " for " ++ name ++ ": " ++ e.msg)])
          (w.afterCall cluster (Call.DeleteSubset subsetType subset (some e)))
      refine ⟨fmtErrorf ("fail to delete Subset (" ++ subsetType ++ ") " ++
            subset.Namespace ++ "/" ++ subset.Name ++ " for " ++ name ++ ": " ++ e.msg) :: tail,
        w1, Call.DeleteSubset subsetType subset (some e) :: l, ?_, ?_, ?_, ?_, ?_⟩
      · simp only [h1, List.append_assoc, List.singleton_append]
      · rw [h2]; simp [World.afterCall]
      · rw [h3]; rfl
      · exact List.Forall₂.cons ⟨subset, some e, hsub, rfl⟩ h4
      · simp [List.filter_cons, Call.failed, Call.err, h5]

/-- The delete phase: it returns, calls `DeleteSubset` once for each name of
`deletes`, in order, and appends one error for each call that failed. -/
theorem manageDeleting_spec {σ : Type} (c : Constants) (r : ReconcileUnitedDeployment σ)
    (nameToSubset : List (String × Subset)) (subsetType : subSetType)
    (control : ControlInterface σ) (hreg : r.subSetControls.lookup subsetType = some control)
    (deletes : List String)
    (hnames : ∀ n ∈ deletes, ∃ subset, nameToSubset.lookup n = some subset)
    (errs : List GoError) (w : World σ) :
    ∃ tail w1 l,
      manageDeleting c r nameToSubset subsetType deletes errs w = some (errs ++ tail, w1) ∧
      w1.calls = w.calls ++ l ∧
      List.Forall₂ (IsDeleteCallFor nameToSubset subsetType) deletes l ∧
      tail.length = (l.filter Call.failed).length ∧
      w1.events = w.events ++
        (if deletes.length > 0 ∧ tail = [] then
          [⟨EventTypeNormal, "Successful" ++ c.eventTypeSubsetsUpdate,
            "Delete " ++ toString deletes.length ++ " Subset (" ++ subsetType ++ ")"⟩]
        else []) := by
  unfold manageDeleting
  by_cases hd : deletes.length > 0
  · obtain ⟨tail, w1, l, h1, h2, h3, h4, h5⟩ :=
      deleteLoop_spec r nameToSubset subsetType control hreg deletes hnames [] w
    simp only [hd, if_true, h1, List.nil_append]
    by_cases ht : tail.length > 0
    · refine ⟨tail, w1, l, by simp [ht], h2, h4, h5, ?_⟩
      have : tail ≠ [] := by intro h; rw [h] at ht; simp at ht
      simp [h3, this]
    · have htl : tail = [] := List.length_eq_zero.mp (by omega)
      subst htl
      refine ⟨[], w1.Eventf EventTypeNormal ("Successful" ++ c.eventTypeSubsetsUpdate)
        ("Delete " ++ toString deletes.length ++ " Subset (" ++ subsetType ++ ")"), l, by simp,
        ?_, h4, h5, ?_⟩
      · simpa [World.Eventf] using h2
      · simp [World.Eventf, h3, hd]
  · have hnil : deletes = [] := List.length_eq_zero.mp (by omega)
    subst hnil
    exact ⟨[], w, [], by simp, by simp, by simp, rfl, by simp⟩

/-! ## The cleanup of the other subset types -/

theorem deleteOtherSubsets_spec {σ : Type} (ud : appsv1alpha1.UnitedDeployment)
    (t : subSetType) (control : ControlInterface σ) (subsets : List Subset)
    (errs : List GoError) (w : World σ) :
    ∃ tail w1 l,
      deleteOtherSubsets ud t control subsets errs w = (errs ++ tail, w1) ∧
      w1.calls = w.calls ++ l ∧ w1.events = w.events ∧
      List.Forall₂ (fun subset call => ∃ err, call = Call.DeleteSubset t subset err) subsets l ∧
      tail.length = (l.filter Call.failed).length := by
  induction subsets generalizing errs w with
  | nil => exact ⟨[], w, [], by simp [deleteOtherSubsets], by simp, rfl, by simp, rfl⟩
  | cons subset rest ih =>
    unfold deleteOtherSubsets
    generalize hout : control.DeleteSubset subset w.cluster = out
    simp only [hout]
    rcases out with ⟨err, cluster⟩
    cases err with
    | none =>
      obtain ⟨tail, w1, l, h1, h2, h3, h4, h5⟩ :=
        ih errs (w.afterCall cluster (Call.DeleteSubset t subset none))
      refine ⟨tail, w1, Call.DeleteSubset t subset none :: l, h1, ?_, ?_, ?_, ?_⟩
      · rw [h2]; simp [World.afterCall]
      · rw [h3]; rfl
      · exact List.Forall₂.cons ⟨none, rfl⟩ h4
      · simp [List.filter_cons, Call.failed, Call.err, h5]
    | some e =>
      obtain ⟨tail, w1, l, h1, h2, h3, h4, h5⟩ :=
        ih (errs ++ [fmtErrorf ("fail to delete Subset " ++ subset.Name ++ " of other type " ++
            t ++ " for UnitedDeployment " ++ ud.Namespace ++ "/" ++ ud.Name ++ ": " ++ e.msg)])
          (w.afterCall cluster (Call.DeleteSubset t subset (some e)))
      refine ⟨fmtErrorf ("fail to delete Subset " ++ subset.Name ++ " of other type " ++
            t ++ " for UnitedDeployment " ++ ud.Namespace ++ "/" ++ ud.Name ++ ": " ++ e.msg) ::
          tail, w1, Call.DeleteSubset t subset (some e) :: l, ?_, ?_, ?_, ?_, ?_⟩
      · simp only [h1, List.append_assoc, List.singleton_append]
      · rw [h2]; simp [World.afterCall]
      · rw [h3]; rfl
      · exact List.Forall₂.cons ⟨some e, rfl⟩ h4
      · simp [List.filter_cons, Call.failed, Call.err, h5]

/-- The cleanup: for each entry of the registry other than the active type, in
order, one block of calls; one error is appended for each call that failed. -/
theorem cleanOtherSubsets_spec {σ : Type} (ud : appsv1alpha1.UnitedDeployment)
    (subsetType : subSetType) (controls : List (subSetType × ControlInterface σ))
    (errs : List GoError) (w : World σ) :
    ∃ tail w1 blocks,
      cleanOtherSubsets ud subsetType controls errs w = (errs ++ tail, w1) ∧
      w1.calls = w.calls ++ blocks.flatten ∧ w1.events = w.events ∧
      List.Forall₂ IsCleanupBlock
        ((controls.map (fun entry => entry.1)).filter (fun t => decide (t ≠ subsetType)))
        blocks ∧
      tail.length = (blocks.flatten.filter Call.failed).length := by
  induction controls generalizing errs w with
  | nil => exact ⟨[], w, [], by simp [cleanOtherSubsets], by simp, rfl, by simp, rfl⟩
  | cons entry rest ih =>
    obtain ⟨t, control⟩ := entry
    unfold cleanOtherSubsets
    by_cases ht : t = subsetType
    · obtain ⟨tail, w1, blocks, h1, h2, h3, h4, h5⟩ := ih errs w
      refine ⟨tail, w1, blocks, by simp [ht, h1], h2, h3, ?_, h5⟩
      simpa [ht] using h4
    · simp only [ht, if_false]
      generalize hout : control.GetAllSubsets ud w.cluster = out
      simp only [hout]
      rcases out with ⟨⟨subsets, err⟩, cluster⟩
      cases err with
      | some e =>
        obtain ⟨tail, w1, blocks, h1, h2, h3, h4, h5⟩ :=
          ih (errs ++ [fmtErrorf ("fail to list Subset of other type " ++ t ++
              " for UnitedDeployment " ++ ud.Namespace ++ "/" ++ ud.Name ++ ": " ++ e.msg)])
            (w.afterCall cluster (Call.GetAllSubsets t subsets (some e)))
        refine ⟨fmtErrorf ("fail to list Subset of other type " ++ t ++
              " for UnitedDeployment " ++ ud.Namespace ++ "/" ++ ud.Name ++ ": " ++ e.msg) :: tail,
          w1, [Call.GetAllSubsets t subsets (some e)] :: blocks, ?_, ?_, ?_, ?_, ?_⟩
        · simp only [h1, List.append_assoc, List.singleton_append]
        · rw [h2]; simp [World.afterCall]
        · rw [h3]; rfl
        · simp only [List.map_cons, List.filter_cons, ne_eq, ht, not_false_eq_true, decide_True,
            if_true]
          exact List.Forall₂.cons (Or.inl ⟨subsets, e, rfl⟩) h4
        · simp [List.filter_cons, Call.failed, Call.err, h5]
      | none =>
        obtain ⟨tail1, w1, l, g1, g2, g3, g4, g5⟩ :=
          deleteOtherSubsets_spec ud t control subsets errs
            (w.afterCall cluster (Call.GetAllSubsets t subsets none))
        obtain ⟨tail, w2, blocks, h1, h2, h3, h4, h5⟩ := ih (errs ++ tail1) w1
        refine ⟨tail1 ++ tail, w2, (Call.GetAllSubsets t subsets none :: l) :: blocks, ?_, ?_, ?_,
          ?_, ?_⟩
        · simp only [g1, h1, List.append_assoc]
        · rw [h2, g2]; simp [World.afterCall]
        · rw [h3, g3]; rfl
        · simp only [List.map_cons, List.filter_cons, ne_eq, ht, not_false_eq_true, decide_True,
            if_true]
          exact List.Forall₂.cons (Or.inr ⟨subsets, l, rfl, g4⟩) h4
        · simp [List.filter_cons, List.filter_append, Call.failed, Call.err, h5, g5]

/-! ## The whole pass -/

theorem not_isCreate_of_deleteCalls (nameToSubset : List (String × Subset))
    (subsetType : subSetType) (names : List String) (l : List Call)
    (h : List.Forall₂ (IsDeleteCallFor nameToSubset subsetType) names l) :
    ∀ c ∈ l, c.isCreate = false ∧ c.isDelete = true ∧ c.subsetType = subsetType := by
  induction h with
  | nil => simp
  | cons hab _ ih =>
    intro c hc
    rcases List.mem_cons.mp hc with rfl | hc
    · obtain ⟨subset, err, _, rfl⟩ := hab
      exact ⟨rfl, rfl, rfl⟩
    · exact ih c hc

theorem isCreate_of_createCalls (subsetType : subSetType) (revision : String)
    (nextReplicas nextPartitions : List (String × Int)) (names : List String) (l : List Call)
    (h : List.Forall₂ (IsCreateCallFor subsetType revision nextReplicas nextPartitions) names l) :
    ∀ c ∈ l, ∃ name, name ∈ names ∧
      IsCreateCallFor subsetType revision nextReplicas nextPartitions name c := by
  induction h with
  | nil => simp
  | cons hab _ ih =>
    intro c hc
    rcases List.mem_cons.mp hc with rfl | hc
    · exact ⟨_, List.mem_cons_self _ _, hab⟩
    · obtain ⟨name, hn, hcall⟩ := ih c hc
      exact ⟨name, List.mem_cons_of_mem _ hn, hcall⟩

theorem cleanupBlock_calls (t : subSetType) (block : List Call) (h : IsCleanupBlock t block) :
    (∀ c ∈ block, c.isCreate = false ∧ c.subsetType = t) ∧
    (block.filter Call.isGetAll).map Call.subsetType = [t] := by
  rcases h with ⟨subsets, e, rfl⟩ | ⟨subsets, deleteCalls, rfl, hall⟩
  · constructor
    · intro c hc
      rw [List.mem_singleton] at hc
      subst hc
      exact ⟨rfl, rfl⟩
    · rfl
  · have hd : ∀ c ∈ deleteCalls, c.isCreate = false ∧ c.subsetType = t ∧ c.isGetAll = false := by
      induction hall with
      | nil => simp
      | cons hab _ ih =>
        intro c hc
        rcases List.mem_cons.mp hc with rfl | hc
        · obtain ⟨err, rfl⟩ := hab
          exact ⟨rfl, rfl, rfl⟩
        · exact ih c hc
    constructor
    · intro c hc
      rcases List.mem_cons.mp hc with rfl | hc
      · exact ⟨rfl, rfl⟩
      · exact ⟨(hd c hc).1, (hd c hc).2.1⟩
    · have : deleteCalls.filter Call.isGetAll = [] :=
        List.filter_eq_nil_iff.mpr (fun c hc => by simp [(hd c hc).2.2])
      simp [List.filter_cons, Call.isGetAll, this, Call.subsetType]

theorem cleanupBlocks_calls (ts : List subSetType) (blocks : List (List Call))
    (h : List.Forall₂ IsCleanupBlock ts blocks) :
    (∀ c ∈ blocks.flatten, c.isCreate = false ∧ c.subsetType ∈ ts) ∧
    (blocks.flatten.filter Call.isGetAll).map Call.subsetType = ts := by
  induction h with
  | nil => simp
  | @cons t block ts blocks hab _ ih =>
    obtain ⟨h1, h2⟩ := cleanupBlock_calls t block hab
    constructor
    · intro c hc
      rw [List.flatten_cons, List.mem_append] at hc
      rcases hc with hc | hc
      · exact ⟨(h1 c hc).1, by rw [(h1 c hc).2]; exact List.mem_cons_self _ _⟩
      · exact ⟨(ih.1 c hc).1, List.mem_cons_of_mem _ (ih.1 c hc).2⟩
    · rw [List.flatten_cons, List.filter_append, List.map_append, h2, ih.2]
      rfl

theorem planDeletes_lookup (ud : appsv1alpha1.UnitedDeployment)
    (nameToSubset : List (String × Subset)) :
    ∀ n ∈ planDeletes (expectedSubsetsOf ud) (gotSubsetsOf nameToSubset),
      ∃ subset, nameToSubset.lookup n = some subset := by
  intro n hn
  have := ((mem_planDeletes _ _ n).mp hn).1
  rw [mem_gotSubsetsOf] at this
  exact lookup_isSome_of_mem nameToSubset n this

theorem NewAggregate_eq_none_iff (errs : List GoError) : NewAggregate errs = none ↔ errs = [] := by
  unfold NewAggregate
  cases errs <;> simp

/-- The pass as a whole, when a control is registered for the active type: it
returns; its calls are those of the create phase, then those of the delete
phase, then those of the cleanup; its error is `nil` exactly when the create
phase added no error and no call of the two later phases failed. -/
theorem manageSubsetProvision_spec {σ : Type} (c : Constants) (r : ReconcileUnitedDeployment σ)
    (ud : appsv1alpha1.UnitedDeployment) (nameToSubset : List (String × Subset))
    (nextReplicas nextPartitions : List (String × Int))
    (currentRevision : ControllerRevision) (updatedRevision : Option ControllerRevision)
    (subsetType : subSetType) (cluster : σ)
    (control : ControlInterface σ) (hreg : r.subSetControls.lookup subsetType = some control) :
    ∃ res errs1 w1 dl bl,
      manageCreating c r ud nextReplicas nextPartitions currentRevision updatedRevision subsetType
        (planCreates (expectedSubsetsOf ud) (gotSubsetsOf nameToSubset)) [] ⟨cluster, [], []⟩
        = some (errs1, w1) ∧
      manageSubsetProvision c r ud nameToSubset nextReplicas nextPartitions currentRevision
        updatedRevision subsetType cluster = some res ∧
      res.retained = (expectedSubsetsOf ud).Intersection (gotSubsetsOf nameToSubset) ∧
      res.world.calls = w1.calls ++ dl ++ bl.flatten ∧
      List.Forall₂ (IsCreateCallFor subsetType (selectRevision currentRevision updatedRevision)
        nextReplicas nextPartitions)
        ((planCreates (expectedSubsetsOf ud) (gotSubsetsOf nameToSubset)).take w1.calls.length)
        w1.calls ∧
      (errs1 = [] ↔ ∀ c ∈ w1.calls, c.hardFailed = false) ∧
      (0 < c.slowStartInitialBatchSize → errs1 = [] →
        w1.calls.length
          = (planCreates (expectedSubsetsOf ud) (gotSubsetsOf nameToSubset)).length) ∧
      List.Forall₂ (IsDeleteCallFor nameToSubset subsetType)
        (planDeletes (expectedSubsetsOf ud) (gotSubsetsOf nameToSubset)) dl ∧
      List.Forall₂ IsCleanupBlock (otherTypes r subsetType) bl ∧
      (res.err = none ↔
        errs1 = [] ∧ (∀ c ∈ dl, c.failed = false) ∧ (∀ c ∈ bl.flatten, c.failed = false)) ∧
      res.world.events =
        (if (planCreates (expectedSubsetsOf ud) (gotSubsetsOf nameToSubset)).length > 0
            ∧ errs1 = [] then
          [⟨EventTypeNormal, "Successful" ++ c.eventTypeSubsetsUpdate,
            "Create " ++ toString (w1.calls.filter (fun c => !c.hardFailed)).length ++
              " Subset (" ++ subsetType ++ ")"⟩]
        else []) ++
        (if (planDeletes (expectedSubsetsOf ud) (gotSubsetsOf nameToSubset)).length > 0
            ∧ (∀ c ∈ dl, c.failed = false) then
          [⟨EventTypeNormal, "Successful" ++ c.eventTypeSubsetsUpdate,
            "Delete " ++
              toString (planDeletes (expectedSubsetsOf ud) (gotSubsetsOf nameToSubset)).length ++
              " Subset (" ++ subsetType ++ ")"⟩]
        else []) := by
  obtain ⟨tail1, w1, cl, hc1, hc2, hc3, hc4, hc5, hc6⟩ :=
    manageCreating_spec c r ud nextReplicas nextPartitions currentRevision updatedRevision
      subsetType (planCreates (expectedSubsetsOf ud) (gotSubsetsOf nameToSubset)) control hreg []
      ⟨cluster, [], []⟩
  obtain ⟨tail2, w2, dl, hd1, hd2, hd3, hd4, hd5⟩ :=
    manageDeleting_spec c r nameToSubset subsetType control hreg
      (planDeletes (expectedSubsetsOf ud) (gotSubsetsOf nameToSubset))
      (planDeletes_lookup ud nameToSubset) ([] ++ tail1) w1
  obtain ⟨tail3, w3, bl, hx1, hx2, hx3, hx4, hx5⟩ :=
    cleanOtherSubsets_spec ud subsetType r.subSetControls ([] ++ tail1 ++ tail2) w2
  have hcl : w1.calls = cl := by simpa using hc2
  have ht2 : tail2 = [] ↔ ∀ c ∈ dl, c.failed = false := by
    rw [← filter_length_eq_zero_iff, ← hd4, List.length_eq_zero]
  have ht3 : tail3 = [] ↔ ∀ c ∈ bl.flatten, c.failed = false := by
    rw [← filter_length_eq_zero_iff, ← hx5, List.length_eq_zero]
  refine ⟨⟨(expectedSubsetsOf ud).Intersection (gotSubsetsOf nameToSubset),
    NewAggregate ([] ++ tail1 ++ tail2 ++ tail3), w3⟩, [] ++ tail1, w1, dl, bl, hc1, ?_, rfl, ?_,
    ?_, ?_, ?_, hd3, hx4, ?_, ?_⟩
  · unfold manageSubsetProvision
    simp only [hc1, hd1, hx1]
  · show w3.calls = _
    rw [hx2, hd2]
  · rw [hcl]; exact hc3
  · rw [hcl]; simpa using hc4
  · rw [hcl]; simpa using hc5
  · show NewAggregate _ = none ↔ _
    rw [NewAggregate_eq_none_iff, ← ht2, ← ht3]
    simp [List.append_eq_nil]
  · show w3.events = _
    rw [hx3, hd5, hc6, hcl]
    have e1 : ((planCreates (expectedSubsetsOf ud) (gotSubsetsOf nameToSubset)).length > 0
        ∧ [] ++ tail1 = []) ↔
        ((planCreates (expectedSubsetsOf ud) (gotSubsetsOf nameToSubset)).length > 0
        ∧ tail1 = []) := by simp
    have e2 : ((planDeletes (expectedSubsetsOf ud) (gotSubsetsOf nameToSubset)).length > 0
        ∧ ∀ c ∈ dl, c.failed = false) ↔
        ((planDeletes (expectedSubsetsOf ud) (gotSubsetsOf nameToSubset)).length > 0
        ∧ tail2 = []) := by rw [ht2]
    rw [if_congr e1 rfl rfl, if_congr e2 rfl rfl]
    rfl

/-! ## The claims on the provisioning pass -/

/-- C4: with `E` the names of the desired topology and `A` the keys of the
observed map, `creates` holds exactly the names of `E \ A`, `deletes` exactly
those of `A \ E`, the two share no name, and the pass returns, whatever the
controls answer, with a retained set that holds exactly the names of `E ∩ A`. -/
theorem C4_plan_is_set_difference {σ : Type} (c : Constants) (r : ReconcileUnitedDeployment σ)
    (ud : appsv1alpha1.UnitedDeployment) (nameToSubset : List (String × Subset))
    (nextReplicas nextPartitions : List (String × Int))
    (currentRevision : ControllerRevision) (updatedRevision : Option ControllerRevision)
    (subsetType : subSetType) (cluster : σ)
    (control : ControlInterface σ) (hreg : r.subSetControls.lookup subsetType = some control) :
    (∀ n, n ∈ planCreates (expectedSubsetsOf ud) (gotSubsetsOf nameToSubset) ↔
      n ∈ ud.Spec.Topology.Subsets.map (fun subset => subset.Name) ∧
      n ∉ nameToSubset.map (fun entry => entry.1)) ∧
    (∀ n, n ∈ planDeletes (expectedSubsetsOf ud) (gotSubsetsOf nameToSubset) ↔
      n ∈ nameToSubset.map (fun entry => entry.1) ∧
      n ∉ ud.Spec.Topology.Subsets.map (fun subset => subset.Name)) ∧
    (∀ n, n ∈ planCreates (expectedSubsetsOf ud) (gotSubsetsOf nameToSubset) →
      n ∉ planDeletes (expectedSubsetsOf ud) (gotSubsetsOf nameToSubset)) ∧
    ∃ res, manageSubsetProvision c r ud nameToSubset nextReplicas nextPartitions currentRevision
        updatedRevision subsetType cluster = some res ∧
      ∀ n, n ∈ res.retained ↔
        n ∈ ud.Spec.Topology.Subsets.map (fun subset => subset.Name) ∧
        n ∈ nameToSubset.map (fun entry => entry.1) := by
  refine ⟨?_, ?_, ?_, ?_⟩
  · intro n
    rw [mem_planCreates, mem_expectedSubsetsOf, mem_gotSubsetsOf]
  · intro n
    rw [mem_planDeletes, mem_expectedSubsetsOf, mem_gotSubsetsOf]
  · intro n hc hd
    exact ((mem_planCreates _ _ n).mp hc).2 ((mem_planDeletes _ _ n).mp hd).1
  · obtain ⟨res, _, _, _, _, _, hres, hret, _⟩ :=
      manageSubsetProvision_spec c r ud nameToSubset nextReplicas nextPartitions currentRevision
        updatedRevision subsetType cluster control hreg
    refine ⟨res, hres, ?_⟩
    intro n
    rw [hret, stringSet_mem_Intersection, mem_expectedSubsetsOf, mem_gotSubsetsOf]

theorem C4_plan_is_set_difference_witness :
    planCreates (expectedSubsetsOf exampleUD) (gotSubsetsOf exampleObserved) = ["a"] ∧
    planDeletes (expectedSubsetsOf exampleUD) (gotSubsetsOf exampleObserved) = ["d"] ∧
    (manageSubsetProvision exampleConstants ⟨[("StatefulSet", failingControl)]⟩ exampleUD
      exampleObserved [] [] ⟨"rev-1"⟩ none "StatefulSet" 0).map
        (fun res => (StringSet.List res.retained, res.err.isSome))
      = some (["b", "c"], true) ∧
    ∃ res, manageSubsetProvision exampleConstants ⟨[("StatefulSet", failingControl)]⟩ exampleUD
        exampleObserved [] [] ⟨"rev-1"⟩ none "StatefulSet" 0 = some res ∧
      ∀ n, n ∈ res.retained ↔ n ∈ ["a", "b", "c"] ∧ n ∈ ["b", "c", "d"] :=
  ⟨by decide, by decide, by decide,
    (C4_plan_is_set_difference exampleConstants ⟨[("StatefulSet", failingControl)]⟩ exampleUD
      exampleObserved [] [] ⟨"rev-1"⟩ none "StatefulSet" 0 failingControl rfl).2.2.2⟩

/-- C6: the per-item create function returns no error exactly when
`CreateSubset` returned no error or a timeout-class error; and a pass in which
the only calls that fail are `CreateSubset` calls failing with a timeout-class
error returns no error. -/
theorem C6_timeout_create_absorbed {σ : Type} (c : Constants) (r : ReconcileUnitedDeployment σ)
    (ud : appsv1alpha1.UnitedDeployment) (nameToSubset : List (String × Subset))
    (nextReplicas nextPartitions : List (String × Int))
    (currentRevision : ControllerRevision) (updatedRevision : Option ControllerRevision)
    (subsetType : subSetType) (cluster : σ)
    (control : ControlInterface σ) (hreg : r.subSetControls.lookup subsetType = some control) :
    (∀ (revision : String) (createdSubsets : List String) (idx : Nat) (subsetName : String)
        (w : World σ), createdSubsets.get? idx = some subsetName →
      ∃ ret w1,
        createSubsetFn r ud nextReplicas nextPartitions revision subsetType createdSubsets idx w
          = some (ret, w1) ∧
        (ret = none ↔
          (control.CreateSubset ud subsetName revision ((nextReplicas.lookup subsetName).getD 0)
            ((nextPartitions.lookup subsetName).getD 0) w.cluster).1 = none ∨
          ∃ e, (control.CreateSubset ud subsetName revision
              ((nextReplicas.lookup subsetName).getD 0)
              ((nextPartitions.lookup subsetName).getD 0) w.cluster).1 = some e ∧
            IsTimeout e = true)) ∧
    ∃ res, manageSubsetProvision c r ud nameToSubset nextReplicas nextPartitions currentRevision
        updatedRevision subsetType cluster = some res ∧
      ((∀ call ∈ res.world.calls, call.failed = true →
          call.isCreate = true ∧ call.hardFailed = false) → res.err = none) := by
  constructor
  · intro revision createdSubsets idx subsetName w hidx
    refine ⟨_, _, createSubsetFn_unfold r ud nextReplicas nextPartitions revision subsetType
      createdSubsets control hreg idx subsetName hidx w, ?_⟩
    generalize (control.CreateSubset ud subsetName revision
      ((nextReplicas.lookup subsetName).getD 0) ((nextPartitions.lookup subsetName).getD 0)
      w.cluster).1 = err
    cases err with
    | none => simp
    | some e => by_cases ht : IsTimeout e = true <;> simp [ht]
  · obtain ⟨res, errs1, w1, dl, bl, _, hres, _, hcalls, _, herrs1, _, hdl, hbl, herr, _⟩ :=
      manageSubsetProvision_spec c r ud nameToSubset nextReplicas nextPartitions currentRevision
        updatedRevision subsetType cluster control hreg
    refine ⟨res, hres, ?_⟩
    intro hall
    rw [herr]
    refine ⟨herrs1.mpr ?_, ?_, ?_⟩
    · intro call hcall
      by_contra hhard
      have hh : call.hardFailed = true := by simpa using hhard
      have := hall call (by rw [hcalls]; simp [hcall]) (hardFailed_imp_failed call hh)
      rw [this.2] at hh
      cases hh
    · intro call hcall
      by_contra hfail
      have hf : call.failed = true := by simpa using hfail
      have h1 := (hall call (by rw [hcalls]; simp [hcall]) hf).1
      rw [(not_isCreate_of_deleteCalls _ _ _ _ hdl call hcall).1] at h1
      cases h1
    · intro call hcall
      by_contra hfail
      have hf : call.failed = true := by simpa using hfail
      have h1 := (hall call (by rw [hcalls]; simp [hcall]) hf).1
      rw [((cleanupBlocks_calls _ _ hbl).1 call hcall).1] at h1
      cases h1

theorem C6_timeout_create_absorbed_witness :
    ∃ res, manageSubsetProvision exampleConstants ⟨[("StatefulSet", timeoutControl)]⟩ exampleUD
        exampleObserved [] [] ⟨"rev-1"⟩ none "StatefulSet" 0 = some res ∧
      res.world.calls.any Call.failed = true ∧ res.err = none := by
  obtain ⟨res, hres, himp⟩ :=
    (C6_timeout_create_absorbed exampleConstants ⟨[("StatefulSet", timeoutControl)]⟩ exampleUD
      exampleObserved [] [] ⟨"rev-1"⟩ none "StatefulSet" 0 timeoutControl rfl).2
  have hval : manageSubsetProvision exampleConstants ⟨[("StatefulSet", timeoutControl)]⟩ exampleUD
      exampleObserved [] [] ⟨"rev-1"⟩ none "StatefulSet" 0
      = some ⟨["b", "c"], none,
          ⟨2, [Call.CreateSubset "StatefulSet" "a" "rev-1" 0 0 (some ⟨"request timed out", true⟩),
              Call.DeleteSubset "StatefulSet" ⟨"default", "ud-d-1"⟩ none],
            [⟨"Normal", "SuccessfulUpdateSubset", "Create 1 Subset (StatefulSet)"⟩,
             ⟨"Normal", "SuccessfulUpdateSubset", "Delete 1 Subset (StatefulSet)"⟩]⟩⟩ := by
    decide
  have heq := Option.some.inj (hres.symm.trans hval)
  refine ⟨res, hres, ?_, himp ?_⟩
  · rw [heq]; decide
  · rw [heq]; decide

/-- C7: the delete phase and the cleanup run whatever the create phase returned
(the calls of the pass are those of the create phase, then one `DeleteSubset`
for each name of `deletes`, then the cleanup blocks of the other types), and
the error of the pass is `nil` if and only if the create phase reported no
error and no call of the delete phase or of the cleanup failed. -/
theorem C7_phases_isolated {σ : Type} (c : Constants) (r : ReconcileUnitedDeployment σ)
    (ud : appsv1alpha1.UnitedDeployment) (nameToSubset : List (String × Subset))
    (nextReplicas nextPartitions : List (String × Int))
    (currentRevision : ControllerRevision) (updatedRevision : Option ControllerRevision)
    (subsetType : subSetType) (cluster : σ)
    (control : ControlInterface σ) (hreg : r.subSetControls.lookup subsetType = some control) :
    ∃ res errs1 w1 dl bl,
      manageCreating c r ud nextReplicas nextPartitions currentRevision updatedRevision subsetType
        (planCreates (expectedSubsetsOf ud) (gotSubsetsOf nameToSubset)) [] ⟨cluster, [], []⟩
        = some (errs1, w1) ∧
      manageSubsetProvision c r ud nameToSubset nextReplicas nextPartitions currentRevision
        updatedRevision subsetType cluster = some res ∧
      res.world.calls = w1.calls ++ dl ++ bl.flatten ∧
      List.Forall₂ (IsDeleteCallFor nameToSubset subsetType)
        (planDeletes (expectedSubsetsOf ud) (gotSubsetsOf nameToSubset)) dl ∧
      List.Forall₂ IsCleanupBlock (otherTypes r subsetType) bl ∧
      (res.err = none ↔
        errs1 = [] ∧ (∀ call ∈ dl, call.failed = false) ∧
          (∀ call ∈ bl.flatten, call.failed = false)) ∧
      NewAggregate [] = none := by
  obtain ⟨res, errs1, w1, dl, bl, hcre, hres, _, hcalls, _, _, _, hdl, hbl, herr, _⟩ :=
    manageSubsetProvision_spec c r ud nameToSubset nextReplicas nextPartitions currentRevision
      updatedRevision subsetType cluster control hreg
  exact ⟨res, errs1, w1, dl, bl, hcre, hres, hcalls, hdl, hbl, herr, rfl⟩

theorem C7_phases_isolated_witness :
    ∃ (res : ProvisionResult Nat) (dl : List Call) (bl : List (List Call)),
      manageSubsetProvision exampleConstants
        ⟨[("StatefulSet", failingControl), ("Deployment", foreignControl)]⟩ exampleUD
        exampleObserved [] [] ⟨"rev-1"⟩ none "StatefulSet" 0 = some res ∧
      res.world.calls = [Call.CreateSubset "StatefulSet" "a" "rev-1" 0 0
        (some ⟨"create refused", false⟩)] ++ dl ++ bl.flatten ∧
      dl.length = 1 ∧ bl.length = 1 ∧ res.err ≠ none := by
  obtain ⟨res, errs1, w1, dl, bl, hcre, hres, hcalls, hdl, hbl, herr, -⟩ :=
    C7_phases_isolated exampleConstants
      ⟨[("StatefulSet", failingControl), ("Deployment", foreignControl)]⟩ exampleUD
      exampleObserved [] [] ⟨"rev-1"⟩ none "StatefulSet" 0 failingControl rfl
  have hval : manageCreating exampleConstants
      ⟨[("StatefulSet", failingControl), ("Deployment", foreignControl)]⟩ exampleUD [] []
      ⟨"rev-1"⟩ none "StatefulSet"
      (planCreates (expectedSubsetsOf exampleUD) (gotSubsetsOf exampleObserved)) []
      ⟨0, [], []⟩
      = some ([fmtErrorf "fail to create Subset (StatefulSet) a: create refused"],
          ⟨1, [Call.CreateSubset "StatefulSet" "a" "rev-1" 0 0 (some ⟨"create refused", false⟩)],
            []⟩) := by
    decide
  have heq := Option.some.inj (hcre.symm.trans hval)
  have h1 : errs1 = [fmtErrorf "fail to create Subset (StatefulSet) a: create refused"] :=
    congrArg Prod.fst heq
  have h2 : w1 = ⟨1, [Call.CreateSubset "StatefulSet" "a" "rev-1" 0 0
      (some ⟨"create refused", false⟩)], []⟩ := congrArg Prod.snd heq
  refine ⟨res, dl, bl, hres, ?_, ?_, ?_, ?_⟩
  · rw [hcalls, h2]
  · exact hdl.length_eq.symm
  · exact hbl.length_eq.symm
  · intro hnone
    have := (herr.mp hnone).1
    rw [h1] at this
    cases this

/-- C8: in the delete phase `DeleteSubset` is called once for every name of
`deletes`, in the planned order, on the subset the observed map holds under
that name, whatever the earlier deletions returned; the number of delete errors
collected equals the number of `DeleteSubset` calls that failed. -/
theorem C8_delete_phase_best_effort {σ : Type} (r : ReconcileUnitedDeployment σ)
    (ud : appsv1alpha1.UnitedDeployment) (nameToSubset : List (String × Subset))
    (subsetType : subSetType) (control : ControlInterface σ)
    (hreg : r.subSetControls.lookup subsetType = some control) (w : World σ) :
    ∃ deleteErrs w1 l,
      deleteLoop r nameToSubset subsetType
        (planDeletes (expectedSubsetsOf ud) (gotSubsetsOf nameToSubset)) [] w
        = some (deleteErrs, w1) ∧
      w1.calls = w.calls ++ l ∧
      List.Forall₂ (IsDeleteCallFor nameToSubset subsetType)
        (planDeletes (expectedSubsetsOf ud) (gotSubsetsOf nameToSubset)) l ∧
      l.length = (planDeletes (expectedSubsetsOf ud) (gotSubsetsOf nameToSubset)).length ∧
      deleteErrs.length = (l.filter Call.failed).length := by
  obtain ⟨tail, w1, l, h1, h2, _, h4, h5⟩ :=
    deleteLoop_spec r nameToSubset subsetType control hreg
      (planDeletes (expectedSubsetsOf ud) (gotSubsetsOf nameToSubset))
      (planDeletes_lookup ud nameToSubset) [] w
  exact ⟨[] ++ tail, w1, l, h1, h2, h4, h4.length_eq.symm, by simpa using h5⟩

theorem C8_delete_phase_best_effort_witness :
    (deleteLoop ⟨[("StatefulSet", flakyDeleteControl)]⟩ exampleObservedMore "StatefulSet"
      (planDeletes (expectedSubsetsOf exampleUD) (gotSubsetsOf exampleObservedMore)) []
      ⟨0, [], []⟩).map (fun out => (out.1.length, out.2.calls))
      = some (1, [Call.DeleteSubset "StatefulSet" ⟨"default", "ud-d-1"⟩
          (some ⟨"delete refused", false⟩),
        Call.DeleteSubset "StatefulSet" ⟨"default", "ud-e-1"⟩ none]) ∧
    ∃ deleteErrs w1 l,
      deleteLoop ⟨[("StatefulSet", flakyDeleteControl)]⟩ exampleObservedMore "StatefulSet"
        (planDeletes (expectedSubsetsOf exampleUD) (gotSubsetsOf exampleObservedMore)) []
        ⟨0, [], []⟩ = some (deleteErrs, w1) ∧
      w1.calls = [] ++ l ∧
      List.Forall₂ (IsDeleteCallFor exampleObservedMore "StatefulSet") ["d", "e"] l ∧
      l.length = 2 ∧
      deleteErrs.length = (l.filter Call.failed).length :=
  ⟨by decide,
   C8_delete_phase_best_effort ⟨[("StatefulSet", flakyDeleteControl)]⟩ exampleUD
    exampleObservedMore "StatefulSet" flakyDeleteControl rfl ⟨0, [], []⟩⟩

/-- C9: every `CreateSubset` call of a pass receives the same revision, the
name of the updated revision when there is one and the name of the current
revision otherwise; the revision does not depend on the state of the cluster
or on the calls made before. -/
theorem C9_one_revision_per_pass {σ : Type} (c : Constants) (r : ReconcileUnitedDeployment σ)
    (ud : appsv1alpha1.UnitedDeployment) (nameToSubset : List (String × Subset))
    (nextReplicas nextPartitions : List (String × Int))
    (currentRevision : ControllerRevision) (updatedRevision : Option ControllerRevision)
    (subsetType : subSetType) (cluster : σ)
    (control : ControlInterface σ) (hreg : r.subSetControls.lookup subsetType = some control) :
    ∃ res, manageSubsetProvision c r ud nameToSubset nextReplicas nextPartitions currentRevision
        updatedRevision subsetType cluster = some res ∧
      (∀ call ∈ res.world.calls, call.isCreate = true →
        ∃ subsetName replicas partition err,
          call = Call.CreateSubset subsetType subsetName
            (match updatedRevision with
              | some updated => updated.Name
              | none => currentRevision.Name) replicas partition err) := by
  obtain ⟨res, errs1, w1, dl, bl, _, hres, _, hcalls, hcl, _, _, hdl, hbl, _, _⟩ :=
    manageSubsetProvision_spec c r ud nameToSubset nextReplicas nextPartitions currentRevision
      updatedRevision subsetType cluster control hreg
  refine ⟨res, hres, ?_⟩
  intro call hcall hcreate
  rw [hcalls, List.mem_append, List.mem_append] at hcall
  rcases hcall with (h | h) | h
  · obtain ⟨name, _, err, rfl⟩ := isCreate_of_createCalls _ _ _ _ _ _ hcl call h
    exact ⟨name, _, _, err, rfl⟩
  · rw [(not_isCreate_of_deleteCalls _ _ _ _ hdl call h).1] at hcreate
    cases hcreate
  · rw [((cleanupBlocks_calls _ _ hbl).1 call h).1] at hcreate
    cases hcreate

theorem C9_one_revision_per_pass_witness :
    (manageSubsetProvision exampleConstants ⟨[("StatefulSet", okControl)]⟩
      ⟨"default", "ud", ⟨⟨[⟨"a"⟩, ⟨"b"⟩, ⟨"c"⟩, ⟨"f"⟩, ⟨"g"⟩]⟩⟩⟩
      exampleObserved [] [] ⟨"rev-1"⟩ (some ⟨"rev-2"⟩) "StatefulSet" 0).map
        (fun res => res.world.calls.filter Call.isCreate)
      = some [Call.CreateSubset "StatefulSet" "a" "rev-2" 0 0 none,
          Call.CreateSubset "StatefulSet" "f" "rev-2" 0 0 none,
          Call.CreateSubset "StatefulSet" "g" "rev-2" 0 0 none] ∧
    ∃ res, manageSubsetProvision exampleConstants ⟨[("StatefulSet", okControl)]⟩
        ⟨"default", "ud", ⟨⟨[⟨"a"⟩, ⟨"b"⟩, ⟨"c"⟩, ⟨"f"⟩, ⟨"g"⟩]⟩⟩⟩
        exampleObserved [] [] ⟨"rev-1"⟩ (some ⟨"rev-2"⟩) "StatefulSet" 0 = some res ∧
      (∀ call ∈ res.world.calls, call.isCreate = true →
        ∃ subsetName replicas partition err,
          call = Call.CreateSubset "StatefulSet" subsetName "rev-2" replicas partition err) :=
  ⟨by decide,
   C9_one_revision_per_pass exampleConstants ⟨[("StatefulSet", okControl)]⟩
    ⟨"default", "ud", ⟨⟨[⟨"a"⟩, ⟨"b"⟩, ⟨"c"⟩, ⟨"f"⟩, ⟨"g"⟩]⟩⟩⟩
    exampleObserved [] [] ⟨"rev-1"⟩ (some ⟨"rev-2"⟩) "StatefulSet" 0 okControl rfl⟩

/-- C10: the cleanup makes, for every entry of the control registry other than
the active type and in the order of the registry, one `GetAllSubsets` call,
followed when it succeeded by one `DeleteSubset` call for each subset it
returned, whatever the earlier deletions returned; one error is recorded for
each call that failed, a failed listing included, and the later types are still
processed; no call of the cleanup goes to the active type.  With one entry per
type in the registry, `GetAllSubsets` is called exactly once for each other
type. -/
theorem C10_cross_type_cleanup {σ : Type} (r : ReconcileUnitedDeployment σ)
    (ud : appsv1alpha1.UnitedDeployment) (subsetType : subSetType)
    (errs : List GoError) (w : World σ) :
    ∃ tail w1 blocks,
      cleanOtherSubsets ud subsetType r.subSetControls errs w = (errs ++ tail, w1) ∧
      w1.calls = w.calls ++ blocks.flatten ∧
      List.Forall₂ IsCleanupBlock (otherTypes r subsetType) blocks ∧
      tail.length = (blocks.flatten.filter Call.failed).length ∧
      (∀ call ∈ blocks.flatten, call.subsetType ≠ subsetType) ∧
      (blocks.flatten.filter Call.isGetAll).map Call.subsetType = otherTypes r subsetType ∧
      ((r.subSetControls.map (fun entry => entry.1)).Nodup →
        ∀ t ∈ r.subSetControls.map (fun entry => entry.1), t ≠ subsetType →
          ((blocks.flatten.filter Call.isGetAll).map Call.subsetType).count t = 1) := by
  obtain ⟨tail, w1, blocks, h1, h2, _, h4, h5⟩ :=
    cleanOtherSubsets_spec ud subsetType r.subSetControls errs w
  have hb := cleanupBlocks_calls _ _ h4
  refine ⟨tail, w1, blocks, h1, h2, h4, h5, ?_, hb.2, ?_⟩
  · intro call hcall
    have := (hb.1 call hcall).2
    simp only [List.mem_filter, decide_eq_true_eq] at this
    exact this.2
  · intro hnodup t ht hne
    rw [hb.2]
    exact List.count_eq_one_of_mem (hnodup.filter _)
      (by simp only [List.mem_filter, decide_eq_true_eq]; exact ⟨ht, hne⟩)

theorem C10_cross_type_cleanup_witness :
    cleanOtherSubsets exampleUD "StatefulSet"
      [("Deployment", unlistableControl), ("StatefulSet", failingControl),
        ("CloneSet", foreignControl)] [] ⟨0, [], []⟩
      = ([fmtErrorf ("fail to list Subset of other type Deployment for UnitedDeployment " ++
            "default/ud: list refused"),
          fmtErrorf ("fail to delete Subset ud-x-1 of other type CloneSet for " ++
            "UnitedDeployment default/ud: delete refused")],
         ⟨4, [Call.GetAllSubsets "Deployment" [] (some ⟨"list refused", false⟩),
              Call.GetAllSubsets "CloneSet"
                [⟨"default", "ud-x-1"⟩, ⟨"default", "ud-y-1"⟩] none,
              Call.DeleteSubset "CloneSet" ⟨"default", "ud-x-1"⟩
                (some ⟨"delete refused", false⟩),
              Call.DeleteSubset "CloneSet" ⟨"default", "ud-y-1"⟩ none], []⟩) ∧
    ∃ blocks : List (List Call),
      ((blocks.flatten.filter Call.isGetAll).map Call.subsetType).count "Deployment" = 1 ∧
      ((blocks.flatten.filter Call.isGetAll).map Call.subsetType).count "CloneSet" = 1 := by
  refine ⟨by decide, ?_⟩
  obtain ⟨_, _, blocks, _, _, _, _, _, _, hcount⟩ :=
    C10_cross_type_cleanup
      (⟨[("Deployment", unlistableControl), ("StatefulSet", failingControl),
        ("CloneSet", foreignControl)]⟩ : ReconcileUnitedDeployment Nat)
      exampleUD "StatefulSet" [] ⟨0, [], []⟩
  exact ⟨blocks, hcount (by decide) "Deployment" (by decide) (by decide),
    hcount (by decide) "CloneSet" (by decide) (by decide)⟩

/-! ## Names and name prefixes -/

/-- C16: `getSubsetNameFrom` fails if and only if the labels hold no entry
under the subset-name label key or hold an empty value under it; otherwise it
returns the value of that label unchanged, so a recovered name is never empty. -/
theorem C16_getSubsetNameFrom (SubSetNameLabelKey : String) (metaObj : ObjectMeta) :
    ((getSubsetNameFrom SubSetNameLabelKey metaObj).2.isSome = true ↔
      metaObj.Labels.lookup SubSetNameLabelKey = none ∨
      metaObj.Labels.lookup SubSetNameLabelKey = some "") ∧
    (∀ name, metaObj.Labels.lookup SubSetNameLabelKey = some name → name ≠ "" →
      getSubsetNameFrom SubSetNameLabelKey metaObj = (name, none)) ∧
    ((getSubsetNameFrom SubSetNameLabelKey metaObj).2 = none →
      (getSubsetNameFrom SubSetNameLabelKey metaObj).1 ≠ "") := by
  unfold getSubsetNameFrom
  cases h : metaObj.Labels.lookup SubSetNameLabelKey with
  | none => simp
  | some name =>
    have hlen : name.length = 0 ↔ name = "" := by
      constructor
      · intro h0
        exact String.ext (List.length_eq_zero.mp h0)
      · rintro rfl
        rfl
    by_cases hn : name = ""
    · subst hn
      simp
    · have : ¬ name.length = 0 := fun h0 => hn (hlen.mp h0)
      simp [this, hn]

theorem C16_getSubsetNameFrom_witness :
    getSubsetNameFrom "apps.kruise.io/subset-name"
        ⟨"default", "ud-a-x7k2p", [("app", "web"), ("apps.kruise.io/subset-name", "a")]⟩
      = ("a", none) ∧
    (getSubsetNameFrom "apps.kruise.io/subset-name"
        ⟨"default", "ud-a-x7k2p", [("app", "web")]⟩).2.isSome = true ∧
    (getSubsetNameFrom "apps.kruise.io/subset-name"
        ⟨"default", "ud-a-x7k2p", [("apps.kruise.io/subset-name", "")]⟩).2.isSome = true :=
  ⟨(C16_getSubsetNameFrom "apps.kruise.io/subset-name"
      ⟨"default", "ud-a-x7k2p", [("app", "web"), ("apps.kruise.io/subset-name", "a")]⟩).2.1
      "a" (by decide) (by decide),
   (C16_getSubsetNameFrom "apps.kruise.io/subset-name"
      ⟨"default", "ud-a-x7k2p", [("app", "web")]⟩).1.mpr (Or.inl (by decide)),
   (C16_getSubsetNameFrom "apps.kruise.io/subset-name"
      ⟨"default", "ud-a-x7k2p", [("apps.kruise.io/subset-name", "")]⟩).1.mpr
      (Or.inr (by decide))⟩

/-- C17: `getSubsetPrefix` returns `<ownerName>-<subsetName>-` when the
validator finds nothing wrong with that string as a name prefix, and
`<ownerName>-` otherwise; in both cases the result begins with `<ownerName>-`
and ends with `-`. -/
theorem C17_getSubsetPrefix (NameIsDNSSubdomain : String → Bool → List String)
    (controllerName subsetName : String) :
    (NameIsDNSSubdomain (controllerName ++ "-" ++ subsetName ++ "-") true = [] →
      getSubsetPrefix NameIsDNSSubdomain controllerName subsetName
        = controllerName ++ "-" ++ subsetName ++ "-") ∧
    (NameIsDNSSubdomain (controllerName ++ "-" ++ subsetName ++ "-") true ≠ [] →
      getSubsetPrefix NameIsDNSSubdomain controllerName subsetName = controllerName ++ "-") ∧
    (∃ rest, getSubsetPrefix NameIsDNSSubdomain controllerName subsetName
        = controllerName ++ "-" ++ rest) ∧
    (∃ front, getSubsetPrefix NameIsDNSSubdomain controllerName subsetName = front ++ "-") := by
  have key : getSubsetPrefix NameIsDNSSubdomain controllerName subsetName
      = if NameIsDNSSubdomain (controllerName ++ "-" ++ subsetName ++ "-") true = [] then
          controllerName ++ "-" ++ subsetName ++ "-"
        else controllerName ++ "-" := by
    unfold getSubsetPrefix
    by_cases h : NameIsDNSSubdomain (controllerName ++ "-" ++ subsetName ++ "-") true = []
    · simp [h]
    · simp [h]
  rw [key]
  by_cases h : NameIsDNSSubdomain (controllerName ++ "-" ++ subsetName ++ "-") true = []
  · rw [if_pos h]
    refine ⟨fun _ => rfl, fun hne => (hne h).elim, ⟨subsetName ++ "-", ?_⟩,
      ⟨controllerName ++ "-" ++ subsetName, rfl⟩⟩
    simp [String.append_assoc]
  · rw [if_neg h]
    refine ⟨fun he => (h he).elim, fun _ => rfl, ⟨"", ?_⟩, ⟨controllerName, rfl⟩⟩
    simp

theorem C17_getSubsetPrefix_witness :
    getSubsetPrefix exampleNameIsDNSSubdomain "ud" "subset-a" = "ud-subset-a-" ∧
    getSubsetPrefix exampleNameIsDNSSubdomain "ud" "Zone_A" = "ud-" :=
  ⟨(C17_getSubsetPrefix exampleNameIsDNSSubdomain "ud" "subset-a").1 (by decide),
   (C17_getSubsetPrefix exampleNameIsDNSSubdomain "ud" "Zone_A").2.1 (by decide)⟩

/-! ## Accepted percentages -/

/-- The result of `ParseSubsetReplicas` on a text that ends in `%` and whose
prefix parses to a percentage of the range `[0, 100]`. -/
theorem ParseSubsetReplicas_of_parse (total : Int) (q : intstr.IntOrString)
    (hq : q.Kind = intstr.Kind.String) (hs : strings.HasSuffix q.StrVal "%" = true)
    (p : Int) (hp : strconv.ParseInt ⟨q.StrVal.data.dropLast⟩ 32 = .ok p)
    (h0 : 0 ≤ p) (h100 : p ≤ 100) :
    ParseSubsetReplicas total q
      = (wrapInt 32 (round (float64.div
          (float64.mul (float64.ofInt total) (float64.ofInt p)) (float64.ofInt 100))), none) := by
  unfold ParseSubsetReplicas
  rw [if_neg (by rw [hq]; decide)]
  simp only [hs, hp]
  rw [if_neg (by decide), if_neg (by omega)]

/-- A string-form quantity that `ParseSubsetReplicas` accepts ends in `%` and
its prefix parses to a percentage of the range `[0, 100]`. -/
theorem ParseSubsetReplicas_accepts (total : Int) (q : intstr.IntOrString)
    (hq : q.Kind = intstr.Kind.String) (hok : (ParseSubsetReplicas total q).2 = none) :
    strings.HasSuffix q.StrVal "%" = true ∧
    ∃ p : Int, strconv.ParseInt ⟨q.StrVal.data.dropLast⟩ 32 = .ok p ∧ 0 ≤ p ∧ p ≤ 100 := by
  unfold ParseSubsetReplicas at hok
  rw [if_neg (by rw [hq]; decide)] at hok
  simp only at hok
  by_cases hs : strings.HasSuffix q.StrVal "%" = true
  · refine ⟨hs, ?_⟩
    simp only [hs, Bool.not_true, Bool.false_eq_true, if_false] at hok
    cases hp : strconv.ParseInt ⟨q.StrVal.data.dropLast⟩ 32 with
    | error e => simp [hp] at hok
    | ok p =>
      refine ⟨p, rfl, ?_⟩
      simp only [hp] at hok
      by_cases hr : p > 100 ∨ p < 0
      · simp [hr] at hok
      · omega
  · simp [hs] at hok

/-- C18: for a total of the non-negative `int32` range and a string-form
quantity that is accepted, the result lies between 0 and the total; the value
handed to the `int32` conversion is the result itself, inside the `int32` range,
so the conversion does not overflow. -/
theorem C18_percentage_result_bounds (total : ℕ) (ht : total ≤ 2 ^ 31 - 1)
    (q : intstr.IntOrString) (hq : q.Kind = intstr.Kind.String)
    (hok : (ParseSubsetReplicas total q).2 = none) :
    0 ≤ (ParseSubsetReplicas total q).1 ∧ (ParseSubsetReplicas total q).1 ≤ total ∧
    ∃ p : Int, strconv.ParseInt ⟨q.StrVal.data.dropLast⟩ 32 = .ok p ∧ 0 ≤ p ∧ p ≤ 100 ∧
      (ParseSubsetReplicas total q).1
        = round (float64.div
            (float64.mul (float64.ofInt total) (float64.ofInt p)) (float64.ofInt 100)) ∧
      -(2 ^ 31) ≤ round (float64.div
            (float64.mul (float64.ofInt total) (float64.ofInt p)) (float64.ofInt 100)) ∧
      round (float64.div
            (float64.mul (float64.ofInt total) (float64.ofInt p)) (float64.ofInt 100)) < 2 ^ 31 := by
  obtain ⟨hs, p, hp, h0, h100⟩ := ParseSubsetReplicas_accepts total q hq hok
  have hres := ParseSubsetReplicas_of_parse total q hq hs p hp h0 h100
  obtain ⟨n, rfl⟩ : ∃ n : ℕ, p = n := ⟨p.toNat, by omega⟩
  have hn : n ≤ 100 := by omega
  have hround := round_percent_eq total n (by omega) hn
  have hle : (total * n + 50) / 100 ≤ total := by
    have : total * n ≤ total * 100 := Nat.mul_le_mul_left _ hn
    omega
  rw [hres, hround]
  have hw : wrapInt 32 (((total * n + 50) / 100 : ℕ) : ℤ) = (((total * n + 50) / 100 : ℕ) : ℤ) :=
    wrapInt_32_of_bounds _ (by positivity) (by omega)
  simp only [hw]
  refine ⟨by positivity, by exact_mod_cast hle, n, hp, h0, h100, hround.symm, ?_, ?_⟩
  · rw [hround]; omega
  · rw [hround]; omega

theorem C18_percentage_result_bounds_witness :
    (0 : Int) ≤ (ParseSubsetReplicas (2147483647 : ℕ) (intstr.FromString "100%")).1 ∧
    (ParseSubsetReplicas (2147483647 : ℕ) (intstr.FromString "100%")).1 ≤ 2147483647 :=
  ⟨(C18_percentage_result_bounds 2147483647 (by decide) (intstr.FromString "100%") rfl
      (by decide)).1,
   (C18_percentage_result_bounds 2147483647 (by decide) (intstr.FromString "100%") rfl
      (by decide)).2.1⟩

/-- The texts `<n>%`, `+<n>%` and `0<n>%` all pass the suffix test and parse to
`n`, for `n` in `[0, 100]`. -/
theorem parse_signed_percent_text (n : ℕ) (hn : n ≤ 100) :
    (strings.HasSuffix ("+" ++ toString n ++ "%") "%" = true ∧
      strconv.ParseInt ⟨("+" ++ toString n ++ "%").data.dropLast⟩ 32 = .ok (n : ℤ)) ∧
    (strings.HasSuffix ("0" ++ toString n ++ "%") "%" = true ∧
      strconv.ParseInt ⟨("0" ++ toString n ++ "%").data.dropLast⟩ 32 = .ok (n : ℤ)) := by
  interval_cases n <;> exact ⟨⟨by decide, rfl⟩, ⟨by decide, rfl⟩⟩

theorem round_zero_percent (total : Int) :
    round (float64.div (float64.mul (float64.ofInt total) (float64.ofInt 0)) (float64.ofInt 100))
      = 0 := by
  have e0 : float64.ofInt 0 = 0 := by simp [float64.ofInt, float64.rne]
  have e1 : float64.mul (float64.ofInt total) 0 = 0 := by simp [float64.mul, float64.rne]
  have e2 : float64.div 0 (float64.ofInt 100) = 0 := by simp [float64.div, float64.rne]
  have e3 : float64.add 0 (1 / 2) = 1 / 2 := by
    have := float64.rne_half_int 1 (by norm_num)
    simpa [float64.add] using this
  rw [e0, e1, e2]
  unfold round
  rw [e3]
  have hf : ⌊(1 / 2 : ℚ)⌋ = 0 := by
    rw [Int.floor_eq_iff]
    norm_num
  rw [float64.toInt_floor _ (by rw [hf]) (by rw [hf]; norm_num), hf]

/-- C19: `ParseSubsetReplicas` accepts a percentage whose integer prefix has an
explicit plus sign or a leading zero: `+<n>%` and `0<n>%` resolve, without
error, to the same value as `<n>%`, for every `n` in `[0, 100]`; and `-0%`
resolves to 0 without error. -/
theorem C19_signed_and_padded_percentages (total : Int) (n : ℕ) (hn : n ≤ 100) :
    (ParseSubsetReplicas total (intstr.FromString (toString n ++ "%"))).2 = none ∧
    ParseSubsetReplicas total (intstr.FromString ("+" ++ toString n ++ "%"))
      = ParseSubsetReplicas total (intstr.FromString (toString n ++ "%")) ∧
    ParseSubsetReplicas total (intstr.FromString ("0" ++ toString n ++ "%"))
      = ParseSubsetReplicas total (intstr.FromString (toString n ++ "%")) ∧
    ParseSubsetReplicas total (intstr.FromString "-0%") = (0, none) := by
  obtain ⟨h1, h2⟩ := parse_percent_text n hn
  obtain ⟨⟨p1, p2⟩, ⟨z1, z2⟩⟩ := parse_signed_percent_text n hn
  have e := ParseSubsetReplicas_of_parse total (intstr.FromString (toString n ++ "%")) rfl h1
    n h2 (by positivity) (by exact_mod_cast hn)
  have ep := ParseSubsetReplicas_of_parse total (intstr.FromString ("+" ++ toString n ++ "%"))
    rfl p1 n p2 (by positivity) (by exact_mod_cast hn)
  have ez := ParseSubsetReplicas_of_parse total (intstr.FromString ("0" ++ toString n ++ "%"))
    rfl z1 n z2 (by positivity) (by exact_mod_cast hn)
  have em := ParseSubsetReplicas_of_parse total (intstr.FromString "-0%") rfl (by decide) 0 rfl
    (le_refl 0) (by norm_num)
  refine ⟨by rw [e], by rw [ep, e], by rw [ez, e], ?_⟩
  rw [em, round_zero_percent]
  rfl

theorem C19_signed_and_padded_percentages_witness :
    ParseSubsetReplicas 7 (intstr.FromString "+50%")
      = ParseSubsetReplicas 7 (intstr.FromString "50%") ∧
    ParseSubsetReplicas 7 (intstr.FromString "050%")
      = ParseSubsetReplicas 7 (intstr.FromString "50%") ∧
    ParseSubsetReplicas 7 (intstr.FromString "-0%") = (0, none) :=
  ⟨(C19_signed_and_padded_percentages 7 50 (by decide)).2.1,
   (C19_signed_and_padded_percentages 7 50 (by decide)).2.2.1,
   (C19_signed_and_padded_percentages 7 50 (by decide)).2.2.2⟩

/-! ## Events, and the arguments of the create calls -/

/-- The create phase in terms of what the batch creator returned. -/
theorem manageCreating_of_batch {σ : Type} (c : Constants) (r : ReconcileUnitedDeployment σ)
    (ud : appsv1alpha1.UnitedDeployment) (nextReplicas nextPartitions : List (String × Int))
    (currentRevision : ControllerRevision) (updatedRevision : Option ControllerRevision)
    (subsetType : subSetType) (creates : List String) (errs : List GoError) (w wb : World σ)
    (createdNum : Nat) (createdErr : Option GoError) (hc : creates.length > 0)
    (hb : SlowStartBatch creates.length c.slowStartInitialBatchSize
        (createSubsetFn r ud nextReplicas nextPartitions
          (selectRevision currentRevision updatedRevision) subsetType creates) w
        = some ((createdNum, createdErr), wb)) :
    manageCreating c r ud nextReplicas nextPartitions currentRevision updatedRevision
        subsetType creates errs w
      = some (match createdErr with
          | none =>
            (errs, wb.Eventf EventTypeNormal ("Successful" ++ c.eventTypeSubsetsUpdate)
              ("Create " ++ toString createdNum ++ " Subset (" ++ subsetType ++ ")"))
          | some e => (errs ++ [e], wb)) := by
  unfold manageCreating
  simp only [hc, if_true, hb]
  cases createdErr <;> rfl

/-- C13: a create-success event is emitted exactly when `creates` is not empty
and the batch creator returned no error, and it reports the count the batch
creator returned; a delete-success event is emitted exactly when `deletes` is
not empty and no `DeleteSubset` call of the delete phase failed, and it reports
the length of `deletes`; the cleanup emits no event, so that a pass emits at
most two events. -/
theorem C13_success_events {σ : Type} (c : Constants) (r : ReconcileUnitedDeployment σ)
    (ud : appsv1alpha1.UnitedDeployment) (nameToSubset : List (String × Subset))
    (nextReplicas nextPartitions : List (String × Int))
    (currentRevision : ControllerRevision) (updatedRevision : Option ControllerRevision)
    (subsetType : subSetType) (cluster : σ)
    (control : ControlInterface σ) (hreg : r.subSetControls.lookup subsetType = some control) :
    ∃ res createdNum createdErr wb cl dl bl,
      SlowStartBatch (planCreates (expectedSubsetsOf ud) (gotSubsetsOf nameToSubset)).length
        c.slowStartInitialBatchSize
        (createSubsetFn r ud nextReplicas nextPartitions
          (selectRevision currentRevision updatedRevision) subsetType
          (planCreates (expectedSubsetsOf ud) (gotSubsetsOf nameToSubset))) ⟨cluster, [], []⟩
        = some ((createdNum, createdErr), wb) ∧
      manageSubsetProvision c r ud nameToSubset nextReplicas nextPartitions currentRevision
        updatedRevision subsetType cluster = some res ∧
      res.world.calls = cl ++ dl ++ bl.flatten ∧
      List.Forall₂ (IsDeleteCallFor nameToSubset subsetType)
        (planDeletes (expectedSubsetsOf ud) (gotSubsetsOf nameToSubset)) dl ∧
      (∀ call ∈ cl, call.isDelete = false) ∧
      List.Forall₂ IsCleanupBlock (otherTypes r subsetType) bl ∧
      res.world.events =
        (if (planCreates (expectedSubsetsOf ud) (gotSubsetsOf nameToSubset)).length > 0
            ∧ createdErr = none then
          [⟨EventTypeNormal, "Successful" ++ c.eventTypeSubsetsUpdate,
            "Create " ++ toString createdNum ++ " Subset (" ++ subsetType ++ ")"⟩]
        else []) ++
        (if (planDeletes (expectedSubsetsOf ud) (gotSubsetsOf nameToSubset)).length > 0
            ∧ (∀ call ∈ dl, call.failed = false) then
          [⟨EventTypeNormal, "Successful" ++ c.eventTypeSubsetsUpdate,
            "Delete " ++
              toString (planDeletes (expectedSubsetsOf ud) (gotSubsetsOf nameToSubset)).length ++
              " Subset (" ++ subsetType ++ ")"⟩]
        else []) ∧
      res.world.events.length ≤ 2 := by
  obtain ⟨res, errs1, w1, dl, bl, hcre, hres, _, hcalls, hcl, _, _, hdl, hbl, _, hev⟩ :=
    manageSubsetProvision_spec c r ud nameToSubset nextReplicas nextPartitions currentRevision
      updatedRevision subsetType cluster control hreg
  obtain ⟨n, err, wb, l, hb, hbcalls, _, _, _, _, hn⟩ :=
    slowStartBatch_create r ud nextReplicas nextPartitions
      (selectRevision currentRevision updatedRevision) subsetType
      (planCreates (expectedSubsetsOf ud) (gotSubsetsOf nameToSubset)) control hreg
      c.slowStartInitialBatchSize ⟨cluster, [], []⟩
  have hnodel : ∀ call ∈ w1.calls, call.isDelete = false := by
    intro call hcall
    obtain ⟨name, _, e, rfl⟩ := isCreate_of_createCalls _ _ _ _ _ _ hcl call hcall
    rfl
  have hevents : res.world.events =
      (if (planCreates (expectedSubsetsOf ud) (gotSubsetsOf nameToSubset)).length > 0
          ∧ err = none then
        [⟨EventTypeNormal, "Successful" ++ c.eventTypeSubsetsUpdate,
          "Create " ++ toString n ++ " Subset (" ++ subsetType ++ ")"⟩]
      else []) ++
      (if (planDeletes (expectedSubsetsOf ud) (gotSubsetsOf nameToSubset)).length > 0
          ∧ (∀ call ∈ dl, call.failed = false) then
        [⟨EventTypeNormal, "Successful" ++ c.eventTypeSubsetsUpdate,
          "Delete " ++
            toString (planDeletes (expectedSubsetsOf ud) (gotSubsetsOf nameToSubset)).length ++
            " Subset (" ++ subsetType ++ ")"⟩]
      else []) := by
    rw [hev]
    congr 1
    by_cases hc : (planCreates (expectedSubsetsOf ud) (gotSubsetsOf nameToSubset)).length > 0
    · have hm := manageCreating_of_batch c r ud nextReplicas nextPartitions currentRevision
        updatedRevision subsetType _ [] ⟨cluster, [], []⟩ wb n err hc hb
      rw [hcre] at hm
      have hpair := Option.some.inj hm
      cases err with
      | none =>
        have h1 : errs1 = [] := congrArg Prod.fst hpair
        have h2 : w1.calls = l := by
          have := congrArg (fun p => p.2.calls) hpair
          simpa [World.Eventf, hbcalls] using this
        rw [if_pos ⟨hc, h1⟩, if_pos ⟨hc, rfl⟩, h2, hn]
      | some e =>
        have h1 : errs1 = [e] := congrArg Prod.fst hpair
        rw [if_neg (by rw [h1]; simp), if_neg (by simp)]
    · rw [if_neg (fun h => hc h.1), if_neg (fun h => hc h.1)]
  refine ⟨res, n, err, wb, w1.calls, dl, bl, hb, hres, hcalls, hdl, hnodel, hbl, hevents, ?_⟩
  rw [hevents, List.length_append]
  split_ifs <;> simp

theorem C13_success_events_witness :
    (manageSubsetProvision exampleConstants
      ⟨[("StatefulSet", flakyDeleteControl), ("Deployment", foreignControl)]⟩ exampleUD
      exampleObservedMore [] [] ⟨"rev-1"⟩ none "StatefulSet" 0).map
        (fun res => (res.world.events, res.err.isSome))
      = some ([⟨"Normal", "SuccessfulUpdateSubset", "Create 1 Subset (StatefulSet)"⟩], true) ∧
    ∃ (res : ProvisionResult Nat),
      manageSubsetProvision exampleConstants
        ⟨[("StatefulSet", flakyDeleteControl), ("Deployment", foreignControl)]⟩ exampleUD
        exampleObservedMore [] [] ⟨"rev-1"⟩ none "StatefulSet" 0 = some res ∧
      res.world.events.length ≤ 2 := by
  refine ⟨by decide, ?_⟩
  obtain ⟨res, _, _, _, _, _, _, _, hres, _, _, _, _, _, hlen⟩ :=
    C13_success_events exampleConstants
      ⟨[("StatefulSet", flakyDeleteControl), ("Deployment", foreignControl)]⟩ exampleUD
      exampleObservedMore [] [] ⟨"rev-1"⟩ none "StatefulSet" 0 flakyDeleteControl rfl
  exact ⟨res, hres, hlen⟩

theorem runBatch_trace {S : Type} (fn : Nat → S → Option (Option GoError × S))
    (batchSize index : Nat) (s : S) (log : List (Nat × Option GoError))
    (hnp : ∀ idx s, index ≤ idx → idx < index + batchSize → (fn idx s).isSome = true) :
    ∃ errs s1 round,
      runBatch (traceFn fn) batchSize index (s, log) = some (errs, (s1, log ++ round)) ∧
      runBatch fn batchSize index s = some (errs, s1) ∧
      round.map Prod.fst = List.range' index batchSize ∧
      (∀ e ∈ round, ∃ s0 s2, fn e.1 s0 = some (e.2, s2)) ∧
      errs.length = (round.filter (fun e => e.2.isSome)).length := by
  induction batchSize generalizing index s log with
  | zero => exact ⟨[], s, [], by simp [runBatch], rfl, rfl, by simp, rfl⟩
  | succ b ih =>
    have hsome := hnp index s (le_refl _) (by omega)
    obtain ⟨⟨err, s1⟩, hfn⟩ := Option.isSome_iff_exists.mp hsome
    obtain ⟨errs, s2, round, h1, h2, h3, h4, h5⟩ :=
      ih (index + 1) s1 (log ++ [(index, err)])
        (fun idx s hle hlt => hnp idx s (by omega) (by omega))
    refine ⟨err.toList ++ errs, s2, (index, err) :: round, ?_, ?_, ?_, ?_, ?_⟩
    · simp only [runBatch, traceFn, hfn, h1, List.append_assoc, List.singleton_append]
    · simp only [runBatch, hfn, h2]
    · simp only [List.map_cons, h3, List.range'_succ]
    · intro e he
      rcases List.mem_cons.mp he with rfl | he
      · exact ⟨s, s1, hfn⟩
      · exact h4 e he
    · cases err with
      | none => simp [List.filter_cons, h5]
      | some e => simp [List.filter_cons, h5]

theorem mem_dropLast_cons {α : Type} (a x : α) (l : List α) (h : x ∈ (a :: l).dropLast) :
    x = a ∨ x ∈ l.dropLast := by
  cases l with
  | nil => simp at h
  | cons b l =>
    simp only [List.dropLast_cons₂, List.mem_cons] at h
    exact h

/-- The rounds of the batch creator, for a per-item function that returns on
every index below `N`: the run returns; the invocations it makes split into
rounds whose sizes follow the schedule `batchSizesFrom`; the indexes are
consecutive; only the last round can hold a failed call; and the error
returned is `nil` exactly when no call failed. -/
theorem slowStartLoop_trace {S : Type} (fn : Nat → S → Option (Option GoError × S)) (N : Nat)
    (hnp : ∀ idx s, idx < N → (fn idx s).isSome = true)
    (fuel remaining batchSize index successes : Nat) (s : S)
    (log : List (Nat × Option GoError))
    (hN : index + remaining = N) (hbs : batchSize ≤ remaining) (hfuel : remaining ≤ fuel) :
    ∃ (n : Nat) (err : Option GoError) (s1 : S) (rounds : List (List (Nat × Option GoError))),
      slowStartLoop (traceFn fn) fuel remaining batchSize index successes (s, log)
        = some ((n, err), (s1, log ++ rounds.flatten)) ∧
      slowStartLoop fn fuel remaining batchSize index successes s = some ((n, err), s1) ∧
      rounds.map List.length <+: batchSizesFrom fuel remaining batchSize ∧
      (err = none → rounds.map List.length = batchSizesFrom fuel remaining batchSize) ∧
      rounds.flatten.map Prod.fst = List.range' index rounds.flatten.length ∧
      rounds.flatten.length ≤ remaining ∧
      (∀ e ∈ rounds.flatten, ∃ s0 s2, fn e.1 s0 = some (e.2, s2)) ∧
      (∀ round ∈ rounds.dropLast, ∀ e ∈ round, e.2 = none) ∧
      (err = none ↔ ∀ e ∈ rounds.flatten, e.2 = none) ∧
      n = successes + (rounds.flatten.filter (fun e => e.2.isNone)).length ∧
      (0 < batchSize → err = none → rounds.flatten.length = remaining) := by
  induction fuel generalizing remaining batchSize index successes s log with
  | zero =>
    refine ⟨successes, none, s, [], by simp [slowStartLoop], rfl, by simp [batchSizesFrom],
      by simp [batchSizesFrom], by simp, by simp, by simp, by simp, by simp, by simp, ?_⟩
    intro _ _
    simp
    omega
  | succ fuel ih =>
    by_cases hpos : batchSize > 0
    · obtain ⟨errs, s1, round, h1, h2, h3, h4, h5⟩ :=
        runBatch_trace fn batchSize index s log
          (fun idx s _ hlt => hnp idx s (by omega))
      have hlen : round.length = batchSize := by
        have := congrArg List.length h3
        simpa using this
      have hpart := length_filter_add_length_filter_not (fun e : Nat × Option GoError => e.2.isSome)
        round
      have hnot : (round.filter (fun e => !e.2.isSome)) = round.filter (fun e => e.2.isNone) := by
        congr 1
        funext e
        cases e.2 <;> rfl
      rw [hnot] at hpart
      cases errs with
      | cons e rest =>
        have hfail : ∃ x ∈ round, x.2.isSome = true := by
          by_contra hno
          have : (round.filter (fun e => e.2.isSome)).length = 0 :=
            (filter_length_eq_zero_iff _ round).mpr (fun a ha => by
              cases hx : a.2.isSome with
              | false => rfl
              | true => exact (hno ⟨a, ha, hx⟩).elim)
          rw [← h5] at this
          simp at this
        refine ⟨successes + (batchSize - (e :: rest).length), some e, s1, [round], ?_, ?_, ?_, ?_,
          ?_, ?_, ?_, ?_, ?_, ?_, ?_⟩
        · simp only [slowStartLoop, hpos, if_true, h1, List.flatten_cons, List.flatten_nil,
            List.append_nil]
        · simp only [slowStartLoop, hpos, if_true, h2]
        · simp only [List.map_cons, List.map_nil, batchSizesFrom, hpos, if_true, hlen]
          exact ⟨_, rfl⟩
        · intro h; cases h
        · simp [h3, hlen]
        · simp [hlen]; omega
        · simpa using h4
        · simp
        · simp only [reduceCtorEq, false_iff, List.flatten_cons, List.flatten_nil,
            List.append_nil]
          intro hall
          obtain ⟨x, hx, hxs⟩ := hfail
          rw [hall x hx] at hxs
          cases hxs
        · simp only [List.flatten_cons, List.flatten_nil, List.append_nil]
          omega
        · intro _ h; cases h
      | nil =>
        have hnone : ∀ x ∈ round, x.2 = none := by
          intro x hx
          have := (filter_length_eq_zero_iff _ round).mp (by rw [← h5]; rfl) x hx
          cases hx2 : x.2 with
          | none => rfl
          | some e => simp [hx2] at this
        obtain ⟨n, err, s2, rounds, g1, g2, g3, g4, g5, g6, g7, g8, g9, g10, g11⟩ :=
          ih (remaining - batchSize) (min (2 * batchSize) (remaining - batchSize))
            (index + batchSize) (successes + (batchSize - ([] : List GoError).length)) s1
            (log ++ round) (by omega) (Nat.min_le_right _ _) (by omega)
        refine ⟨n, err, s2, round :: rounds, ?_, ?_, ?_, ?_, ?_, ?_, ?_, ?_, ?_, ?_, ?_⟩
        · simp only [slowStartLoop, hpos, if_true, h1, g1, List.flatten_cons, List.append_assoc]
        · simp only [slowStartLoop, hpos, if_true, h2, g2]
        · simp only [List.map_cons, batchSizesFrom, hpos, if_true, hlen]
          obtain ⟨t, ht⟩ := g3
          exact ⟨t, by rw [← ht]; simp⟩
        · intro herr
          simp only [List.map_cons, batchSizesFrom, hpos, if_true, hlen, g4 herr]
        · simp only [List.flatten_cons, List.map_append, h3, g5, List.length_append, hlen]
          rw [List.range'_append_1, Nat.add_comm]
        · simp only [List.flatten_cons, List.length_append, hlen]
          omega
        · intro x hx
          simp only [List.flatten_cons, List.mem_append] at hx
          rcases hx with hx | hx
          · exact h4 x hx
          · exact g7 x hx
        · intro r hr x hx
          rcases mem_dropLast_cons _ _ _ hr with rfl | hr
          · exact hnone x hx
          · exact g8 r hr x hx
        · rw [g9]
          simp only [List.flatten_cons, List.mem_append]
          constructor
          · intro h x hx
            rcases hx with hx | hx
            · exact hnone x hx
            · exact h x hx
          · intro h x hx
            exact h x (Or.inr hx)
        · rw [g10]
          simp only [List.flatten_cons, List.filter_append, List.length_append, List.length_nil]
          have hz : (round.filter (fun e => e.2.isSome)).length = 0 := by rw [← h5]; rfl
          omega
        · intro _ herr
          simp only [List.flatten_cons, List.length_append, hlen]
          by_cases hz : 0 < min (2 * batchSize) (remaining - batchSize)
          · have := g11 hz herr
            omega
          · have : remaining - batchSize = 0 := by
              rcases Nat.le_total (2 * batchSize) (remaining - batchSize) with h | h
              · rw [Nat.min_eq_left h] at hz; omega
              · rw [Nat.min_eq_right h] at hz; omega
            omega
    · refine ⟨successes, none, s, [], ?_, ?_, ?_, ?_, by simp, by simp, by simp, by simp, by simp,
        by simp, ?_⟩
      · simp [slowStartLoop, hpos]
      · simp [slowStartLoop, hpos]
      · simp [batchSizesFrom, hpos]
      · simp [batchSizesFrom, hpos]
      · intro h; omega

theorem batchSizesFrom_cons (fuel remaining batchSize x : Nat) (xs : List Nat)
    (h : batchSizesFrom fuel remaining batchSize = x :: xs) :
    x = batchSize ∧ 0 < batchSize ∧ ∃ fuel1, fuel = fuel1 + 1 ∧
      xs = batchSizesFrom fuel1 (remaining - batchSize)
        (min (2 * batchSize) (remaining - batchSize)) := by
  cases fuel with
  | zero => simp [batchSizesFrom] at h
  | succ fuel1 =>
    by_cases hpos : batchSize > 0
    · simp only [batchSizesFrom, hpos, if_true, List.cons.injEq] at h
      exact ⟨h.1.symm, hpos, fuel1, rfl, h.2.symm⟩
    · simp [batchSizesFrom, hpos] at h

/-- Each batch size of the schedule is at most twice the one before. -/
theorem batchSizesFrom_chain_twice (fuel remaining batchSize : Nat) :
    List.Chain' (fun a b => b ≤ 2 * a) (batchSizesFrom fuel remaining batchSize) := by
  induction fuel generalizing remaining batchSize with
  | zero => simp [batchSizesFrom]
  | succ fuel ih =>
    by_cases hpos : batchSize > 0
    · simp only [batchSizesFrom, hpos, if_true]
      refine List.Chain'.cons' (ih _ _) ?_
      intro y hy
      cases hrest : batchSizesFrom fuel (remaining - batchSize)
          (min (2 * batchSize) (remaining - batchSize)) with
      | nil => rw [hrest] at hy; simp at hy
      | cons x xs =>
        rw [hrest] at hy
        simp only [List.head?_cons, Option.mem_def, Option.some.injEq] at hy
        obtain ⟨hx, _, _⟩ := batchSizesFrom_cons _ _ _ _ _ hrest
        rw [← hy, hx]
        exact Nat.min_le_left _ _
    · simp [batchSizesFrom, hpos]

/-- The batch sizes of the schedule do not decrease before the last round. -/
theorem batchSizesFrom_chain_le (fuel remaining batchSize : Nat) :
    List.Chain' (fun a b => a ≤ b) (batchSizesFrom fuel remaining batchSize).dropLast := by
  induction fuel generalizing remaining batchSize with
  | zero => simp [batchSizesFrom]
  | succ fuel ih =>
    by_cases hpos : batchSize > 0
    · simp only [batchSizesFrom, hpos, if_true]
      have hih := ih (remaining - batchSize) (min (2 * batchSize) (remaining - batchSize))
      cases hrest : batchSizesFrom fuel (remaining - batchSize)
          (min (2 * batchSize) (remaining - batchSize)) with
      | nil => simp
      | cons x xs =>
        rw [hrest] at hih
        obtain ⟨hx, hxpos, fuel1, _, hxs⟩ := batchSizesFrom_cons _ _ _ _ _ hrest
        cases xs with
        | nil => simp
        | cons y ys =>
          obtain ⟨_, hypos, _⟩ := batchSizesFrom_cons _ _ _ _ _ hxs.symm
          simp only [List.dropLast_cons₂] at hih ⊢
          refine List.Chain'.cons' hih ?_
          intro z hz
          simp only [List.head?_cons, Option.mem_def, Option.some.injEq] at hz
          rw [← hz, hx]
          -- a round follows `x`, so `x` was not capped by the items remaining
          rcases Nat.le_total (2 * batchSize) (remaining - batchSize) with h | h
          · rw [Nat.min_eq_left h]; omega
          · rw [Nat.min_eq_right h] at hypos ⊢
            omega
    · simp [batchSizesFrom, hpos]

theorem batchSizesFrom_sum (fuel remaining batchSize : Nat) (hbs : batchSize ≤ remaining)
    (hfuel : remaining ≤ fuel) (hz : batchSize = 0 → remaining = 0) :
    (batchSizesFrom fuel remaining batchSize).sum = remaining := by
  induction fuel generalizing remaining batchSize with
  | zero => simp [batchSizesFrom]; omega
  | succ fuel ih =>
    by_cases hpos : batchSize > 0
    · simp only [batchSizesFrom, hpos, if_true, List.sum_cons]
      rw [ih (remaining - batchSize) (min (2 * batchSize) (remaining - batchSize))
        (Nat.min_le_right _ _) (by omega) (by
          intro h0
          rcases Nat.le_total (2 * batchSize) (remaining - batchSize) with h | h
          · rw [Nat.min_eq_left h] at h0; omega
          · rw [Nat.min_eq_right h] at h0; exact h0)]
      omega
    · simp only [batchSizesFrom, hpos, if_false, List.sum_nil]
      omega

theorem batchSizesFrom_pos (fuel remaining batchSize : Nat) :
    ∀ b ∈ batchSizesFrom fuel remaining batchSize, 1 ≤ b := by
  induction fuel generalizing remaining batchSize with
  | zero => simp [batchSizesFrom]
  | succ fuel ih =>
    by_cases hpos : batchSize > 0
    · simp only [batchSizesFrom, hpos, if_true, List.mem_cons]
      rintro b (rfl | hb)
      · exact hpos
      · exact ih _ _ b hb
    · simp [batchSizesFrom, hpos]

theorem dropLast_isPrefix_mono {α : Type} (l₁ l₂ : List α) (h : l₁ <+: l₂) :
    l₁.dropLast <+: l₂.dropLast := by
  obtain ⟨t, rfl⟩ := h
  cases t with
  | nil => simp
  | cons a t =>
    rw [List.dropLast_append_of_ne_nil _ (by simp)]
    exact List.IsPrefix.trans ( List.dropLast_prefix l₁) (List.prefix_append _ _)

/-- The run of `SlowStartBatch`, with its invocations recorded and split into
rounds. -/
theorem slowStartBatch_trace {S : Type} (fn : Nat → S → Option (Option GoError × S))
    (N B0 : Nat) (hnp : ∀ idx s, idx < N → (fn idx s).isSome = true) (s : S) :
    ∃ (n : Nat) (err : Option GoError) (s1 : S) (rounds : List (List (Nat × Option GoError))),
      SlowStartBatch N B0 (traceFn fn) (s, []) = some ((n, err), (s1, rounds.flatten)) ∧
      SlowStartBatch N B0 fn s = some ((n, err), s1) ∧
      rounds.map List.length <+: batchSizes N B0 ∧
      (err = none → rounds.map List.length = batchSizes N B0) ∧
      rounds.flatten.map Prod.fst = List.range rounds.flatten.length ∧
      rounds.flatten.length ≤ N ∧
      (∀ e ∈ rounds.flatten, ∃ s0 s2, fn e.1 s0 = some (e.2, s2)) ∧
      (∀ round ∈ rounds.dropLast, ∀ e ∈ round, e.2 = none) ∧
      (err = none ↔ ∀ e ∈ rounds.flatten, e.2 = none) ∧
      n = (rounds.flatten.filter (fun e => e.2.isNone)).length ∧
      (0 < B0 → err = none → rounds.flatten.length = N) := by
  obtain ⟨n, err, s1, rounds, h1, h2, h3, h4, h5, h6, h7, h8, h9, h10, h11⟩ :=
    slowStartLoop_trace fn N hnp N N (min N B0) 0 0 s [] (by omega) (Nat.min_le_left _ _)
      (le_refl _)
  refine ⟨n, err, s1, rounds, by simpa [SlowStartBatch] using h1, h2, h3, h4, ?_, h6, h7, h8, h9,
    by simpa using h10, ?_⟩
  · rw [h5, List.range_eq_range']
  · intro hB herr
    by_cases hN : N = 0
    · subst hN; omega
    · exact h11 (by
        rcases Nat.le_total N B0 with h | h
        · rw [Nat.min_eq_left h]; omega
        · rw [Nat.min_eq_right h]; exact hB) herr

/-- C14: the batch creator, for a positive initial batch size and a per-item
function that returns on every index below `N`.  The run returns, and the
indexes it invokes the function with are `0, 1, 2, …` in order, each once.
When every invocation succeeds the success count is `N`, there is no error and
the indexes invoked are exactly `0..N-1`.  When some invocation fails the
success count is below `N`, an error is returned, and the failure lies in the
last round that ran. -/
theorem C14_batch_creator {S : Type} (fn : Nat → S → Option (Option GoError × S))
    (N B0 : Nat) (hB : 0 < B0) (hnp : ∀ idx s, idx < N → (fn idx s).isSome = true) (s : S) :
    ∃ (n : Nat) (err : Option GoError) (s1 : S) (rounds : List (List (Nat × Option GoError))),
      SlowStartBatch N B0 fn s = some ((n, err), s1) ∧
      SlowStartBatch N B0 (traceFn fn) (s, []) = some ((n, err), (s1, rounds.flatten)) ∧
      (∀ e ∈ rounds.flatten, ∃ s0 s2, fn e.1 s0 = some (e.2, s2)) ∧
      rounds.flatten.map Prod.fst = List.range rounds.flatten.length ∧
      rounds.map List.length <+: batchSizes N B0 ∧
      ((∀ e ∈ rounds.flatten, e.2 = none) →
        n = N ∧ err = none ∧ rounds.flatten.map Prod.fst = List.range N) ∧
      ((∃ e ∈ rounds.flatten, e.2 ≠ none) →
        n < N ∧ err ≠ none ∧ ∀ round ∈ rounds.dropLast, ∀ e ∈ round, e.2 = none) := by
  obtain ⟨n, err, s1, rounds, h1, h2, h3, _, h5, h6, h7, h8, h9, h10, h11⟩ :=
    slowStartBatch_trace fn N B0 hnp s
  have hpart := length_filter_add_length_filter_not (fun e : Nat × Option GoError => e.2.isNone)
    rounds.flatten
  refine ⟨n, err, s1, rounds, h2, h1, h7, h5, h3, ?_, ?_⟩
  · intro hall
    have herr : err = none := h9.mpr hall
    have hlen := h11 hB herr
    have hfil : rounds.flatten.filter (fun e => e.2.isNone) = rounds.flatten := by
      rw [List.filter_eq_self]
      intro e he
      rw [hall e he]
      rfl
    refine ⟨by rw [h10, hfil, hlen], herr, by rw [h5, hlen]⟩
  · rintro ⟨e, he, hne⟩
    have herr : err ≠ none := fun h => hne (h9.mp h e he)
    refine ⟨?_, herr, h8⟩
    have hpos : 0 < (rounds.flatten.filter (fun e => !e.2.isNone)).length := by
      apply List.length_pos_of_mem (a := e)
      rw [List.mem_filter]
      refine ⟨he, ?_⟩
      cases h2 : e.2 with
      | none => exact (hne h2).elim
      | some x => rfl
    omega

theorem C14_batch_creator_witness :
    SlowStartBatch 7 1 (traceFn (failAt 3)) ((), [])
      = some ((6, some ⟨"create refused", false⟩), ((),
          [(0, none), (1, none), (2, none), (3, some ⟨"create refused", false⟩), (4, none),
            (5, none), (6, none)])) ∧
    SlowStartBatch 5 1 (traceFn neverFail) ((), [])
      = some ((5, none), ((), [(0, none), (1, none), (2, none), (3, none), (4, none)])) ∧
    ∃ (n : Nat) (err : Option GoError),
      SlowStartBatch 7 1 (failAt 3) () = some ((n, err), ()) := by
  refine ⟨by decide, by decide, ?_⟩
  obtain ⟨n, err, s1, _, h, _⟩ :=
    C14_batch_creator (failAt 3) 7 1 (by decide) (fun idx s _ => by
      unfold failAt
      split <;> rfl) ()
  exact ⟨n, err, h⟩

/-- C15 (as stated) fails for `N = 4`, `B0 = 1`: the rounds have sizes 1, 2, 1.
A run that fails on index 0 stops after index 0 (round 1 is index 0), a run
that fails on index 1 still calls index 2 and stops there (round 2 is indexes
1 and 2), and a run without failure calls index 3 in a third round of size 1,
smaller than the round before it. -/
theorem C15_batch_sizes_counterexample :
    SlowStartBatch 4 1 (traceFn (failAt 0)) ((), [])
      = some ((0, some ⟨"create refused", false⟩), ((),
          [(0, some ⟨"create refused", false⟩)])) ∧
    SlowStartBatch 4 1 (traceFn (failAt 1)) ((), [])
      = some ((2, some ⟨"create refused", false⟩), ((),
          [(0, none), (1, some ⟨"create refused", false⟩), (2, none)])) ∧
    SlowStartBatch 4 1 (traceFn neverFail) ((), [])
      = some ((4, none), ((), [(0, none), (1, none), (2, none), (3, none)])) ∧
    batchSizes 4 1 = [1, 2, 1] ∧
    ¬ List.Chain' (fun a b => a ≤ b) (batchSizes 4 1) := by
  have h : batchSizes 4 1 = [1, 2, 1] := by decide
  refine ⟨by decide, by decide, by decide, h, ?_⟩
  intro hc
  rw [h] at hc
  have h21 : (2 : Nat) ≤ 1 := (List.chain'_cons.mp (List.chain'_cons.mp hc).2).1
  exact absurd h21 (by decide)

/-- When no call of a round before the last fails, a failed call lies in the
last round. -/
theorem last_round_fails (rounds : List (List (Nat × Option GoError)))
    (h8 : ∀ round ∈ rounds.dropLast, ∀ e ∈ round, e.2 = none)
    (hfail : ∃ e ∈ rounds.flatten, e.2 ≠ none) :
    ∃ round, rounds.getLast? = some round ∧ ∃ e ∈ round, e.2 ≠ none := by
  obtain ⟨e, he, hne⟩ := hfail
  obtain ⟨round, hround, hmem⟩ := List.mem_flatten.mp he
  have hnil : rounds ≠ [] := List.ne_nil_of_mem hround
  refine ⟨rounds.getLast hnil, List.getLast?_eq_getLast _ hnil, ?_⟩
  have hsplit := List.dropLast_append_getLast hnil
  rw [← hsplit] at hround
  rcases List.mem_append.mp hround with h | h
  · exact absurd (h8 round h e hmem) hne
  · rw [List.mem_singleton] at h
    exact ⟨e, h ▸ hmem, hne⟩

/-- C15 (amended): for every item count `N` and initial batch size `B0 ≥ 1`,
the calls of a run, in order of their indexes `0, 1, 2, …`, fall into the
rounds the batch creator ran: a round starts only when every call of the rounds
before it succeeded, so that a failure lies in the last round, and a run that
returns an error has a failed call in its last round.  The sizes of these
rounds are an initial segment of the schedule (round 1 of size `min(N, B0)`,
round `k` of size `min(remaining, 2 × previous)`), the whole schedule when no
call fails; each batch size is at least 1 and at most twice the one before, and
the sizes do not decrease before the last round.  The last round is capped by
the items remaining and can be smaller than the round before it. -/
theorem C15_batch_sizes {S : Type} (fn : Nat → S → Option (Option GoError × S))
    (N B0 : Nat) (hB : 1 ≤ B0) (hnp : ∀ idx s, idx < N → (fn idx s).isSome = true) (s : S) :
    ∃ (n : Nat) (err : Option GoError) (s1 : S) (rounds : List (List (Nat × Option GoError))),
      SlowStartBatch N B0 (traceFn fn) (s, []) = some ((n, err), (s1, rounds.flatten)) ∧
      rounds.flatten.map Prod.fst = List.range rounds.flatten.length ∧
      (∀ round ∈ rounds.dropLast, ∀ e ∈ round, e.2 = none) ∧
      (err = none ↔ ∀ e ∈ rounds.flatten, e.2 = none) ∧
      (err ≠ none → ∃ round, rounds.getLast? = some round ∧ ∃ e ∈ round, e.2 ≠ none) ∧
      rounds.map List.length <+: batchSizes N B0 ∧
      (err = none → rounds.map List.length = batchSizes N B0) ∧
      List.Chain' (fun a b => b ≤ 2 * a) (rounds.map List.length) ∧
      List.Chain' (fun a b => a ≤ b) (rounds.map List.length).dropLast ∧
      (∀ b ∈ rounds.map List.length, 1 ≤ b) ∧
      (batchSizes N B0).sum = N ∧
      (batchSizes N B0).head? = (if N = 0 then none else some (min N B0)) := by
  obtain ⟨n, err, s1, rounds, h1, _, h3, h4, h5, _, _, h8, h9, _⟩ :=
    slowStartBatch_trace fn N B0 hnp s
  refine ⟨n, err, s1, rounds, h1, h5, h8, h9, ?_, h3, h4, ?_, ?_, ?_, ?_, ?_⟩
  · intro herr
    apply last_round_fails rounds h8
    by_contra hno
    apply herr
    rw [h9]
    intro e he
    by_contra hne
    exact hno ⟨e, he, hne⟩
  · exact List.Chain'.prefix (batchSizesFrom_chain_twice N N (min N B0)) h3
  · exact List.Chain'.prefix (batchSizesFrom_chain_le N N (min N B0))
      (dropLast_isPrefix_mono _ _ h3)
  · intro b hb
    exact batchSizesFrom_pos N N (min N B0) b (h3.subset hb)
  · exact batchSizesFrom_sum N N (min N B0) (Nat.min_le_left _ _) (le_refl _) (by
      intro h0
      rcases Nat.le_total N B0 with h | h
      · rw [Nat.min_eq_left h] at h0; exact h0
      · rw [Nat.min_eq_right h] at h0; omega)
  · unfold batchSizes
    cases N with
    | zero => simp [batchSizesFrom]
    | succ k =>
      have hpos : min (k + 1) B0 > 0 := by
        rcases Nat.le_total (k + 1) B0 with h | h
        · rw [Nat.min_eq_left h]; omega
        · rw [Nat.min_eq_right h]; omega
      simp [batchSizesFrom, hpos]

theorem C15_batch_sizes_witness :
    ∃ (rounds : List (List (Nat × Option GoError))),
      SlowStartBatch 4 1 (traceFn (failAt 1)) ((), [])
        = some ((2, some ⟨"create refused", false⟩), ((), rounds.flatten)) ∧
      rounds = [[(0, none)], [(1, some ⟨"create refused", false⟩), (2, none)]] ∧
      rounds.map List.length = [1, 2] := by
  obtain ⟨n, err, s1, rounds, h1, _, _, _, _, h3, _⟩ :=
    C15_batch_sizes (failAt 1) 4 1 (by decide) (fun idx s _ => by
      unfold failAt
      split <;> rfl) ()
  have hval : SlowStartBatch 4 1 (traceFn (failAt 1)) ((), [])
      = some ((2, some ⟨"create refused", false⟩), ((),
          [(0, none), (1, some ⟨"create refused", false⟩), (2, none)])) := by decide
  have heq := Option.some.inj (h1.symm.trans hval)
  have hn : n = 2 := congrArg (fun p => p.1.1) heq
  have he : err = some ⟨"create refused", false⟩ := congrArg (fun p => p.1.2) heq
  have hf : rounds.flatten = [(0, none), (1, some ⟨"create refused", false⟩), (2, none)] :=
    congrArg (fun p => p.2.2) heq
  have hb : batchSizes 4 1 = [1, 2, 1] := by decide
  rw [hb] at h3
  have hrounds : rounds = [[(0, none)], [(1, some ⟨"create refused", false⟩), (2, none)]] := by
    match rounds, h3, hf with
    | [], _, hf => simp at hf
    | [r1], h3, hf =>
      have hl := h3.length_le
      have h31 := List.prefix_iff_eq_take.mp h3
      simp at h31 hf
      rw [hf] at h31
      simp at h31
    | [r1, r2], h3, hf =>
      have h31 := List.prefix_iff_eq_take.mp h3
      simp at h31 hf
      obtain ⟨hl1, hl2⟩ := h31
      match r1, r2, hl1, hl2, hf with
      | [a], [b, c], _, _, hf =>
        simp at hf
        obtain ⟨rfl, rfl, rfl⟩ := hf
        rfl
    | [r1, r2, r3], h3, hf =>
      have h31 := List.prefix_iff_eq_take.mp h3
      simp at h31 hf
      have hlen := congrArg List.length hf
      simp at hlen
      omega
    | r1 :: r2 :: r3 :: r4 :: rest, h3, hf =>
      have hl := h3.length_le
      simp at hl
  refine ⟨rounds, ?_, hrounds, ?_⟩
  · rw [h1, hn, he]
  · rw [hrounds]
    rfl
/-! ## Passes whose calls succeed and take effect -/

theorem runBatch_all_success {S : Type} (fn : Nat → S → Option (Option GoError × S))
    (Inv : Nat → S → Prop) (N : Nat)
    (hstep : ∀ idx s, idx < N → Inv idx s → ∃ s1, fn idx s = some (none, s1) ∧ Inv (idx + 1) s1)
    (batchSize index : Nat) (s : S) (hle : index + batchSize ≤ N) (hinv : Inv index s) :
    ∃ s1, runBatch fn batchSize index s = some ([], s1) ∧ Inv (index + batchSize) s1 := by
  induction batchSize generalizing index s with
  | zero => exact ⟨s, rfl, hinv⟩
  | succ b ih =>
    obtain ⟨s1, hfn, hinv1⟩ := hstep index s (by omega) hinv
    obtain ⟨s2, hrun, hinv2⟩ := ih (index + 1) s1 (by omega) hinv1
    refine ⟨s2, ?_, ?_⟩
    · simp only [runBatch, hfn, hrun, Option.toList, List.nil_append]
    · have : index + (b + 1) = index + 1 + b := by omega
      rw [this]
      exact hinv2

/-- A run of the rounds in which every call succeeds: all items are
processed, in order, and the run reports as many successes and no error. -/
theorem slowStartLoop_all_success {S : Type} (fn : Nat → S → Option (Option GoError × S))
    (Inv : Nat → S → Prop) (N : Nat)
    (hstep : ∀ idx s, idx < N → Inv idx s → ∃ s1, fn idx s = some (none, s1) ∧ Inv (idx + 1) s1)
    (fuel remaining batchSize index successes : Nat) (s : S)
    (hN : index + remaining = N) (hbs : batchSize ≤ remaining) (hfuel : remaining ≤ fuel)
    (hz : batchSize = 0 → remaining = 0) (hinv : Inv index s) :
    ∃ s1, slowStartLoop fn fuel remaining batchSize index successes s
        = some ((successes + remaining, none), s1) ∧ Inv N s1 := by
  induction fuel generalizing remaining batchSize index successes s with
  | zero =>
    have : remaining = 0 := by omega
    subst this
    refine ⟨s, rfl, ?_⟩
    have : index = N := by omega
    rw [← this]
    exact hinv
  | succ fuel ih =>
    by_cases hpos : batchSize > 0
    · obtain ⟨s1, hrun, hinv1⟩ :=
        runBatch_all_success fn Inv N hstep batchSize index s (by omega) hinv
      obtain ⟨s2, hloop, hinv2⟩ :=
        ih (remaining - batchSize) (min (2 * batchSize) (remaining - batchSize))
          (index + batchSize) (successes + (batchSize - ([] : List GoError).length)) s1
          (by omega) (Nat.min_le_right _ _) (by omega) (by
            intro h0
            rcases Nat.le_total (2 * batchSize) (remaining - batchSize) with h | h
            · rw [Nat.min_eq_left h] at h0; omega
            · rw [Nat.min_eq_right h] at h0; exact h0) hinv1
      refine ⟨s2, ?_, hinv2⟩
      have e : successes + (batchSize - ([] : List GoError).length) + (remaining - batchSize)
          = successes + remaining := by
        simp only [List.length_nil]
        omega
      simp only [slowStartLoop, hpos, if_true, hrun]
      rw [hloop, e]
    · have h0 : remaining = 0 := hz (by omega)
      subst h0
      refine ⟨s, ?_, ?_⟩
      · simp [slowStartLoop, hpos]
      · have : index = N := by omega
        rw [← this]
        exact hinv

theorem slowStartBatch_all_success {S : Type} (fn : Nat → S → Option (Option GoError × S))
    (Inv : Nat → S → Prop) (N B0 : Nat) (hB : 0 < B0)
    (hstep : ∀ idx s, idx < N → Inv idx s → ∃ s1, fn idx s = some (none, s1) ∧ Inv (idx + 1) s1)
    (s : S) (hinv : Inv 0 s) :
    ∃ s1, SlowStartBatch N B0 fn s = some ((N, none), s1) ∧ Inv N s1 := by
  obtain ⟨s1, h1, h2⟩ :=
    slowStartLoop_all_success fn Inv N hstep N N (min N B0) 0 0 s (by omega)
      (Nat.min_le_left _ _) (le_refl _) (by
        intro h0
        rcases Nat.le_total N B0 with h | h
        · rw [Nat.min_eq_left h] at h0; exact h0
        · rw [Nat.min_eq_right h] at h0; omega) hinv
  exact ⟨s1, by simpa [SlowStartBatch] using h1, h2⟩

theorem mem_of_lookup_eq_some {β : Type} (l : List (String × β)) (k : String) (v : β)
    (h : l.lookup k = some v) : (k, v) ∈ l := by
  induction l with
  | nil => simp at h
  | cons a l ih =>
    obtain ⟨k1, v1⟩ := a
    by_cases hk : k = k1
    · subst hk
      simp only [List.lookup, beq_self_eq_true, Option.some.injEq] at h
      subst h
      exact List.mem_cons_self _ _
    · have hne : (k == k1) = false := by simpa using hk
      simp only [List.lookup, hne] at h
      exact List.mem_cons_of_mem _ (ih h)

/-- The create phase when every call succeeds and takes effect: no error is
added, and one subset is added to the active type for each name of `creates`. -/
theorem manageCreating_effect {σ : Type} (c : Constants) (r : ReconcileUnitedDeployment σ)
    (ud : appsv1alpha1.UnitedDeployment) (nextReplicas nextPartitions : List (String × Int))
    (currentRevision : ControllerRevision) (updatedRevision : Option ControllerRevision)
    (subsetType : subSetType) (creates : List String)
    (owned : σ → subSetType → List Subset) (nameOf : Subset → String)
    (heff : CallsTakeEffect r ud owned nameOf)
    (control : ControlInterface σ) (hreg : r.subSetControls.lookup subsetType = some control)
    (hB : 0 < c.slowStartInitialBatchSize) (errs : List GoError) (w : World σ) :
    ∃ w1 created,
      manageCreating c r ud nextReplicas nextPartitions currentRevision updatedRevision
        subsetType creates errs w = some (errs, w1) ∧
      created.map nameOf = creates ∧
      ∀ t, owned w1.cluster t
        = if t = subsetType then owned w.cluster t ++ created else owned w.cluster t := by
  have hmem := mem_of_lookup_eq_some _ _ _ hreg
  unfold manageCreating
  by_cases hc : creates.length > 0
  · obtain ⟨w1, hrun, created, hnames, hown⟩ :=
      slowStartBatch_all_success
        (createSubsetFn r ud nextReplicas nextPartitions
          (selectRevision currentRevision updatedRevision) subsetType creates)
        (fun idx w1 => ∃ created : List Subset, created.map nameOf = creates.take idx ∧
          ∀ t, owned w1.cluster t
            = if t = subsetType then owned w.cluster t ++ created else owned w.cluster t)
        creates.length c.slowStartInitialBatchSize hB
        (by
          intro idx w1 hidx ⟨created, hnames, hown⟩
          have hget : creates.get? idx = some (creates.get ⟨idx, hidx⟩) := List.get?_eq_get hidx
          have hfn := createSubsetFn_unfold r ud nextReplicas nextPartitions
            (selectRevision currentRevision updatedRevision) subsetType creates control hreg idx
            _ hget w1
          obtain ⟨herr, subset, hname, hnew⟩ := heff.create subsetType control hmem
            (creates.get ⟨idx, hidx⟩) (selectRevision currentRevision updatedRevision)
            ((nextReplicas.lookup (creates.get ⟨idx, hidx⟩)).getD 0)
            ((nextPartitions.lookup (creates.get ⟨idx, hidx⟩)).getD 0) w1.cluster
          rw [herr] at hfn
          refine ⟨_, hfn, created ++ [subset], ?_, ?_⟩
          · rw [List.map_append, hnames, List.take_succ, List.map_singleton, hname]
            congr 1
            rw [List.getElem?_eq_getElem hidx]
            rfl
          · intro t
            simp only [World.afterCall]
            rw [hnew t, hown t]
            by_cases ht : t = subsetType
            · simp [ht]
            · simp [ht])
        w ⟨[], by simp, by intro t; by_cases ht : t = subsetType <;> simp [ht]⟩
    simp only [hc, if_true, hrun]
    refine ⟨_, created, rfl, ?_, ?_⟩
    · rw [hnames, List.take_length]
    · intro t
      simp only [World.Eventf]
      exact hown t
  · have hnil : creates = [] := List.length_eq_zero.mp (by omega)
    subst hnil
    refine ⟨w, [], by simp, rfl, ?_⟩
    intro t
    by_cases ht : t = subsetType <;> simp [ht]

/-- The loop of the delete phase when every call succeeds and takes effect:
no error is collected, and the subsets that the observed map holds under the
names are removed from the subsets of the active type. -/
theorem deleteLoop_effect {σ : Type} (r : ReconcileUnitedDeployment σ)
    (ud : appsv1alpha1.UnitedDeployment) (nameToSubset : List (String × Subset))
    (subsetType : subSetType) (owned : σ → subSetType → List Subset) (nameOf : Subset → String)
    (heff : CallsTakeEffect r ud owned nameOf)
    (control : ControlInterface σ) (hreg : r.subSetControls.lookup subsetType = some control)
    (names : List String) (hnames : ∀ n ∈ names, ∃ subset, nameToSubset.lookup n = some subset)
    (deleteErrs : List GoError) (w : World σ) :
    ∃ w1,
      deleteLoop r nameToSubset subsetType names deleteErrs w = some (deleteErrs, w1) ∧
      ∀ t, owned w1.cluster t
        = if t = subsetType then
            (owned w.cluster t).filter
              (fun o => decide (o ∉ names.filterMap (fun n => nameToSubset.lookup n)))
          else owned w.cluster t := by
  have hmem := mem_of_lookup_eq_some _ _ _ hreg
  induction names generalizing w with
  | nil =>
    refine ⟨w, by simp [deleteLoop], ?_⟩
    intro t
    by_cases ht : t = subsetType <;> simp [ht]
  | cons name rest ih =>
    obtain ⟨subset, hsub⟩ := hnames name (List.mem_cons_self _ _)
    have hrest : ∀ n ∈ rest, ∃ subset, nameToSubset.lookup n = some subset :=
      fun n hn => hnames n (List.mem_cons_of_mem _ hn)
    obtain ⟨herr, hnew⟩ := heff.delete subsetType control hmem subset w.cluster
    obtain ⟨w1, hloop, hown⟩ := ih hrest
      (w.afterCall (control.DeleteSubset subset w.cluster).2
        (Call.DeleteSubset subsetType subset (control.DeleteSubset subset w.cluster).1))
    refine ⟨w1, ?_, ?_⟩
    · unfold deleteLoop
      rw [hsub, hreg]
      generalize hout : control.DeleteSubset subset w.cluster = out at herr hloop
      simp only [hout]
      rcases out with ⟨err, cluster⟩
      simp only at herr
      subst herr
      exact hloop
    · intro t
      rw [hown t]
      simp only [World.afterCall]
      rw [hnew t]
      by_cases ht : t = subsetType
      · simp only [ht, if_true, List.filter_filter, List.filterMap_cons, hsub]
        apply List.filter_congr
        intro o _
        simp only [List.mem_cons, not_or, Bool.decide_and, Bool.and_comm]
      · simp [ht]

/-- The delete phase when every call succeeds and takes effect. -/
theorem manageDeleting_effect {σ : Type} (c : Constants) (r : ReconcileUnitedDeployment σ)
    (ud : appsv1alpha1.UnitedDeployment) (nameToSubset : List (String × Subset))
    (subsetType : subSetType) (owned : σ → subSetType → List Subset) (nameOf : Subset → String)
    (heff : CallsTakeEffect r ud owned nameOf)
    (control : ControlInterface σ) (hreg : r.subSetControls.lookup subsetType = some control)
    (deletes : List String)
    (hnames : ∀ n ∈ deletes, ∃ subset, nameToSubset.lookup n = some subset)
    (errs : List GoError) (w : World σ) :
    ∃ w1,
      manageDeleting c r nameToSubset subsetType deletes errs w = some (errs, w1) ∧
      ∀ t, owned w1.cluster t
        = if t = subsetType then
            (owned w.cluster t).filter
              (fun o => decide (o ∉ deletes.filterMap (fun n => nameToSubset.lookup n)))
          else owned w.cluster t := by
  unfold manageDeleting
  by_cases hd : deletes.length > 0
  · obtain ⟨w1, hloop, hown⟩ :=
      deleteLoop_effect r ud nameToSubset subsetType owned nameOf heff control hreg deletes
        hnames [] w
    simp only [hd, if_true, hloop, List.length_nil, gt_iff_lt, Nat.lt_irrefl, if_false]
    exact ⟨_, rfl, fun t => by simpa [World.Eventf] using hown t⟩
  · have hnil : deletes = [] := List.length_eq_zero.mp (by omega)
    subst hnil
    refine ⟨w, by simp, ?_⟩
    intro t
    by_cases ht : t = subsetType <;> simp [ht]

theorem deleteOtherSubsets_effect {σ : Type} (r : ReconcileUnitedDeployment σ)
    (ud : appsv1alpha1.UnitedDeployment) (owned : σ → subSetType → List Subset)
    (nameOf : Subset → String) (heff : CallsTakeEffect r ud owned nameOf)
    (t : subSetType) (control : ControlInterface σ) (hmem : (t, control) ∈ r.subSetControls)
    (subsets : List Subset) (errs : List GoError) (w : World σ) :
    ∃ w1,
      deleteOtherSubsets ud t control subsets errs w = (errs, w1) ∧
      ∀ t2, owned w1.cluster t2
        = if t2 = t then (owned w.cluster t2).filter (fun o => decide (o ∉ subsets))
          else owned w.cluster t2 := by
  induction subsets generalizing w with
  | nil =>
    refine ⟨w, by simp [deleteOtherSubsets], ?_⟩
    intro t2
    by_cases ht : t2 = t <;> simp [ht]
  | cons subset rest ih =>
    obtain ⟨herr, hnew⟩ := heff.delete t control hmem subset w.cluster
    obtain ⟨w1, hloop, hown⟩ := ih
      (w.afterCall (control.DeleteSubset subset w.cluster).2
        (Call.DeleteSubset t subset (control.DeleteSubset subset w.cluster).1))
    refine ⟨w1, ?_, ?_⟩
    · unfold deleteOtherSubsets
      generalize hout : control.DeleteSubset subset w.cluster = out at herr hloop
      simp only [hout]
      rcases out with ⟨err, cluster⟩
      simp only at herr
      subst herr
      exact hloop
    · intro t2
      rw [hown t2]
      simp only [World.afterCall]
      rw [hnew t2]
      by_cases ht : t2 = t
      · simp only [ht, if_true, List.filter_filter]
        apply List.filter_congr
        intro o _
        simp only [List.mem_cons, not_or, Bool.decide_and, Bool.and_comm]
      · simp [ht]

/-- The cleanup when every call succeeds and takes effect: no error is added,
the subsets of the active type are left alone, and every other type of the
registry ends without subsets. -/
theorem cleanOtherSubsets_effect {σ : Type} (r : ReconcileUnitedDeployment σ)
    (ud : appsv1alpha1.UnitedDeployment) (subsetType : subSetType)
    (owned : σ → subSetType → List Subset) (nameOf : Subset → String)
    (heff : CallsTakeEffect r ud owned nameOf)
    (controls : List (subSetType × ControlInterface σ))
    (hsub : ∀ entry ∈ controls, entry ∈ r.subSetControls)
    (errs : List GoError) (w : World σ) :
    ∃ w1,
      cleanOtherSubsets ud subsetType controls errs w = (errs, w1) ∧
      owned w1.cluster subsetType = owned w.cluster subsetType ∧
      (∀ t, owned w.cluster t = [] → owned w1.cluster t = []) ∧
      (∀ t control, (t, control) ∈ controls → t ≠ subsetType → owned w1.cluster t = []) := by
  induction controls generalizing w with
  | nil => exact ⟨w, by simp [cleanOtherSubsets], rfl, fun _ h => h, by simp⟩
  | cons entry rest ih =>
    obtain ⟨t, control⟩ := entry
    have hrest : ∀ entry ∈ rest, entry ∈ r.subSetControls :=
      fun e he => hsub e (List.mem_cons_of_mem _ he)
    have hmem : (t, control) ∈ r.subSetControls := hsub _ (List.mem_cons_self _ _)
    by_cases ht : t = subsetType
    · obtain ⟨w1, h1, h2, h3, h4⟩ := ih hrest w
      refine ⟨w1, ?_, h2, h3, ?_⟩
      · unfold cleanOtherSubsets
        simp only [ht, if_true]
        exact h1
      · intro t2 control2 hin hne
        rcases List.mem_cons.mp hin with heq | hin
        · exact (hne ((Prod.mk.inj heq).1.trans ht)).elim
        · exact h4 t2 control2 hin hne
    · have hget := heff.getAll t control hmem w.cluster
      obtain ⟨w1, g1, g2⟩ :=
        deleteOtherSubsets_effect r ud owned nameOf heff t control hmem (owned w.cluster t) errs
          (w.afterCall w.cluster (Call.GetAllSubsets t (owned w.cluster t) none))
      obtain ⟨w2, h1, h2, h3, h4⟩ := ih hrest w1
      have hemp : owned w1.cluster t = [] := by
        rw [g2 t]
        simp only [if_true, World.afterCall]
        rw [List.filter_eq_nil_iff]
        intro o ho
        simp [ho]
      refine ⟨w2, ?_, ?_, ?_, ?_⟩
      · unfold cleanOtherSubsets
        simp only [ht, if_false, hget, g1]
        exact h1
      · rw [h2, g2 subsetType]
        have : ¬ subsetType = t := fun h => ht h.symm
        simp [this, World.afterCall]
      · intro t2 hz
        apply h3
        rw [g2 t2]
        by_cases h2t : t2 = t
        · rw [h2t]
          rw [g2 t] at hemp
          simpa [h2t] using hemp
        · simpa [h2t, World.afterCall] using hz
      · intro t2 control2 hin hne
        rcases List.mem_cons.mp hin with heq | hin
        · rw [(Prod.mk.inj heq).1]
          exact h3 t hemp
        · exact h4 t2 control2 hin hne

/-- The cleanup in a state where no other type of the registry has subsets:
it only lists, and changes nothing. -/
theorem cleanOtherSubsets_converged {σ : Type} (r : ReconcileUnitedDeployment σ)
    (ud : appsv1alpha1.UnitedDeployment) (subsetType : subSetType)
    (owned : σ → subSetType → List Subset) (nameOf : Subset → String)
    (heff : CallsTakeEffect r ud owned nameOf)
    (controls : List (subSetType × ControlInterface σ))
    (hsub : ∀ entry ∈ controls, entry ∈ r.subSetControls)
    (errs : List GoError) (w : World σ)
    (hempty : ∀ t control, (t, control) ∈ controls → t ≠ subsetType → owned w.cluster t = []) :
    ∃ w1 l,
      cleanOtherSubsets ud subsetType controls errs w = (errs, w1) ∧
      w1.cluster = w.cluster ∧ w1.calls = w.calls ++ l ∧ w1.events = w.events ∧
      ∀ call ∈ l, call.isGetAll = true := by
  induction controls generalizing w with
  | nil => exact ⟨w, [], by simp [cleanOtherSubsets], rfl, by simp, rfl, by simp⟩
  | cons entry rest ih =>
    obtain ⟨t, control⟩ := entry
    have hrest : ∀ entry ∈ rest, entry ∈ r.subSetControls :=
      fun e he => hsub e (List.mem_cons_of_mem _ he)
    have hmem : (t, control) ∈ r.subSetControls := hsub _ (List.mem_cons_self _ _)
    by_cases ht : t = subsetType
    · obtain ⟨w1, l, h1, h2, h3, h4, h5⟩ := ih hrest w
        (fun t2 c2 hin hne => hempty t2 c2 (List.mem_cons_of_mem _ hin) hne)
      refine ⟨w1, l, ?_, h2, h3, h4, h5⟩
      unfold cleanOtherSubsets
      simp only [ht, if_true]
      exact h1
    · have hget := heff.getAll t control hmem w.cluster
      have hnone : owned w.cluster t = [] := hempty t control (List.mem_cons_self _ _) ht
      obtain ⟨w1, l, h1, h2, h3, h4, h5⟩ := ih hrest
        (w.afterCall w.cluster (Call.GetAllSubsets t [] none))
        (fun t2 c2 hin hne => hempty t2 c2 (List.mem_cons_of_mem _ hin) hne)
      refine ⟨w1, Call.GetAllSubsets t [] none :: l, ?_, ?_, ?_, ?_, ?_⟩
      · unfold cleanOtherSubsets
        simp only [ht, if_false, hget, hnone, deleteOtherSubsets]
        exact h1
      · rw [h2]; rfl
      · rw [h3]; simp [World.afterCall]
      · rw [h4]; rfl
      · intro call hcall
        rcases List.mem_cons.mp hcall with rfl | hcall
        · rfl
        · exact h5 call hcall

theorem lookup_observedSubsets {σ : Type} (owned : σ → subSetType → List Subset)
    (nameOf : Subset → String) (subsetType : subSetType) (s : σ) (n : String) (o : Subset)
    (h : (observedSubsets owned nameOf subsetType s).lookup n = some o) :
    o ∈ owned s subsetType ∧ nameOf o = n := by
  have := mem_of_lookup_eq_some _ _ _ h
  simp only [observedSubsets, List.mem_map, Prod.mk.injEq] at this
  obtain ⟨o2, ho2, hn, ho⟩ := this
  subst ho
  exact ⟨ho2, hn⟩

theorem map_fst_observedSubsets {σ : Type} (owned : σ → subSetType → List Subset)
    (nameOf : Subset → String) (subsetType : subSetType) (s : σ) :
    (observedSubsets owned nameOf subsetType s).map (fun entry => entry.1)
      = (owned s subsetType).map nameOf := by
  simp [observedSubsets]

theorem lookup_observedSubsets_of_mem {σ : Type} (owned : σ → subSetType → List Subset)
    (nameOf : Subset → String) (subsetType : subSetType) (s : σ)
    (hnodup : ((owned s subsetType).map nameOf).Nodup) (o : Subset)
    (ho : o ∈ owned s subsetType) :
    (observedSubsets owned nameOf subsetType s).lookup (nameOf o) = some o := by
  obtain ⟨o2, h2⟩ := lookup_isSome_of_mem (observedSubsets owned nameOf subsetType s) (nameOf o)
    (by rw [map_fst_observedSubsets]; exact List.mem_map_of_mem _ ho)
  obtain ⟨hmem, hname⟩ := lookup_observedSubsets owned nameOf subsetType s _ _ h2
  rw [h2, List.inj_on_of_nodup_map hnodup hmem ho hname]

/-- The subsets of the active type after a pass whose calls succeed and take
effect carry exactly the names of the desired topology, each once. -/
theorem names_after_pass {σ : Type} (ud : appsv1alpha1.UnitedDeployment)
    (owned : σ → subSetType → List Subset) (nameOf : Subset → String)
    (subsetType : subSetType) (s : σ)
    (hnodup : ((owned s subsetType).map nameOf).Nodup) (created : List Subset)
    (hcreated : created.map nameOf
      = planCreates (expectedSubsetsOf ud)
          (gotSubsetsOf (observedSubsets owned nameOf subsetType s))) :
    (((owned s subsetType ++ created).filter (fun o => decide (o ∉
        (planDeletes (expectedSubsetsOf ud)
          (gotSubsetsOf (observedSubsets owned nameOf subsetType s))).filterMap
          (fun n => (observedSubsets owned nameOf subsetType s).lookup n)))).map nameOf).Nodup ∧
    ∀ n, n ∈ ((owned s subsetType ++ created).filter (fun o => decide (o ∉
        (planDeletes (expectedSubsetsOf ud)
          (gotSubsetsOf (observedSubsets owned nameOf subsetType s))).filterMap
          (fun n => (observedSubsets owned nameOf subsetType s).lookup n)))).map nameOf
      ↔ n ∈ expectedSubsetsOf ud := by
  have hgot : ∀ n, n ∈ gotSubsetsOf (observedSubsets owned nameOf subsetType s)
      ↔ n ∈ (owned s subsetType).map nameOf := by
    intro n
    rw [mem_gotSubsetsOf, map_fst_observedSubsets]
  have hcmem : ∀ o ∈ created, nameOf o ∈ expectedSubsetsOf ud ∧
      nameOf o ∉ (owned s subsetType).map nameOf := by
    intro o ho
    have : nameOf o ∈ created.map nameOf := List.mem_map_of_mem _ ho
    rw [hcreated, mem_planCreates, hgot] at this
    exact this
  -- the objects deleted are those whose name is in `deletes`
  have hold : ∀ o ∈ owned s subsetType,
      (o ∈ (planDeletes (expectedSubsetsOf ud)
          (gotSubsetsOf (observedSubsets owned nameOf subsetType s))).filterMap
          (fun n => (observedSubsets owned nameOf subsetType s).lookup n))
        ↔ nameOf o ∉ expectedSubsetsOf ud := by
    intro o ho
    rw [List.mem_filterMap]
    constructor
    · rintro ⟨d, hd, hlook⟩
      obtain ⟨_, hname⟩ := lookup_observedSubsets owned nameOf subsetType s d o hlook
      rw [hname]
      exact ((mem_planDeletes _ _ d).mp hd).2
    · intro hne
      refine ⟨nameOf o, ?_, lookup_observedSubsets_of_mem owned nameOf subsetType s hnodup o ho⟩
      rw [mem_planDeletes, hgot]
      exact ⟨List.mem_map_of_mem _ ho, hne⟩
  have hnew : ∀ o ∈ created,
      ¬ (o ∈ (planDeletes (expectedSubsetsOf ud)
          (gotSubsetsOf (observedSubsets owned nameOf subsetType s))).filterMap
          (fun n => (observedSubsets owned nameOf subsetType s).lookup n)) := by
    intro o ho hin
    rw [List.mem_filterMap] at hin
    obtain ⟨d, hd, hlook⟩ := hin
    obtain ⟨hmem, _⟩ := lookup_observedSubsets owned nameOf subsetType s d o hlook
    exact (hcmem o ho).2 (List.mem_map_of_mem _ hmem)
  have hfilter : (owned s subsetType ++ created).filter (fun o => decide (o ∉
        (planDeletes (expectedSubsetsOf ud)
          (gotSubsetsOf (observedSubsets owned nameOf subsetType s))).filterMap
          (fun n => (observedSubsets owned nameOf subsetType s).lookup n)))
      = (owned s subsetType).filter (fun o => decide (nameOf o ∈ expectedSubsetsOf ud))
        ++ created := by
    rw [List.filter_append]
    congr 1
    · apply List.filter_congr
      intro o ho
      simp only [hold o ho, not_not]
    · rw [List.filter_eq_self]
      intro o ho
      simpa using hnew o ho
  rw [hfilter, List.map_append, hcreated]
  have hmapf : ((owned s subsetType).filter
      (fun o => decide (nameOf o ∈ expectedSubsetsOf ud))).map nameOf
      = ((owned s subsetType).map nameOf).filter (fun n => decide (n ∈ expectedSubsetsOf ud)) := by
    rw [List.filter_map]
    rfl
  rw [hmapf]
  constructor
  · refine List.Nodup.append (hnodup.filter _)
      (nodup_of_sorted_lt _ (sorted_planCreates _ _ (nodup_expectedSubsetsOf ud))) ?_
    intro n h1 h2
    rw [List.mem_filter] at h1
    rw [mem_planCreates, hgot] at h2
    exact h2.2 h1.1
  · intro n
    rw [List.mem_append, List.mem_filter, mem_planCreates, hgot]
    simp only [decide_eq_true_eq]
    constructor
    · rintro (⟨_, h⟩ | ⟨h, _⟩) <;> exact h
    · intro h
      by_cases hin : n ∈ (owned s subsetType).map nameOf
      · exact Or.inl ⟨hin, h⟩
      · exact Or.inr ⟨h, hin⟩

/-- A pass whose calls all succeed and take effect: the pass returns without
error, every other type of the registry ends without subsets, and the subsets
of the active type carry exactly the names of the desired topology. -/
theorem manageSubsetProvision_converges {σ : Type} (c : Constants)
    (r : ReconcileUnitedDeployment σ) (ud : appsv1alpha1.UnitedDeployment)
    (nextReplicas nextPartitions : List (String × Int))
    (currentRevision : ControllerRevision) (updatedRevision : Option ControllerRevision)
    (subsetType : subSetType) (cluster : σ)
    (owned : σ → subSetType → List Subset) (nameOf : Subset → String)
    (heff : CallsTakeEffect r ud owned nameOf)
    (control : ControlInterface σ) (hreg : r.subSetControls.lookup subsetType = some control)
    (hB : 0 < c.slowStartInitialBatchSize)
    (hnodup : ((owned cluster subsetType).map nameOf).Nodup) :
    ∃ res,
      manageSubsetProvision c r ud (observedSubsets owned nameOf subsetType cluster)
        nextReplicas nextPartitions currentRevision updatedRevision subsetType cluster
        = some res ∧
      res.err = none ∧
      (∀ t control2, (t, control2) ∈ r.subSetControls → t ≠ subsetType →
        owned res.world.cluster t = []) ∧
      ((owned res.world.cluster subsetType).map nameOf).Nodup ∧
      (∀ n, n ∈ (owned res.world.cluster subsetType).map nameOf ↔ n ∈ expectedSubsetsOf ud) := by
  obtain ⟨w1, created, hcre, hnames, hown1⟩ :=
    manageCreating_effect c r ud nextReplicas nextPartitions currentRevision updatedRevision
      subsetType (planCreates (expectedSubsetsOf ud)
        (gotSubsetsOf (observedSubsets owned nameOf subsetType cluster)))
      owned nameOf heff control hreg hB [] ⟨cluster, [], []⟩
  obtain ⟨w2, hdel, hown2⟩ :=
    manageDeleting_effect c r ud (observedSubsets owned nameOf subsetType cluster) subsetType
      owned nameOf heff control hreg
      (planDeletes (expectedSubsetsOf ud)
        (gotSubsetsOf (observedSubsets owned nameOf subsetType cluster)))
      (planDeletes_lookup ud _) [] w1
  obtain ⟨w3, hclean, hsame, _, hempty⟩ :=
    cleanOtherSubsets_effect r ud subsetType owned nameOf heff r.subSetControls
      (fun _ h => h) [] w2
  have hfinal : owned w3.cluster subsetType
      = (owned cluster subsetType ++ created).filter (fun o => decide (o ∉
        (planDeletes (expectedSubsetsOf ud)
          (gotSubsetsOf (observedSubsets owned nameOf subsetType cluster))).filterMap
          (fun n => (observedSubsets owned nameOf subsetType cluster).lookup n))) := by
    rw [hsame, hown2 subsetType, hown1 subsetType]
    simp
  obtain ⟨hnd, hmem⟩ := names_after_pass ud owned nameOf subsetType cluster hnodup created hnames
  refine ⟨⟨(expectedSubsetsOf ud).Intersection
      (gotSubsetsOf (observedSubsets owned nameOf subsetType cluster)), NewAggregate [], w3⟩,
    ?_, rfl, hempty, ?_, ?_⟩
  · unfold manageSubsetProvision
    simp only [hcre, hdel, hclean]
  · show ((owned w3.cluster subsetType).map nameOf).Nodup
    rw [hfinal]
    exact hnd
  · intro n
    show n ∈ (owned w3.cluster subsetType).map nameOf ↔ _
    rw [hfinal]
    exact hmem n

/-- A pass over a state that already matches the desired topology, when every
listing succeeds: the pass makes no `CreateSubset` and no `DeleteSubset` call,
retains every expected name and returns no error. -/
theorem manageSubsetProvision_converged {σ : Type} (c : Constants)
    (r : ReconcileUnitedDeployment σ) (ud : appsv1alpha1.UnitedDeployment)
    (nextReplicas nextPartitions : List (String × Int))
    (currentRevision : ControllerRevision) (updatedRevision : Option ControllerRevision)
    (subsetType : subSetType) (cluster : σ)
    (owned : σ → subSetType → List Subset) (nameOf : Subset → String)
    (heff : CallsTakeEffect r ud owned nameOf)
    (hempty : ∀ t control2, (t, control2) ∈ r.subSetControls → t ≠ subsetType →
      owned cluster t = [])
    (hmem : ∀ n, n ∈ (owned cluster subsetType).map nameOf ↔ n ∈ expectedSubsetsOf ud) :
    ∃ res,
      manageSubsetProvision c r ud (observedSubsets owned nameOf subsetType cluster)
        nextReplicas nextPartitions currentRevision updatedRevision subsetType cluster
        = some res ∧
      res.err = none ∧
      res.world.calls.filter Call.isCreate = [] ∧
      res.world.calls.filter Call.isDelete = [] ∧
      res.world.cluster = cluster ∧
      (∀ n, n ∈ res.retained ↔ n ∈ expectedSubsetsOf ud) := by
  have hgot : ∀ n, n ∈ gotSubsetsOf (observedSubsets owned nameOf subsetType cluster)
      ↔ n ∈ expectedSubsetsOf ud := by
    intro n
    rw [mem_gotSubsetsOf, map_fst_observedSubsets, hmem]
  have hcreates : planCreates (expectedSubsetsOf ud)
      (gotSubsetsOf (observedSubsets owned nameOf subsetType cluster)) = [] := by
    rw [List.eq_nil_iff_forall_not_mem]
    intro n hn
    rw [mem_planCreates, hgot] at hn
    exact hn.2 hn.1
  have hdeletes : planDeletes (expectedSubsetsOf ud)
      (gotSubsetsOf (observedSubsets owned nameOf subsetType cluster)) = [] := by
    rw [List.eq_nil_iff_forall_not_mem]
    intro n hn
    rw [mem_planDeletes, hgot] at hn
    exact hn.2 hn.1
  obtain ⟨w1, l, hclean, hcl, hcalls, _, hall⟩ :=
    cleanOtherSubsets_converged r ud subsetType owned nameOf heff r.subSetControls
      (fun _ h => h) [] ⟨cluster, [], []⟩ hempty
  refine ⟨⟨(expectedSubsetsOf ud).Intersection
      (gotSubsetsOf (observedSubsets owned nameOf subsetType cluster)), NewAggregate [], w1⟩,
    ?_, rfl, ?_, ?_, hcl, ?_⟩
  · unfold manageSubsetProvision
    simp only [hcreates, hdeletes, manageCreating, manageDeleting, List.length_nil, gt_iff_lt,
      Nat.lt_irrefl, if_false, hclean]
  · show w1.calls.filter Call.isCreate = []
    rw [hcalls, List.filter_eq_nil_iff]
    intro call hcall
    have hg := hall call (by simpa using hcall)
    cases call <;> simp_all [Call.isGetAll, Call.isCreate]
  · show w1.calls.filter Call.isDelete = []
    rw [hcalls, List.filter_eq_nil_iff]
    intro call hcall
    have hg := hall call (by simpa using hcall)
    cases call <;> simp_all [Call.isGetAll, Call.isDelete]
  · intro n
    show n ∈ (expectedSubsetsOf ud).Intersection _ ↔ _
    rw [stringSet_mem_Intersection, hgot]
    exact and_self_iff

theorem exampleRegistry_takes_effect (ud : appsv1alpha1.UnitedDeployment) :
    CallsTakeEffect exampleRegistry ud (fun s t => s t) (fun o => o.Name) := by
  have hcases : ∀ (t : subSetType) (control : ControlInterface ExampleCluster),
      (t, control) ∈ exampleRegistry.subSetControls → control = clusterControl t := by
    intro t control h
    simp only [exampleRegistry, List.mem_cons, Prod.mk.injEq, List.mem_singleton,
      List.not_mem_nil, or_false] at h
    rcases h with ⟨rfl, rfl⟩ | ⟨rfl, rfl⟩ <;> rfl
  refine ⟨?_, ?_, ?_⟩
  · intro t control h s
    rw [hcases t control h]
    rfl
  · intro t control h subset s
    rw [hcases t control h]
    exact ⟨rfl, fun _ => rfl⟩
  · intro t control h subsetName revision replicas partition s
    rw [hcases t control h]
    exact ⟨rfl, ⟨ud.Namespace, subsetName⟩, rfl, fun _ => rfl⟩

/-- C11: for an object whose active type changed from `X` to `Y`, after a
pass in which every call succeeds and takes effect (initial batch size at
least 1, observed map taken from the cluster state, with distinct logical
names): the pass returns no error, the object owns no subset of type `X`, and
its subsets of type `Y` carry exactly the names of the desired topology, each
once, so that their number is the number of names of the topology. -/
theorem C11_type_migration {σ : Type} (c : Constants) (r : ReconcileUnitedDeployment σ)
    (ud : appsv1alpha1.UnitedDeployment) (nextReplicas nextPartitions : List (String × Int))
    (currentRevision : ControllerRevision) (updatedRevision : Option ControllerRevision)
    (X Y : subSetType) (cluster : σ)
    (owned : σ → subSetType → List Subset) (nameOf : Subset → String)
    (heff : CallsTakeEffect r ud owned nameOf)
    (controlY : ControlInterface σ) (hreg : r.subSetControls.lookup Y = some controlY)
    (controlX : ControlInterface σ) (hX : (X, controlX) ∈ r.subSetControls) (hXY : X ≠ Y)
    (hB : 0 < c.slowStartInitialBatchSize)
    (hnodup : ((owned cluster Y).map nameOf).Nodup) :
    ∃ res,
      manageSubsetProvision c r ud (observedSubsets owned nameOf Y cluster)
        nextReplicas nextPartitions currentRevision updatedRevision Y cluster = some res ∧
      res.err = none ∧
      owned res.world.cluster X = [] ∧
      (∀ n, n ∈ (owned res.world.cluster Y).map nameOf ↔
        n ∈ ud.Spec.Topology.Subsets.map (fun subset => subset.Name)) ∧
      ((owned res.world.cluster Y).map nameOf).Nodup ∧
      (owned res.world.cluster Y).length = (expectedSubsetsOf ud).length ∧
      ((ud.Spec.Topology.Subsets.map (fun subset => subset.Name)).Nodup →
        (owned res.world.cluster Y).length = ud.Spec.Topology.Subsets.length) := by
  obtain ⟨res, hres, herr, hempty, hnd, hmem⟩ :=
    manageSubsetProvision_converges c r ud nextReplicas nextPartitions currentRevision
      updatedRevision Y cluster owned nameOf heff controlY hreg hB hnodup
  have hperm : ((owned res.world.cluster Y).map nameOf).Perm (expectedSubsetsOf ud) :=
    (List.perm_ext_iff_of_nodup hnd (nodup_expectedSubsetsOf ud)).mpr hmem
  have hlen : (owned res.world.cluster Y).length = (expectedSubsetsOf ud).length := by
    rw [← hperm.length_eq, List.length_map]
  refine ⟨res, hres, herr, hempty X controlX hX hXY, ?_, hnd, hlen, ?_⟩
  · intro n
    rw [hmem, mem_expectedSubsetsOf]
  · intro htop
    have hperm2 : (expectedSubsetsOf ud).Perm
        (ud.Spec.Topology.Subsets.map (fun subset => subset.Name)) :=
      (List.perm_ext_iff_of_nodup (nodup_expectedSubsetsOf ud) htop).mpr
        (fun n => mem_expectedSubsetsOf ud n)
    rw [hlen, hperm2.length_eq, List.length_map]

theorem C11_type_migration_witness :
    (manageSubsetProvision exampleConstants exampleRegistry exampleUD
      (observedSubsets (fun s t => s t) (fun o => o.Name) "StatefulSet" exampleClusterState)
      [] [] ⟨"rev-1"⟩ none "StatefulSet" exampleClusterState).map
        (fun res => (res.world.cluster "Deployment", res.world.cluster "StatefulSet"))
      = some ([], [⟨"default", "a"⟩, ⟨"default", "b"⟩, ⟨"default", "c"⟩]) ∧
    ∃ (res : ProvisionResult ExampleCluster),
      manageSubsetProvision exampleConstants exampleRegistry exampleUD
        (observedSubsets (fun s t => s t) (fun o => o.Name) "StatefulSet" exampleClusterState)
        [] [] ⟨"rev-1"⟩ none "StatefulSet" exampleClusterState = some res ∧
      res.err = none ∧ res.world.cluster "Deployment" = [] ∧
      (res.world.cluster "StatefulSet").length = 3 := by
  refine ⟨by decide, ?_⟩
  obtain ⟨res, hres, herr, hX, _, _, _, hlen⟩ :=
    C11_type_migration exampleConstants exampleRegistry exampleUD [] [] ⟨"rev-1"⟩ none
      "Deployment" "StatefulSet" exampleClusterState (fun s t => s t) (fun o => o.Name)
      (exampleRegistry_takes_effect exampleUD) (clusterControl "StatefulSet") rfl
      (clusterControl "Deployment") (List.mem_cons_of_mem _ (List.mem_cons_self _ _))
      (by decide) (by decide) (by decide)
  exact ⟨res, hres, herr, hX, hlen (by decide)⟩

/-- C12: once a pass has completed with every call succeeding and taking
effect, a second pass with the same desired topology over the resulting cluster
state makes no `CreateSubset` and no `DeleteSubset` call, returns every name of
the desired topology as retained and returns no error. -/
theorem C12_second_pass_idle {σ : Type} (c : Constants) (r : ReconcileUnitedDeployment σ)
    (ud : appsv1alpha1.UnitedDeployment) (nextReplicas nextPartitions : List (String × Int))
    (currentRevision : ControllerRevision) (updatedRevision : Option ControllerRevision)
    (subsetType : subSetType) (cluster : σ)
    (owned : σ → subSetType → List Subset) (nameOf : Subset → String)
    (heff : CallsTakeEffect r ud owned nameOf)
    (control : ControlInterface σ) (hreg : r.subSetControls.lookup subsetType = some control)
    (hB : 0 < c.slowStartInitialBatchSize)
    (hnodup : ((owned cluster subsetType).map nameOf).Nodup) :
    ∃ res1 res2,
      manageSubsetProvision c r ud (observedSubsets owned nameOf subsetType cluster)
        nextReplicas nextPartitions currentRevision updatedRevision subsetType cluster
        = some res1 ∧
      manageSubsetProvision c r ud
        (observedSubsets owned nameOf subsetType res1.world.cluster)
        nextReplicas nextPartitions currentRevision updatedRevision subsetType
        res1.world.cluster = some res2 ∧
      res2.world.calls.filter Call.isCreate = [] ∧
      res2.world.calls.filter Call.isDelete = [] ∧
      (∀ n, n ∈ res2.retained ↔ n ∈ ud.Spec.Topology.Subsets.map (fun subset => subset.Name)) ∧
      res2.err = none ∧
      res2.world.cluster = res1.world.cluster := by
  obtain ⟨res1, hres1, _, hempty, _, hmem⟩ :=
    manageSubsetProvision_converges c r ud nextReplicas nextPartitions currentRevision
      updatedRevision subsetType cluster owned nameOf heff control hreg hB hnodup
  obtain ⟨res2, hres2, herr, hcre, hdel, hsame, hret⟩ :=
    manageSubsetProvision_converged c r ud nextReplicas nextPartitions currentRevision
      updatedRevision subsetType res1.world.cluster owned nameOf heff hempty hmem
  refine ⟨res1, res2, hres1, hres2, hcre, hdel, ?_, herr, hsame⟩
  intro n
  rw [hret, mem_expectedSubsetsOf]

theorem C12_second_pass_idle_witness :
    ((manageSubsetProvision exampleConstants exampleRegistry exampleUD
      (observedSubsets (fun s t => s t) (fun o => o.Name) "StatefulSet" exampleClusterState)
      [] [] ⟨"rev-1"⟩ none "StatefulSet" exampleClusterState).bind
        (fun res1 => manageSubsetProvision exampleConstants exampleRegistry exampleUD
          (observedSubsets (fun s t => s t) (fun o => o.Name) "StatefulSet" res1.world.cluster)
          [] [] ⟨"rev-1"⟩ none "StatefulSet" res1.world.cluster)).map
        (fun res2 => (res2.world.calls, StringSet.List res2.retained, res2.err))
      = some ([Call.GetAllSubsets "Deployment" [] none], ["a", "b", "c"], none) ∧
    ∃ (res1 res2 : ProvisionResult ExampleCluster),
      manageSubsetProvision exampleConstants exampleRegistry exampleUD
        (observedSubsets (fun s t => s t) (fun o => o.Name) "StatefulSet" exampleClusterState)
        [] [] ⟨"rev-1"⟩ none "StatefulSet" exampleClusterState = some res1 ∧
      manageSubsetProvision exampleConstants exampleRegistry exampleUD
        (observedSubsets (fun s t => s t) (fun o => o.Name) "StatefulSet" res1.world.cluster)
        [] [] ⟨"rev-1"⟩ none "StatefulSet" res1.world.cluster = some res2 ∧
      res2.world.calls.filter Call.isCreate = [] ∧
      res2.world.calls.filter Call.isDelete = [] ∧ res2.err = none := by
  refine ⟨by decide, ?_⟩
  obtain ⟨res1, res2, h1, h2, hcre, hdel, _, herr, _⟩ :=
    C12_second_pass_idle exampleConstants exampleRegistry exampleUD [] [] ⟨"rev-1"⟩ none
      "StatefulSet" exampleClusterState (fun s t => s t) (fun o => o.Name)
      (exampleRegistry_takes_effect exampleUD) (clusterControl "StatefulSet") rfl
      (by decide) (by decide)
  exact ⟨res1, res2, h1, h2, hcre, hdel, herr⟩

end uniteddeployment
